import Mathlib

/-!
Shallow embedding of the many-to-many table engine of this repository
(engine/routing_algorithms/many_to_many.cpp): the CH and MLD bucket-based
many-to-many searches, together with the facade views they consume.

Machine integers: `EdgeWeight`/`EdgeDuration` are C++ 32-bit signed ints; every
addition performed by the embedded code goes through `i32add`, which wraps the
mathematical sum into `[-2^31, 2^31)` exactly as twos-complement arithmetic
does.  Sentinels `INVALID_EDGE_WEIGHT` and `MAXIMAL_EDGE_DURATION` are both
`2^31 - 1` (`std::numeric_limits<std::int32_t>::max()`).

The query heap, the facade, the phantom-node injection helpers
(`insertSourceInHeap` / `insertTargetInHeap`), `getLoopWeight` and
`stallAtNode` live in headers that are not part of the provided sources; they
are modelled from the spec where so marked.  The heap is the osrm addressable
min-heap: `inserted` keeps every node ever inserted (with its current key and
payload, still readable after the node is popped), `opens` the not-yet-popped
nodes.  `deleteMin` pops the open node with the smallest key, earliest
insertion first among ties — a deterministic refinement of the unspecified
d-ary-heap tie order.
-/

namespace Osrm

/-- Twos-complement wraparound of a mathematical integer into 32 bits. -/
def wrap32 (x : Int) : Int := (x + 2147483648) % 4294967296 - 2147483648

/-- 32-bit signed addition with wraparound, the arithmetic all `EdgeWeight` /
`EdgeDuration` sums in the source go through. -/
def i32add (a b : Int) : Int := wrap32 (a + b)

/-- `INVALID_EDGE_WEIGHT = std::numeric_limits<std::int32_t>::max()`. -/
def INVALID_EDGE_WEIGHT : Int := 2147483647

/-- `MAXIMAL_EDGE_DURATION = std::numeric_limits<std::int32_t>::max()`. -/
def MAXIMAL_EDGE_DURATION : Int := 2147483647

abbrev NodeID := Nat

/-! ## The addressable query heap -/

/-- One record of the heap node storage: a node ever inserted, its current
key (tentative weight) and its payload data. -/
structure HeapEntry (D : Type) where
  node : NodeID
  key : Int
  data : D
deriving Repr, DecidableEq

/-- Modelled from the spec: the osrm `QueryHeap` with node payloads.
`inserted` is the persistent node storage (insertion order), `opens` the
not-yet-popped nodes. -/
structure Heap (D : Type) where
  inserted : List (HeapEntry D)
  opens : List NodeID
deriving Repr, DecidableEq

namespace Heap

variable {D : Type}

/-- The empty heap (after `Clear`). -/
def init : Heap D := ⟨[], []⟩

/-- `WasInserted`: true for every node inserted since the last clear,
including already-popped ones. -/
def wasInserted (h : Heap D) (n : NodeID) : Bool :=
  h.inserted.any (fun e => e.node == n)

/-- `GetKey`; only meaningful for inserted nodes (0 is a junk default standing
for the C++ undefined read). -/
def getKey (h : Heap D) (n : NodeID) : Int :=
  match h.inserted.find? (fun e => e.node == n) with
  | some e => e.key
  | none => 0

/-- `GetData`; only meaningful for inserted nodes. -/
def getData [Inhabited D] (h : Heap D) (n : NodeID) : D :=
  match h.inserted.find? (fun e => e.node == n) with
  | some e => e.data
  | none => default

/-- `Insert`; the caller guarantees the node was not inserted before. -/
def insert (h : Heap D) (n : NodeID) (k : Int) (d : D) : Heap D :=
  ⟨h.inserted ++ [⟨n, k, d⟩], h.opens ++ [n]⟩

/-- The C++ pattern `GetData(to) = {...}; DecreaseKey(to, w)` as one
operation: overwrite the stored key and data of an inserted node. -/
def updateEntry (h : Heap D) (n : NodeID) (k : Int) (d : D) : Heap D :=
  ⟨h.inserted.map (fun e => if e.node == n then ⟨n, k, d⟩ else e), h.opens⟩

/-- The open node with the smallest key; earliest inserted wins ties. -/
def findMin (h : Heap D) : Option NodeID :=
  h.opens.foldl
    (fun acc n =>
      match acc with
      | none => some n
      | some b => if h.getKey n < h.getKey b then some n else acc)
    none

/-- `DeleteMin`: pop the minimum open node.  The node stays in `inserted`, so
its key and data remain readable, as in the osrm heap.  On an empty heap this
returns node 0 and the unchanged heap (the C++ call would be undefined). -/
def deleteMin (h : Heap D) : NodeID × Heap D :=
  match h.findMin with
  | some n => (n, ⟨h.inserted, h.opens.erase n⟩)
  | none => (0, h)

end Heap

/-- The repeated relaxation pattern of the source (verbatim at
many_to_many.cpp lines 57-68, 279-287, 308-316 and 341-352): insert a newly
discovered node, or decrease-key and overwrite the payload when the new
tentative weight is smaller. -/
def heapRelax {D : Type} (q : Heap D) (toNode : NodeID) (k : Int) (d : D) : Heap D :=
  if ¬ q.wasInserted toNode then q.insert toNode k d
  else if k < q.getKey toNode then q.updateEntry toNode k d
  else q

/-! ## Buckets and tables -/

/-- `NodeBucket` (many_to_many.cpp lines 20-29): one backward-search
contribution — the target column, and the weight/duration from the settled
node to that target. -/
structure NodeBucket where
  target_id : Nat
  weight : Int
  duration : Int
deriving Repr, DecidableEq

/-- `SearchSpaceWithBuckets`: node → append-only bucket list, as an
association list (the `std::unordered_map` iteration order is never used by
the source, only per-node lists are). -/
abbrev SearchSpaceWithBuckets := List (NodeID × List NodeBucket)

/-- Lookup (`search_space_with_buckets.find(node)`). -/
def bucketFind (b : SearchSpaceWithBuckets) (n : NodeID) : Option (List NodeBucket) :=
  (b.find? (fun p => p.1 == n)).map (fun p => p.2)

/-- `search_space_with_buckets[node].emplace_back(...)`. -/
def bucketAppend (b : SearchSpaceWithBuckets) (n : NodeID) (e : NodeBucket) :
    SearchSpaceWithBuckets :=
  match b with
  | [] => [(n, [e])]
  | p :: rest =>
      if p.1 == n then (p.1, p.2 ++ [e]) :: rest else p :: bucketAppend rest n e

/-! ## Phantom nodes -/

/-- `SegmentID { id, enabled }`. -/
structure SegmentID where
  id : NodeID
  enabled : Bool
deriving Repr, DecidableEq

/-- Modelled from the spec: a phantom node carries forward and reverse
`SegmentId`s plus the offset weights/durations injected into the heap at
search start (the snapping machinery itself is out of scope). -/
structure PhantomNode where
  forward_segment_id : SegmentID
  reverse_segment_id : SegmentID
  forwardWeight : Int
  forwardDuration : Int
  reverseWeight : Int
  reverseDuration : Int
deriving Repr, DecidableEq

instance : Inhabited PhantomNode :=
  ⟨⟨⟨0, false⟩, ⟨0, false⟩, 0, 0, 0, 0⟩⟩

/-- The phantom lists actually iterated by `manyToManySearch`: an empty index
list means all phantoms in order, otherwise the indices select into the
phantom vector (out-of-range selection, undefined in C++, yields the default
phantom). -/
def selectPhantoms (phantoms : List PhantomNode) (indices : List Nat) : List PhantomNode :=
  if indices.isEmpty then phantoms
  else indices.map (fun i => phantoms.getD i default)

/-! ## Generic search state and loop -/

/-- The mutable state of one many-to-many call: the scratch heap, the bucket
index and the two output tables, threaded through every routing step exactly
as the C++ locals are. -/
structure SState (D : Type) where
  heap : Heap D
  buckets : SearchSpaceWithBuckets
  weights : List Int
  durations : List Int
deriving Repr, DecidableEq

/-- The `while (!query_heap.Empty()) step()` loop, fuel-bounded.  The callers
supply `facade.numNodes` fuel, which `searchLoop_complete` below proves
sufficient on well-formed inputs. -/
def searchLoop {D : Type} (step : SState D → SState D) : Nat → SState D → SState D
  | 0, st => st
  | Nat.succ fuel, st =>
      if st.heap.opens.isEmpty then st else searchLoop step fuel (step st)

/-! ## CH search core -/

/-- Edge record of the CH facade `GetEdgeData`/`GetTarget`. -/
structure ChEdgeData where
  target : NodeID
  weight : Int
  duration : Int
  forward : Bool
  backward : Bool
deriving Repr, DecidableEq

/-- The CH graph facade view: node count and adjacency. -/
structure ChFacade where
  numNodes : Nat
  adjacent : NodeID → List ChEdgeData

/-- CH heap payload: `{ parent, duration }`. -/
structure ChHeapData where
  parent : NodeID
  duration : Int
deriving Repr, DecidableEq

instance : Inhabited ChHeapData := ⟨⟨0, 0⟩⟩

namespace ch

/-- Modelled from the spec (`routing_base_ch.hpp`, not under src/):
`getLoopWeight<UseDuration>` — the minimum over the forward-direction
self-loops at a node of the loop weight (`UseDuration = false`) or duration
(`UseDuration = true`); the sentinel when the node has no such loop. -/
def getLoopWeight (useDuration : Bool) (facade : ChFacade) (node : NodeID) : Int :=
  (facade.adjacent node).foldl
    (fun acc e =>
      if e.forward && e.target == node then
        min acc (if useDuration then e.duration else e.weight)
      else acc)
    (if useDuration then MAXIMAL_EDGE_DURATION else INVALID_EDGE_WEIGHT)

/-- Modelled from the spec (`routing_base_ch.hpp`, not under src/):
stall-on-demand — traverse the edges oriented opposite to the search
direction at `node`; if one leads to a heap-inserted node whose key plus the
edge weight does not exceed the popped key, the node is dominated and pruned. -/
def stallAtNode (dirForward : Bool) (facade : ChFacade) (node : NodeID)
    (weight : Int) (q : Heap ChHeapData) : Bool :=
  (facade.adjacent node).any
    (fun e =>
      (if dirForward then e.backward else e.forward) &&
      q.wasInserted e.target &&
      decide (i32add (q.getKey e.target) e.weight ≤ weight))

/-- `ch::relaxOutgoingEdges` (lines 37-71): relax the direction-flagged
adjacent edges of a settled node. -/
def relaxOutgoingEdges (dirForward : Bool) (facade : ChFacade) (node : NodeID)
    (weight duration : Int) (h : Heap ChHeapData) : Heap ChHeapData :=
  (facade.adjacent node).foldl
    (fun q e =>
      if (if dirForward then e.forward else e.backward) then
        heapRelax q e.target (i32add weight e.weight) ⟨node, i32add duration e.duration⟩
      else q)
    h

/-- The per-bucket-entry table-cell update of `ch::forwardRoutingStep`
(lines 94-119), on the referenced cell `(cw, cd)`: overflow triggers loop
repair with the loop weight of the node `loopW` and loop duration `loopD`;
otherwise a strictly better weight replaces both cell components. -/
def bucketHitCell (loopW loopD cw cd sw sd tw td : Int) : Int × Int :=
  let new_weight := i32add sw tw
  if new_weight < 0 then
    let new_weight_with_loop := i32add new_weight loopW
    if loopW ≠ INVALID_EDGE_WEIGHT ∧ 0 ≤ new_weight_with_loop then
      (min cw new_weight_with_loop,
       min cd (i32add (i32add sd td) loopD))
    else (cw, cd)
  else if new_weight < cw then (new_weight, i32add sd td)
  else (cw, cd)

/-- One bucket entry applied to the tables: read the cell at
`row_idx * number_of_targets + column_idx`, update it via `bucketHitCell`. -/
def bucketHit (facade : ChFacade) (node : NodeID) (rowBase : Nat) (sw sd : Int)
    (tables : List Int × List Int) (b : NodeBucket) : List Int × List Int :=
  let idx := rowBase + b.target_id
  let cw := tables.1.getD idx 0
  let cd := tables.2.getD idx 0
  let r := bucketHitCell (getLoopWeight false facade node) (getLoopWeight true facade node)
    cw cd sw sd b.weight b.duration
  (tables.1.set idx r.1, tables.2.set idx r.2)

/-- `ch::forwardRoutingStep` (lines 73-128): pop the minimum node, fold its
bucket list into the tables, then stall-check and relax forward edges. -/
def forwardRoutingStep (facade : ChFacade) (row_idx number_of_targets : Nat)
    (st : SState ChHeapData) : SState ChHeapData :=
  let pop := st.heap.deleteMin
  let node := pop.1
  let source_weight := st.heap.getKey node
  let source_duration := (st.heap.getData node).duration
  let tables :=
    match bucketFind st.buckets node with
    | some bucket_list =>
        bucket_list.foldl
          (bucketHit facade node (row_idx * number_of_targets) source_weight source_duration)
          (st.weights, st.durations)
    | none => (st.weights, st.durations)
  if stallAtNode true facade node source_weight pop.2 then
    { st with heap := pop.2, weights := tables.1, durations := tables.2 }
  else
    { st with
      heap := relaxOutgoingEdges true facade node source_weight source_duration pop.2,
      weights := tables.1, durations := tables.2 }

/-- `ch::forwardRoutingStep` with the stall-on-demand check removed — the
variant the spec calls "toggling it off", for the refinement claim. -/
def forwardRoutingStepNoStall (facade : ChFacade) (row_idx number_of_targets : Nat)
    (st : SState ChHeapData) : SState ChHeapData :=
  let pop := st.heap.deleteMin
  let node := pop.1
  let source_weight := st.heap.getKey node
  let source_duration := (st.heap.getData node).duration
  let tables :=
    match bucketFind st.buckets node with
    | some bucket_list =>
        bucket_list.foldl
          (bucketHit facade node (row_idx * number_of_targets) source_weight source_duration)
          (st.weights, st.durations)
    | none => (st.weights, st.durations)
  { st with
    heap := relaxOutgoingEdges true facade node source_weight source_duration pop.2,
    weights := tables.1, durations := tables.2 }

/-- `ch::backwardRoutingStep` (lines 130-148): pop the minimum node, append
its bucket entry for the current column, then stall-check and relax backward
edges. -/
def backwardRoutingStep (facade : ChFacade) (column_idx : Nat)
    (st : SState ChHeapData) : SState ChHeapData :=
  let pop := st.heap.deleteMin
  let node := pop.1
  let target_weight := st.heap.getKey node
  let target_duration := (st.heap.getData node).duration
  let buckets1 := bucketAppend st.buckets node ⟨column_idx, target_weight, target_duration⟩
  if stallAtNode false facade node target_weight pop.2 then
    { st with heap := pop.2, buckets := buckets1 }
  else
    { st with
      heap := relaxOutgoingEdges false facade node target_weight target_duration pop.2,
      buckets := buckets1 }

/-- `ch::backwardRoutingStep` with the stall-on-demand check removed. -/
def backwardRoutingStepNoStall (facade : ChFacade) (column_idx : Nat)
    (st : SState ChHeapData) : SState ChHeapData :=
  let pop := st.heap.deleteMin
  let node := pop.1
  let target_weight := st.heap.getKey node
  let target_duration := (st.heap.getData node).duration
  let buckets1 := bucketAppend st.buckets node ⟨column_idx, target_weight, target_duration⟩
  { st with
    heap := relaxOutgoingEdges false facade node target_weight target_duration pop.2,
    buckets := buckets1 }

/-- Modelled from the spec (`many_to_many.hpp`, not under src/):
`insertSourceInHeap`/`insertTargetInHeap` inject the enabled segment
candidates of the phantom with their offset weights/durations; `parent` is the
seeded node itself.  A segment whose node is already in the heap is skipped. -/
def insertSegment (h : Heap ChHeapData) (seg : SegmentID) (w d : Int) : Heap ChHeapData :=
  if seg.enabled && ¬ h.wasInserted seg.id then h.insert seg.id w ⟨seg.id, d⟩ else h

/-- Modelled from the spec: seed a forward search from a source phantom. -/
def insertSourceInHeap (h : Heap ChHeapData) (ph : PhantomNode) : Heap ChHeapData :=
  insertSegment
    (insertSegment h ph.forward_segment_id ph.forwardWeight ph.forwardDuration)
    ph.reverse_segment_id ph.reverseWeight ph.reverseDuration

/-- Modelled from the spec: seed a backward search from a target phantom. -/
def insertTargetInHeap (h : Heap ChHeapData) (ph : PhantomNode) : Heap ChHeapData :=
  insertSegment
    (insertSegment h ph.forward_segment_id ph.forwardWeight ph.forwardDuration)
    ph.reverse_segment_id ph.reverseWeight ph.reverseDuration

/-- `search_target_phantom` (lines 173-184): clear the heap, seed the target
phantom, run backward routing steps until the heap empties. -/
def runBackward (facade : ChFacade) (st : SState ChHeapData) (column_idx : Nat)
    (ph : PhantomNode) : SState ChHeapData :=
  searchLoop (backwardRoutingStep facade column_idx) facade.numNodes
    { st with heap := insertTargetInHeap Heap.init ph }

/-- `search_source_phantom` (lines 188-205). -/
def runForward (facade : ChFacade) (number_of_targets : Nat) (st : SState ChHeapData)
    (row_idx : Nat) (ph : PhantomNode) : SState ChHeapData :=
  searchLoop (forwardRoutingStep facade row_idx number_of_targets) facade.numNodes
    { st with heap := insertSourceInHeap Heap.init ph }

/-- The target loop of `ch::manyToManySearch` (lines 207-221): one backward
search per target phantom, columns assigned by the running counter. -/
def backwardPhase (facade : ChFacade) :
    List PhantomNode → SState ChHeapData → Nat → SState ChHeapData
  | [], st, _ => st
  | ph :: rest, st, col => backwardPhase facade rest (runBackward facade st col ph) (col + 1)

/-- The source loop of `ch::manyToManySearch` (lines 223-237). -/
def forwardPhase (facade : ChFacade) (number_of_targets : Nat) :
    List PhantomNode → SState ChHeapData → Nat → SState ChHeapData
  | [], st, _ => st
  | ph :: rest, st, row =>
      forwardPhase facade number_of_targets rest
        (runForward facade number_of_targets st row ph) (row + 1)

/-- `ch::manyToManySearch` (lines 150-240), exposing the full final state
(tables, buckets, heap). -/
def manyToManyState (facade : ChFacade) (phantom_nodes : List PhantomNode)
    (source_indices target_indices : List Nat) : SState ChHeapData :=
  let number_of_sources :=
    if source_indices.isEmpty then phantom_nodes.length else source_indices.length
  let number_of_targets :=
    if target_indices.isEmpty then phantom_nodes.length else target_indices.length
  let number_of_entries := number_of_sources * number_of_targets
  let init : SState ChHeapData :=
    ⟨Heap.init, [],
     List.replicate number_of_entries INVALID_EDGE_WEIGHT,
     List.replicate number_of_entries MAXIMAL_EDGE_DURATION⟩
  let afterBackward := backwardPhase facade (selectPhantoms phantom_nodes target_indices) init 0
  forwardPhase facade number_of_targets (selectPhantoms phantom_nodes source_indices)
    afterBackward 0

/-- `ch::manyToManySearch`: the returned durations table. -/
def manyToManySearch (facade : ChFacade) (phantom_nodes : List PhantomNode)
    (source_indices target_indices : List Nat) : List Int :=
  (manyToManyState facade phantom_nodes source_indices target_indices).durations

/-- Stall-free variant of `runBackward`. -/
def runBackwardNoStall (facade : ChFacade) (st : SState ChHeapData) (column_idx : Nat)
    (ph : PhantomNode) : SState ChHeapData :=
  searchLoop (backwardRoutingStepNoStall facade column_idx) facade.numNodes
    { st with heap := insertTargetInHeap Heap.init ph }

/-- Stall-free variant of `runForward`. -/
def runForwardNoStall (facade : ChFacade) (number_of_targets : Nat) (st : SState ChHeapData)
    (row_idx : Nat) (ph : PhantomNode) : SState ChHeapData :=
  searchLoop (forwardRoutingStepNoStall facade row_idx number_of_targets) facade.numNodes
    { st with heap := insertSourceInHeap Heap.init ph }

/-- Stall-free variant of `backwardPhase`. -/
def backwardPhaseNoStall (facade : ChFacade) :
    List PhantomNode → SState ChHeapData → Nat → SState ChHeapData
  | [], st, _ => st
  | ph :: rest, st, col =>
      backwardPhaseNoStall facade rest (runBackwardNoStall facade st col ph) (col + 1)

/-- Stall-free variant of `forwardPhase`. -/
def forwardPhaseNoStall (facade : ChFacade) (number_of_targets : Nat) :
    List PhantomNode → SState ChHeapData → Nat → SState ChHeapData
  | [], st, _ => st
  | ph :: rest, st, row =>
      forwardPhaseNoStall facade number_of_targets rest
        (runForwardNoStall facade number_of_targets st row ph) (row + 1)

/-- The whole CH search with both stall-on-demand checks removed (the toggled-off variant
of the spec), exposing the full final state. -/
def manyToManyStateNoStall (facade : ChFacade) (phantom_nodes : List PhantomNode)
    (source_indices target_indices : List Nat) : SState ChHeapData :=
  let number_of_sources :=
    if source_indices.isEmpty then phantom_nodes.length else source_indices.length
  let number_of_targets :=
    if target_indices.isEmpty then phantom_nodes.length else target_indices.length
  let number_of_entries := number_of_sources * number_of_targets
  let init : SState ChHeapData :=
    ⟨Heap.init, [],
     List.replicate number_of_entries INVALID_EDGE_WEIGHT,
     List.replicate number_of_entries MAXIMAL_EDGE_DURATION⟩
  let afterBackward :=
    backwardPhaseNoStall facade (selectPhantoms phantom_nodes target_indices) init 0
  forwardPhaseNoStall facade number_of_targets (selectPhantoms phantom_nodes source_indices)
    afterBackward 0

/-- The durations table of the stall-free CH search. -/
def manyToManySearchNoStall (facade : ChFacade) (phantom_nodes : List PhantomNode)
    (source_indices target_indices : List Nat) : List Int :=
  (manyToManyStateNoStall facade phantom_nodes source_indices target_indices).durations

end ch

/-! ## MLD search core -/

/-- The `CellStorage` view of one `(level, cell)`: destination/source node
lists and the parallel per-node clique-arc weight/duration arrays. -/
structure CellData where
  destinations : List NodeID
  sources : List NodeID
  outWeight : NodeID → List Int
  outDuration : NodeID → List Int
  inWeight : NodeID → List Int
  inDuration : NodeID → List Int

/-- The MLD graph facade view: node count, the multi-level partition
(`cellAt level node`, levels `1..numLevels`), border edges per `(level,
node)`, and the cell storage. -/
structure MldFacade where
  numNodes : Nat
  numLevels : Nat
  cellAt : Nat → NodeID → Nat
  borderEdges : Nat → NodeID → List ChEdgeData
  cellData : Nat → Nat → CellData

/-- MLD heap payload: `{ parent, from_clique_arc, level, duration }`. -/
structure MldHeapData where
  parent : NodeID
  from_clique_arc : Bool
  level : Nat
  duration : Int
deriving Repr, DecidableEq

instance : Inhabited MldHeapData := ⟨⟨0, false, 0, 0⟩⟩

namespace mld

/-- Modelled from the spec: `partition.GetHighestDifferentLevel(a, b)` — the
highest level (within `1..numLevels`) at which `a` and `b` lie in different
cells, 0 if they agree at every level. -/
def getHighestDifferentLevel (facade : MldFacade) (a b : NodeID) : Nat :=
  (List.range facade.numLevels).foldl
    (fun acc l => if facade.cellAt (l + 1) a ≠ facade.cellAt (l + 1) b then max acc (l + 1) else acc)
    0

/-- The body of the clique-arc loops of `mld::relaxOutgoingEdges` (identical
at lines 275-288 and 304-317): one shortcut arc `(to, weight, duration)`,
relaxed with `from_clique_arc = true` carrying `level`, skipped when its
stored weight is `INVALID_EDGE_WEIGHT` or it leads from `node` to itself. -/
def relaxOneShortcut (node : NodeID) (level : Nat) (weight duration : Int)
    (q : Heap MldHeapData) (arc : NodeID × Int × Int) : Heap MldHeapData :=
  if arc.2.1 ≠ INVALID_EDGE_WEIGHT ∧ node ≠ arc.1 then
    heapRelax q arc.1 (i32add weight arc.2.1) ⟨node, true, level, i32add duration arc.2.2⟩
  else q

/-- The clique-arc (level-shortcut) expansion of `mld::relaxOutgoingEdges`
(lines 264-323): enumerate the shortcut arcs of the cell at `node` (zipped
with the parallel weight/duration arrays), relaxing each via
`relaxOneShortcut`. -/
def relaxShortcuts (dirForward : Bool) (facade : MldFacade) (node : NodeID) (level : Nat)
    (weight duration : Int) (h : Heap MldHeapData) : Heap MldHeapData :=
  let cell := facade.cellData level (facade.cellAt level node)
  let arcs :=
    if dirForward then cell.destinations.zip ((cell.outWeight node).zip (cell.outDuration node))
    else cell.sources.zip ((cell.inWeight node).zip (cell.inDuration node))
  arcs.foldl (relaxOneShortcut node level weight duration) h

/-- The border-edge relaxation of `mld::relaxOutgoingEdges` (lines 325-355):
relax direction-flagged border edges at `level` whose far endpoint lies in
the parent cell, writing `from_clique_arc = false`. -/
def relaxBorderEdges (dirForward : Bool) (facade : MldFacade) (node : NodeID) (level : Nat)
    (weight duration : Int) (parentCell : Nat × Nat) (h : Heap MldHeapData) :
    Heap MldHeapData :=
  (facade.borderEdges level node).foldl
    (fun q e =>
      if (if dirForward then e.forward else e.backward) then
        if facade.cellAt parentCell.1 e.target == parentCell.2 then
          heapRelax q e.target (i32add weight e.weight) ⟨node, false, level, i32add duration e.duration⟩
        else q
      else q)
    h

/-- `mld::relaxOutgoingEdges` (lines 247-356): compute the level of the node from
its heap payload, expand clique arcs when the level is positive and the last
hop was not itself a clique arc, then relax border edges. -/
def relaxOutgoingEdges (dirForward : Bool) (facade : MldFacade) (node : NodeID)
    (weight duration : Int) (h : Heap MldHeapData) (parentCell : Nat × Nat) :
    Heap MldHeapData :=
  let node_data := h.getData node
  let level := max node_data.level (getHighestDifferentLevel facade node_data.parent node)
  let h1 :=
    if 1 ≤ level ∧ node_data.from_clique_arc = false then
      relaxShortcuts dirForward facade node level weight duration h
    else h
  relaxBorderEdges dirForward facade node level weight duration parentCell h1

/-- The per-bucket-entry table-cell update of `mld::forwardRoutingStep`
(lines 386-394): no loop repair — only a non-negative, strictly better
weight updates the cell. -/
def bucketHitCell (cw cd sw sd tw td : Int) : Int × Int :=
  let new_weight := i32add sw tw
  if 0 ≤ new_weight ∧ new_weight < cw then (new_weight, i32add sd td)
  else (cw, cd)

/-- One bucket entry applied to the tables (MLD forward step). -/
def bucketHit (rowBase : Nat) (sw sd : Int) (tables : List Int × List Int)
    (b : NodeBucket) : List Int × List Int :=
  let idx := rowBase + b.target_id
  let cw := tables.1.getD idx 0
  let cd := tables.2.getD idx 0
  let r := bucketHitCell cw cd sw sd b.weight b.duration
  (tables.1.set idx r.1, tables.2.set idx r.2)

/-- `mld::forwardRoutingStep` (lines 358-399). -/
def forwardRoutingStep (facade : MldFacade) (row_idx number_of_targets : Nat)
    (parentCell : Nat × Nat) (st : SState MldHeapData) : SState MldHeapData :=
  let pop := st.heap.deleteMin
  let node := pop.1
  let source_weight := st.heap.getKey node
  let source_duration := (st.heap.getData node).duration
  let tables :=
    match bucketFind st.buckets node with
    | some bucket_list =>
        bucket_list.foldl
          (bucketHit (row_idx * number_of_targets) source_weight source_duration)
          (st.weights, st.durations)
    | none => (st.weights, st.durations)
  { st with
    heap := relaxOutgoingEdges true facade node source_weight source_duration pop.2 parentCell,
    weights := tables.1, durations := tables.2 }

/-- `mld::backwardRoutingStep` (lines 401-416). -/
def backwardRoutingStep (facade : MldFacade) (column_idx : Nat) (parentCell : Nat × Nat)
    (st : SState MldHeapData) : SState MldHeapData :=
  let pop := st.heap.deleteMin
  let node := pop.1
  let target_weight := st.heap.getKey node
  let target_duration := (st.heap.getData node).duration
  let buckets1 := bucketAppend st.buckets node ⟨column_idx, target_weight, target_duration⟩
  { st with
    heap := relaxOutgoingEdges false facade node target_weight target_duration pop.2 parentCell,
    buckets := buckets1 }

/-- `mld::getParentCellID` (lines 418-458): the highest different level over
all enabled segment pairs between the current phantom and the opposite-side
phantoms, plus one; the cell is anchored at the forward segment id
of the current phantom. -/
def getParentCellID (facade : MldFacade) (source : PhantomNode)
    (phantom_nodes : List PhantomNode) (phantom_indices : List Nat) : Nat × Nat :=
  let level := fun (s t : SegmentID) =>
    if s.enabled && t.enabled then getHighestDifferentLevel facade s.id t.id else 0
  let highest_level := fun (target : PhantomNode) =>
    max (max (level source.forward_segment_id target.forward_segment_id)
             (level source.forward_segment_id target.reverse_segment_id))
        (max (level source.reverse_segment_id target.forward_segment_id)
             (level source.reverse_segment_id target.reverse_segment_id))
  let highest_different_level :=
    (selectPhantoms phantom_nodes phantom_indices).foldl
      (fun acc ph => max acc (highest_level ph)) 0
  (highest_different_level + 1,
   facade.cellAt (highest_different_level + 1) source.forward_segment_id.id)

/-- Modelled from the spec: seed an MLD search heap from the enabled segments
of a phantom, with `from_clique_arc = false` and level 0; `parent` is the seeded
node itself. -/
def insertSegment (h : Heap MldHeapData) (seg : SegmentID) (w d : Int) : Heap MldHeapData :=
  if seg.enabled && ¬ h.wasInserted seg.id then h.insert seg.id w ⟨seg.id, false, 0, d⟩ else h

/-- Modelled from the spec: seed a forward MLD search from a source phantom. -/
def insertSourceInHeap (h : Heap MldHeapData) (ph : PhantomNode) : Heap MldHeapData :=
  insertSegment
    (insertSegment h ph.forward_segment_id ph.forwardWeight ph.forwardDuration)
    ph.reverse_segment_id ph.reverseWeight ph.reverseDuration

/-- Modelled from the spec: seed a backward MLD search from a target phantom. -/
def insertTargetInHeap (h : Heap MldHeapData) (ph : PhantomNode) : Heap MldHeapData :=
  insertSegment
    (insertSegment h ph.forward_segment_id ph.forwardWeight ph.forwardDuration)
    ph.reverse_segment_id ph.reverseWeight ph.reverseDuration

/-- `search_target_phantom` (lines 483-496). -/
def runBackward (facade : MldFacade) (parentCell : Nat × Nat) (st : SState MldHeapData)
    (column_idx : Nat) (ph : PhantomNode) : SState MldHeapData :=
  searchLoop (backwardRoutingStep facade column_idx parentCell) facade.numNodes
    { st with heap := insertTargetInHeap Heap.init ph }

/-- `search_source_phantom` (lines 499-519). -/
def runForward (facade : MldFacade) (number_of_targets : Nat) (parentCell : Nat × Nat)
    (st : SState MldHeapData) (row_idx : Nat) (ph : PhantomNode) : SState MldHeapData :=
  searchLoop (forwardRoutingStep facade row_idx number_of_targets parentCell) facade.numNodes
    { st with heap := insertSourceInHeap Heap.init ph }

/-- The target loop of `mld::manyToManySearch` (lines 521-539): the parent cell of each
target is computed against the source side. -/
def backwardPhase (facade : MldFacade) (phantom_nodes : List PhantomNode)
    (source_indices : List Nat) :
    List PhantomNode → SState MldHeapData → Nat → SState MldHeapData
  | [], st, _ => st
  | ph :: rest, st, col =>
      backwardPhase facade phantom_nodes source_indices rest
        (runBackward facade (getParentCellID facade ph phantom_nodes source_indices) st col ph)
        (col + 1)

/-- The source loop of `mld::manyToManySearch` (lines 541-559): the parent cell of each
source is computed against the target side. -/
def forwardPhase (facade : MldFacade) (number_of_targets : Nat)
    (phantom_nodes : List PhantomNode) (target_indices : List Nat) :
    List PhantomNode → SState MldHeapData → Nat → SState MldHeapData
  | [], st, _ => st
  | ph :: rest, st, row =>
      forwardPhase facade number_of_targets phantom_nodes target_indices rest
        (runForward facade number_of_targets
          (getParentCellID facade ph phantom_nodes target_indices) st row ph)
        (row + 1)

/-- `mld::manyToManySearch` (lines 460-562), exposing the full final state. -/
def manyToManyState (facade : MldFacade) (phantom_nodes : List PhantomNode)
    (source_indices target_indices : List Nat) : SState MldHeapData :=
  let number_of_sources :=
    if source_indices.isEmpty then phantom_nodes.length else source_indices.length
  let number_of_targets :=
    if target_indices.isEmpty then phantom_nodes.length else target_indices.length
  let number_of_entries := number_of_sources * number_of_targets
  let init : SState MldHeapData :=
    ⟨Heap.init, [],
     List.replicate number_of_entries INVALID_EDGE_WEIGHT,
     List.replicate number_of_entries MAXIMAL_EDGE_DURATION⟩
  let afterBackward :=
    backwardPhase facade phantom_nodes source_indices
      (selectPhantoms phantom_nodes target_indices) init 0
  forwardPhase facade number_of_targets phantom_nodes target_indices
    (selectPhantoms phantom_nodes source_indices) afterBackward 0

/-- `mld::manyToManySearch`: the returned durations table. -/
def manyToManySearch (facade : MldFacade) (phantom_nodes : List PhantomNode)
    (source_indices target_indices : List Nat) : List Int :=
  (manyToManyState facade phantom_nodes source_indices target_indices).durations

end mld

/-! ## Well-formedness predicates and invariant views -/

/-- Well-formed CH facade: edges have strictly positive in-range weights (the
`BOOST_ASSERT_MSG(edge_weight > 0, ...)` contract) and in-range targets. -/
def WFch (facade : ChFacade) : Prop :=
  ∀ n, ∀ e ∈ facade.adjacent n,
    0 < e.weight ∧ e.weight ≤ 2147483647 ∧ e.target < facade.numNodes

/-- Well-formed MLD facade: border edges have strictly positive in-range
weights and in-range targets, and cell node lists stay in range. -/
def WFmld (facade : MldFacade) : Prop :=
  (∀ l n, ∀ e ∈ facade.borderEdges l n,
      0 < e.weight ∧ e.weight ≤ 2147483647 ∧ e.target < facade.numNodes) ∧
  (∀ l c, (∀ m ∈ (facade.cellData l c).destinations, m < facade.numNodes) ∧
          (∀ m ∈ (facade.cellData l c).sources, m < facade.numNodes))

/-- Well-formed phantom: enabled segments point at real nodes. -/
def WFphantom (N : Nat) (ph : PhantomNode) : Prop :=
  (ph.forward_segment_id.enabled = true → ph.forward_segment_id.id < N) ∧
  (ph.reverse_segment_id.enabled = true → ph.reverse_segment_id.id < N)

/-- Heap sanity invariant maintained by every search: inserted node ids are
distinct and in range, and the open list is a duplicate-free sublist of the
inserted ids. -/
def HInv {D : Type} (N : Nat) (h : Heap D) : Prop :=
  (h.inserted.map (fun e => e.node)).Nodup ∧
  (∀ m ∈ h.inserted.map (fun e => e.node), m < N) ∧
  (∀ m ∈ h.opens, m ∈ h.inserted.map (fun e => e.node)) ∧
  h.opens.Nodup

/-- Termination measure of the search loop: open nodes plus insertion
headroom.  Every routing step decreases it by exactly one. -/
def hmeasure {D : Type} (N : Nat) (h : Heap D) : Nat :=
  h.opens.length + (N - h.inserted.length)

/-- The sentinel-coupling table invariant: tables have equal length, stored
weights never exceed the sentinel, and a sentinel weight forces the sentinel
duration in the same cell. -/
def TableInv (wt dt : List Int) : Prop :=
  wt.length = dt.length ∧
  ∀ i, wt.getD i 0 ≤ INVALID_EDGE_WEIGHT ∧
    (wt.getD i 0 = INVALID_EDGE_WEIGHT → dt.getD i 0 = MAXIMAL_EDGE_DURATION)

/-- Row `r` of a row-major table with `T` columns. -/
def tableRow (t : List Int) (r T : Nat) : List Int :=
  (List.range T).map (fun j => t.getD (r * T + j) 0)

/-- Every bucket entry carries a column index below `T`. -/
def bucketColsBelow (T : Nat) (b : SearchSpaceWithBuckets) : Prop :=
  ∀ p ∈ b, ∀ e ∈ p.2, e.target_id < T

/-- The stored heap record of a node, if any. -/
def Heap.entryOf {D : Type} (h : Heap D) (n : NodeID) : Option (HeapEntry D) :=
  h.inserted.find? (fun e => e.node == n)

/-- The (weight, duration) contributions filed under column `c` in the bucket
list of node `n`, in order. -/
def colTrace (c : Nat) (b : SearchSpaceWithBuckets) (n : NodeID) : List (Int × Int) :=
  ((bucketFind b n).getD []).filterMap
    (fun e => if e.target_id = c then some (e.weight, e.duration) else none)

/-- The generic shape of a forward-step table update: each bucket entry
writes the cell at `rowBase + target_id` through a cell function `f` of the
current cell contents and the entry.  Both the CH and the MLD bucket folds
are instances. -/
def applyHits (f : Int → Int → NodeBucket → Int × Int) (rowBase : Nat)
    (tables : List Int × List Int) (bl : List NodeBucket) : List Int × List Int :=
  bl.foldl
    (fun t b =>
      (t.1.set (rowBase + b.target_id)
        (f (t.1.getD (rowBase + b.target_id) 0) (t.2.getD (rowBase + b.target_id) 0) b).1,
       t.2.set (rowBase + b.target_id)
        (f (t.1.getD (rowBase + b.target_id) 0) (t.2.getD (rowBase + b.target_id) 0) b).2))
    tables

/-- One cell under a sequence of bucket entries. -/
def cellFold (f : Int → Int → NodeBucket → Int × Int) (bl : List NodeBucket)
    (cell : Int × Int) : Int × Int :=
  bl.foldl (fun c b => f c.1 c.2 b) cell

/-- The bucket list of a node (empty when the node has no bucket). -/
def bucketListOf (b : SearchSpaceWithBuckets) (n : NodeID) : List NodeBucket :=
  (bucketFind b n).getD []

/-- The `T` consecutive cells starting at `rowBase`. -/
def rowSlice (t : List Int) (rowBase T : Nat) : List Int :=
  (List.range T).map (fun j => t.getD (rowBase + j) 0)

/-- The CH cell function of the step popping the minimum of `h`. -/
def chCellFn (facade : ChFacade) (h : Heap ChHeapData) :
    Int → Int → NodeBucket → Int × Int :=
  fun cw cd b =>
    ch.bucketHitCell (ch.getLoopWeight false facade h.deleteMin.1)
      (ch.getLoopWeight true facade h.deleteMin.1) cw cd
      (h.getKey h.deleteMin.1) ((h.getData h.deleteMin.1).duration) b.weight b.duration

/-- The MLD cell function of the step popping the minimum of `h`. -/
def mldCellFn (h : Heap MldHeapData) : Int → Int → NodeBucket → Int × Int :=
  fun cw cd b =>
    mld.bucketHitCell cw cd (h.getKey h.deleteMin.1)
      ((h.getData h.deleteMin.1).duration) b.weight b.duration


/-- The canonical per-source CH forward run: the same search against bucket
index `B` on a single sentinel row of `T` cells; each row of the big table is
shown to coincide with it. -/
def ch.rowState (facade : ChFacade) (T : Nat) (B : SearchSpaceWithBuckets)
    (ph : PhantomNode) : SState ChHeapData :=
  ch.runForward facade T
    ⟨Heap.init, B, List.replicate T INVALID_EDGE_WEIGHT,
      List.replicate T MAXIMAL_EDGE_DURATION⟩ 0 ph

/-- The canonical per-target CH backward run: the same search labelled with
column 0 on an empty bucket index; each column of the bucket index is shown
to coincide with its trace. -/
def ch.colState (facade : ChFacade) (ph : PhantomNode) : SState ChHeapData :=
  ch.runBackward facade ⟨Heap.init, [], [], []⟩ 0 ph

/-- The canonical per-source MLD forward run (see `ch.rowState`). -/
def mld.rowState (facade : MldFacade) (T : Nat) (B : SearchSpaceWithBuckets)
    (pc : Nat × Nat) (ph : PhantomNode) : SState MldHeapData :=
  mld.runForward facade T pc
    ⟨Heap.init, B, List.replicate T INVALID_EDGE_WEIGHT,
      List.replicate T MAXIMAL_EDGE_DURATION⟩ 0 ph

/-- The canonical per-target MLD backward run (see `ch.colState`). -/
def mld.colState (facade : MldFacade) (pc : Nat × Nat) (ph : PhantomNode) :
    SState MldHeapData :=
  mld.runBackward facade pc ⟨Heap.init, [], [], []⟩ 0 ph

/-! ## Concrete inputs used by counterexamples and witnesses -/

/-- One node with a forward self-loop of weight 5 and duration 7. -/
def loopFacade : ChFacade :=
  { numNodes := 1,
    adjacent := fun n => if n = 0 then [⟨0, 5, 7, true, true⟩] else [] }

/-- One node with no edges at all. -/
def noLoopFacade : ChFacade :=
  { numNodes := 1, adjacent := fun _ => [] }

/-- A two-edge forward chain 0 → 1 → 2 whose durations sum to exactly
`MAXIMAL_EDGE_DURATION` while the weights stay tiny. -/
def chainFacade : ChFacade :=
  { numNodes := 3,
    adjacent := fun n =>
      if n = 0 then [⟨1, 1, 1073741824, true, false⟩]
      else if n = 1 then [⟨2, 1, 1073741823, true, false⟩]
      else [] }

/-- Phantom seeding node 0 with zero offsets. -/
def phantomAt0 : PhantomNode := ⟨⟨0, true⟩, ⟨0, false⟩, 0, 0, 0, 0⟩

/-- Phantom seeding node 2 with zero offsets. -/
def phantomAt2 : PhantomNode := ⟨⟨2, true⟩, ⟨2, false⟩, 0, 0, 0, 0⟩

/-- A graph on which stalling changes the result: 0 → 1 (forward, weight 10),
a backward-oriented witness edge 1 → 0 of weight 5 that stalls node 1 in the
forward search, and 1 → 2 (forward, weight 1) behind the stalled node. -/
def stallFacade : ChFacade :=
  { numNodes := 3,
    adjacent := fun n =>
      if n = 0 then [⟨1, 10, 10, true, false⟩]
      else if n = 1 then [⟨0, 5, 5, false, true⟩, ⟨2, 1, 1, true, false⟩]
      else [] }

/-- A one-level partition over three nodes: node 0 alone in cell 0, nodes 1
and 2 in cell 1; no border edges, empty cells. -/
def splitMldFacade : MldFacade :=
  { numNodes := 3, numLevels := 1,
    cellAt := fun l n => if l = 1 then (if n = 0 then 0 else 1) else 0,
    borderEdges := fun _ _ => [],
    cellData := fun _ _ => ⟨[], [], fun _ => [], fun _ => [], fun _ => [], fun _ => []⟩ }

/-- Phantom whose forward segment (node 0) is disabled and whose reverse
segment is node 1, enabled. -/
def phantomFwdDisabled : PhantomNode := ⟨⟨0, false⟩, ⟨1, true⟩, 0, 0, 0, 0⟩

/-- A one-level partition in which every node shares one cell. -/
def allSameMldFacade : MldFacade :=
  { numNodes := 3, numLevels := 1,
    cellAt := fun _ _ => 0,
    borderEdges := fun _ _ => [],
    cellData := fun _ _ => ⟨[], [], fun _ => [], fun _ => [], fun _ => [], fun _ => []⟩ }

/-- A trivial partition with one border edge 0 → 1 (both directions). -/
def borderMldFacade : MldFacade :=
  { numNodes := 2, numLevels := 1,
    cellAt := fun _ _ => 0,
    borderEdges := fun _ n => if n = 0 then [⟨1, 5, 5, true, true⟩] else [],
    cellData := fun _ _ => ⟨[], [], fun _ => [], fun _ => [], fun _ => [], fun _ => []⟩ }

/-- Phantom with both segments enabled, at nodes 0 and 1. -/
def phantomBoth01 : PhantomNode := ⟨⟨0, true⟩, ⟨1, true⟩, 0, 0, 0, 0⟩

/-- A one-cell partition whose cell carries two outgoing clique arcs from
node 0: one real (weight 5, duration 7) to node 1, one absent
(`INVALID_EDGE_WEIGHT`) to node 2. -/
def cellMldFacade : MldFacade :=
  { numNodes := 3, numLevels := 1,
    cellAt := fun _ _ => 0,
    borderEdges := fun _ _ => [],
    cellData := fun _ _ =>
      ⟨[1, 2], [],
       fun n => if n = 0 then [5, INVALID_EDGE_WEIGHT] else [],
       fun n => if n = 0 then [7, 9] else [],
       fun _ => [], fun _ => []⟩ }

/-- A heap holding node 0 with a level-2 payload reached by an ordinary edge. -/
def heapLvl2 : Heap MldHeapData := (Heap.init : Heap MldHeapData).insert 0 5 ⟨3, false, 2, 0⟩

/-! ## Arithmetic and list helper lemmas -/

theorem wrap32_lb (x : Int) : -2147483648 ≤ wrap32 x := by
  have h1 : 0 ≤ (x + 2147483648) % 4294967296 :=
    Int.emod_nonneg _ (by norm_num)
  unfold wrap32
  omega

theorem wrap32_ub (x : Int) : wrap32 x ≤ 2147483647 := by
  have h2 : (x + 2147483648) % 4294967296 < 4294967296 :=
    Int.emod_lt_of_pos _ (by norm_num)
  unfold wrap32
  omega

theorem wrap32_eq_self {x : Int} (h1 : -2147483648 ≤ x) (h2 : x ≤ 2147483647) :
    wrap32 x = x := by
  have : (x + 2147483648) % 4294967296 = x + 2147483648 :=
    Int.emod_eq_of_lt (by omega) (by omega)
  unfold wrap32
  omega

theorem i32add_ub (a b : Int) : i32add a b ≤ INVALID_EDGE_WEIGHT := wrap32_ub _

theorem i32add_lb (a b : Int) : -2147483648 ≤ i32add a b := wrap32_lb _

theorem getD_set_self : ∀ (l : List Int) (i : Nat) (v d : Int), i < l.length →
    (l.set i v).getD i d = v := by
  intro l
  induction l with
  | nil => intro i v d h; simp at h
  | cons a t ih =>
      intro i v d h
      cases i with
      | zero => rfl
      | succ j => exact ih j v d (by simpa using h)

theorem getD_set_other : ∀ (l : List Int) (i j : Nat) (v d : Int), i ≠ j →
    (l.set i v).getD j d = l.getD j d := by
  intro l
  induction l with
  | nil => intro i j v d _; simp [List.set]
  | cons a t ih =>
      intro i j v d hij
      cases i with
      | zero =>
          cases j with
          | zero => exact absurd rfl hij
          | succ j => rfl
      | succ i =>
          cases j with
          | zero => rfl
          | succ j => exact ih i j v d (fun h => hij (by rw [h]))

theorem set_out_of_range : ∀ (l : List Int) (i : Nat) (v : Int), l.length ≤ i →
    l.set i v = l := by
  intro l
  induction l with
  | nil => intro i v _; rfl
  | cons a t ih =>
      intro i v h
      cases i with
      | zero => simp at h
      | succ j => simpa using ih j v (by simpa using h)

/-! ## Loop weight bounds and cell-update invariant lemmas -/

/-- Fold preservation: a predicate stable under every step of a left fold
holds of the result. -/
theorem foldl_preserve {α β : Type} (P : α → Prop) (f : α → β → α) (l : List β)
    (hstep : ∀ a b, b ∈ l → P a → P (f a b)) : ∀ a, P a → P (l.foldl f a) := by
  induction l with
  | nil => intro a ha; exact ha
  | cons x t ih =>
      intro a ha
      exact ih (fun a b hb => hstep a b (List.mem_cons_of_mem _ hb)) _
        (hstep a x (List.mem_cons_self _ _) ha)

theorem getLoopWeight_false_bounds (facade : ChFacade) (hwf : WFch facade) (node : NodeID) :
    0 < ch.getLoopWeight false facade node ∧
    ch.getLoopWeight false facade node ≤ INVALID_EDGE_WEIGHT := by
  unfold ch.getLoopWeight
  simp only [Bool.false_eq_true, if_false]
  refine foldl_preserve (fun a => 0 < a ∧ a ≤ INVALID_EDGE_WEIGHT) _ _ ?_ _ ?_
  · intro a e he hP
    by_cases hc : (e.forward && e.target == node) = true
    · have hw := hwf node e he
      simp only [hc, if_true]
      exact ⟨lt_min hP.1 hw.1,
        le_trans (min_le_left _ _) hP.2⟩
    · simp only [hc, if_false]
      exact hP
  · exact ⟨by norm_num [INVALID_EDGE_WEIGHT], le_refl _⟩

/-- Sentinel coupling of one CH cell update: if the loop weight is positive
and in range, the stored weight is at most the sentinel and a sentinel weight
comes with a sentinel duration, then the same holds after the update. -/
theorem ch_bucketHitCell_cellInv (lw ld cw cd sw sd tw td : Int)
    (hlw : 0 < lw ∧ lw ≤ INVALID_EDGE_WEIGHT)
    (hcw : cw ≤ INVALID_EDGE_WEIGHT)
    (him : cw = INVALID_EDGE_WEIGHT → cd = MAXIMAL_EDGE_DURATION) :
    (ch.bucketHitCell lw ld cw cd sw sd tw td).1 ≤ INVALID_EDGE_WEIGHT ∧
    ((ch.bucketHitCell lw ld cw cd sw sd tw td).1 = INVALID_EDGE_WEIGHT →
      (ch.bucketHitCell lw ld cw cd sw sd tw td).2 = MAXIMAL_EDGE_DURATION) := by
  simp only [ch.bucketHitCell]
  by_cases hneg : i32add sw tw < 0
  · rw [if_pos hneg]
    by_cases hrep : lw ≠ INVALID_EDGE_WEIGHT ∧ 0 ≤ i32add (i32add sw tw) lw
    · have hlt : i32add (i32add sw tw) lw < INVALID_EDGE_WEIGHT := by
        have h1 : -2147483648 ≤ i32add sw tw := i32add_lb _ _
        have h2 : lw < 2147483647 := by
          rcases hrep with ⟨hne, _⟩
          have := hlw.2
          simp only [INVALID_EDGE_WEIGHT] at this hne ⊢
          omega
        have h4 : -2147483648 ≤ i32add sw tw + lw := by
          have := hlw.1
          omega
        have heq : i32add (i32add sw tw) lw = wrap32 (i32add sw tw + lw) := rfl
        rw [heq, wrap32_eq_self h4 (by omega)]
        simp only [INVALID_EDGE_WEIGHT]
        omega
      rw [if_pos hrep]
      refine ⟨le_trans (min_le_left _ _) hcw, fun habs => ?_⟩
      have hmr : min cw (i32add (i32add sw tw) lw) ≤ i32add (i32add sw tw) lw :=
        min_le_right _ _
      have habs2 : min cw (i32add (i32add sw tw) lw) = INVALID_EDGE_WEIGHT := habs
      exact absurd habs2 (by omega)
    · rw [if_neg hrep]
      exact ⟨hcw, him⟩
  · rw [if_neg hneg]
    by_cases himp : i32add sw tw < cw
    · rw [if_pos himp]
      refine ⟨i32add_ub _ _, fun habs => ?_⟩
      have habs2 : i32add sw tw = INVALID_EDGE_WEIGHT := habs
      exact absurd habs2 (by omega)
    · rw [if_neg himp]
      exact ⟨hcw, him⟩

/-- Sentinel coupling of one MLD cell update. -/
theorem mld_bucketHitCell_cellInv (cw cd sw sd tw td : Int)
    (hcw : cw ≤ INVALID_EDGE_WEIGHT)
    (him : cw = INVALID_EDGE_WEIGHT → cd = MAXIMAL_EDGE_DURATION) :
    (mld.bucketHitCell cw cd sw sd tw td).1 ≤ INVALID_EDGE_WEIGHT ∧
    ((mld.bucketHitCell cw cd sw sd tw td).1 = INVALID_EDGE_WEIGHT →
      (mld.bucketHitCell cw cd sw sd tw td).2 = MAXIMAL_EDGE_DURATION) := by
  simp only [mld.bucketHitCell]
  by_cases hc : 0 ≤ i32add sw tw ∧ i32add sw tw < cw
  · rw [if_pos hc]
    refine ⟨i32add_ub _ _, fun habs => ?_⟩
    have habs2 : i32add sw tw = INVALID_EDGE_WEIGHT := habs
    have := hc.2
    exact absurd habs2 (by omega)
  · rw [if_neg hc]
    exact ⟨hcw, him⟩

/-- Writing a cell that satisfies the sentinel coupling preserves `TableInv`. -/
theorem TableInv_set (wt dt : List Int) (i : Nat) (nw nd : Int)
    (h : TableInv wt dt) (hnw : nw ≤ INVALID_EDGE_WEIGHT)
    (him : nw = INVALID_EDGE_WEIGHT → nd = MAXIMAL_EDGE_DURATION) :
    TableInv (wt.set i nw) (dt.set i nd) := by
  rcases h with ⟨hlen, hcells⟩
  by_cases hin : i < wt.length
  · refine ⟨by simp [hlen], fun j => ?_⟩
    by_cases hij : i = j
    · subst hij
      rw [getD_set_self wt i nw 0 hin, getD_set_self dt i nd 0 (by omega)]
      exact ⟨hnw, him⟩
    · rw [getD_set_other wt i j nw 0 hij, getD_set_other dt i j nd 0 hij]
      exact hcells j
  · rw [set_out_of_range wt i nw (by omega), set_out_of_range dt i nd (by omega)]
    exact ⟨hlen, hcells⟩

/-- One CH bucket hit preserves `TableInv` (on a well-formed facade). -/
theorem ch_bucketHit_tableInv (facade : ChFacade) (hwf : WFch facade) (node : NodeID)
    (rowBase : Nat) (sw sd : Int) (tables : List Int × List Int) (b : NodeBucket)
    (h : TableInv tables.1 tables.2) :
    TableInv (ch.bucketHit facade node rowBase sw sd tables b).1
      (ch.bucketHit facade node rowBase sw sd tables b).2 := by
  have hcell := ch_bucketHitCell_cellInv (ch.getLoopWeight false facade node)
    (ch.getLoopWeight true facade node)
    (tables.1.getD (rowBase + b.target_id) 0) (tables.2.getD (rowBase + b.target_id) 0)
    sw sd b.weight b.duration
    (getLoopWeight_false_bounds facade hwf node)
    (h.2 (rowBase + b.target_id)).1 (h.2 (rowBase + b.target_id)).2
  exact TableInv_set _ _ _ _ _ h hcell.1 hcell.2

/-- One MLD bucket hit preserves `TableInv`. -/
theorem mld_bucketHit_tableInv (rowBase : Nat) (sw sd : Int)
    (tables : List Int × List Int) (b : NodeBucket)
    (h : TableInv tables.1 tables.2) :
    TableInv (mld.bucketHit rowBase sw sd tables b).1
      (mld.bucketHit rowBase sw sd tables b).2 := by
  have hcell := mld_bucketHitCell_cellInv
    (tables.1.getD (rowBase + b.target_id) 0) (tables.2.getD (rowBase + b.target_id) 0)
    sw sd b.weight b.duration
    (h.2 (rowBase + b.target_id)).1 (h.2 (rowBase + b.target_id)).2
  exact TableInv_set _ _ _ _ _ h hcell.1 hcell.2

/-- The CH forward routing step preserves `TableInv`. -/
theorem ch_forwardStep_tableInv (facade : ChFacade) (hwf : WFch facade)
    (row_idx number_of_targets : Nat) (st : SState ChHeapData)
    (h : TableInv st.weights st.durations) :
    TableInv (ch.forwardRoutingStep facade row_idx number_of_targets st).weights
      (ch.forwardRoutingStep facade row_idx number_of_targets st).durations := by
  simp only [ch.forwardRoutingStep]
  have hres :
      TableInv (match bucketFind st.buckets (st.heap.deleteMin.1) with
        | some bucket_list =>
            bucket_list.foldl
              (ch.bucketHit facade (st.heap.deleteMin.1) (row_idx * number_of_targets)
                (st.heap.getKey (st.heap.deleteMin.1))
                ((st.heap.getData (st.heap.deleteMin.1)).duration))
              (st.weights, st.durations)
        | none => (st.weights, st.durations)).1
        (match bucketFind st.buckets (st.heap.deleteMin.1) with
        | some bucket_list =>
            bucket_list.foldl
              (ch.bucketHit facade (st.heap.deleteMin.1) (row_idx * number_of_targets)
                (st.heap.getKey (st.heap.deleteMin.1))
                ((st.heap.getData (st.heap.deleteMin.1)).duration))
              (st.weights, st.durations)
        | none => (st.weights, st.durations)).2 := by
    cases hb : bucketFind st.buckets (st.heap.deleteMin.1) with
    | none => exact h
    | some bucket_list =>
        exact foldl_preserve (fun t => TableInv t.1 t.2) _ bucket_list
          (fun t b _ ht => ch_bucketHit_tableInv facade hwf _ _ _ _ t b ht)
          (st.weights, st.durations) h
  split
  · exact hres
  · exact hres

/-- The CH backward routing step never touches the tables. -/
theorem ch_backwardStep_tables (facade : ChFacade) (column_idx : Nat)
    (st : SState ChHeapData) :
    (ch.backwardRoutingStep facade column_idx st).weights = st.weights ∧
    (ch.backwardRoutingStep facade column_idx st).durations = st.durations := by
  simp only [ch.backwardRoutingStep]
  split <;> exact ⟨rfl, rfl⟩

/-- The MLD forward routing step preserves `TableInv`. -/
theorem mld_forwardStep_tableInv (facade : MldFacade)
    (row_idx number_of_targets : Nat) (parentCell : Nat × Nat) (st : SState MldHeapData)
    (h : TableInv st.weights st.durations) :
    TableInv (mld.forwardRoutingStep facade row_idx number_of_targets parentCell st).weights
      (mld.forwardRoutingStep facade row_idx number_of_targets parentCell st).durations := by
  simp only [mld.forwardRoutingStep]
  cases hb : bucketFind st.buckets (st.heap.deleteMin.1) with
  | none => simp only [hb]; exact h
  | some bucket_list =>
      simp only [hb]
      exact foldl_preserve (fun t => TableInv t.1 t.2) _ bucket_list
        (fun t b _ ht => mld_bucketHit_tableInv _ _ _ t b ht)
        (st.weights, st.durations) h

/-- The MLD backward routing step never touches the tables. -/
theorem mld_backwardStep_tables (facade : MldFacade) (column_idx : Nat)
    (parentCell : Nat × Nat) (st : SState MldHeapData) :
    (mld.backwardRoutingStep facade column_idx parentCell st).weights = st.weights ∧
    (mld.backwardRoutingStep facade column_idx parentCell st).durations = st.durations :=
  ⟨rfl, rfl⟩

/-- A property stable under the step is stable under the fuelled loop. -/
theorem searchLoop_preserve {D : Type} (P : SState D → Prop) (step : SState D → SState D)
    (hstep : ∀ st, P st → P (step st)) :
    ∀ (fuel : Nat) (st : SState D), P st → P (searchLoop step fuel st) := by
  intro fuel
  induction fuel with
  | zero => intro st h; exact h
  | succ n ih =>
      intro st h
      simp only [searchLoop]
      split
      · exact h
      · exact ih _ (hstep st h)

theorem getD_replicate (n i : Nat) (v d : Int) :
    (List.replicate n v).getD i d = if i < n then v else d := by
  induction n generalizing i with
  | zero => simp
  | succ m ih =>
      cases i with
      | zero => simp [List.replicate]
      | succ j => simpa [List.replicate, Nat.succ_lt_succ_iff] using ih j

/-- The freshly initialized tables satisfy `TableInv`. -/
theorem TableInv_init (n : Nat) :
    TableInv (List.replicate n INVALID_EDGE_WEIGHT)
      (List.replicate n MAXIMAL_EDGE_DURATION) := by
  refine ⟨by simp, fun i => ?_⟩
  rw [getD_replicate, getD_replicate]
  split
  · exact ⟨le_refl _, fun _ => rfl⟩
  · exact ⟨by norm_num [INVALID_EDGE_WEIGHT], by norm_num [INVALID_EDGE_WEIGHT]⟩

/-- `TableInv` holds of the final state of the CH search. -/
theorem ch_manyToMany_tableInv (facade : ChFacade) (hwf : WFch facade)
    (phantom_nodes : List PhantomNode) (source_indices target_indices : List Nat) :
    TableInv (ch.manyToManyState facade phantom_nodes source_indices target_indices).weights
      (ch.manyToManyState facade phantom_nodes source_indices target_indices).durations := by
  simp only [ch.manyToManyState]
  set P := fun (st : SState ChHeapData) => TableInv st.weights st.durations with hP
  have hbwdStep : ∀ col st, P st → P (ch.backwardRoutingStep facade col st) := by
    intro col st h
    have := ch_backwardStep_tables facade col st
    simp only [hP, this.1, this.2]
    exact h
  have hbwdRun : ∀ st col ph, P st → P (ch.runBackward facade st col ph) := by
    intro st col ph h
    exact searchLoop_preserve P _ (hbwdStep col) _ _ h
  have hbwd : ∀ (l : List PhantomNode) st col, P st → P (ch.backwardPhase facade l st col) := by
    intro l
    induction l with
    | nil => intro st col h; exact h
    | cons ph rest ih => intro st col h; exact ih _ _ (hbwdRun st col ph h)
  have hfwdRun : ∀ T st row ph, P st → P (ch.runForward facade T st row ph) := by
    intro T st row ph h
    exact searchLoop_preserve P _
      (fun st2 h2 => ch_forwardStep_tableInv facade hwf row T st2 h2) _ _ h
  have hfwd : ∀ T (l : List PhantomNode) st row, P st →
      P (ch.forwardPhase facade T l st row) := by
    intro T l
    induction l with
    | nil => intro st col h; exact h
    | cons ph rest ih => intro st row h; exact ih _ _ (hfwdRun T st row ph h)
  exact hfwd _ _ _ 0 (hbwd _ _ 0 (TableInv_init _))

/-- `TableInv` holds of the final state of the MLD search. -/
theorem mld_manyToMany_tableInv (facade : MldFacade)
    (phantom_nodes : List PhantomNode) (source_indices target_indices : List Nat) :
    TableInv (mld.manyToManyState facade phantom_nodes source_indices target_indices).weights
      (mld.manyToManyState facade phantom_nodes source_indices target_indices).durations := by
  simp only [mld.manyToManyState]
  set P := fun (st : SState MldHeapData) => TableInv st.weights st.durations with hP
  have hbwdRun : ∀ pc st col ph, P st → P (mld.runBackward facade pc st col ph) := by
    intro pc st col ph h
    exact searchLoop_preserve P (mld.backwardRoutingStep facade col pc)
      (fun st2 h2 => h2) _ _ h
  have hbwd : ∀ (l : List PhantomNode) st col, P st →
      P (mld.backwardPhase facade phantom_nodes source_indices l st col) := by
    intro l
    induction l with
    | nil => intro st col h; exact h
    | cons ph rest ih => intro st col h; exact ih _ _ (hbwdRun _ st col ph h)
  have hfwdRun : ∀ T pc st row ph, P st → P (mld.runForward facade T pc st row ph) := by
    intro T pc st row ph h
    exact searchLoop_preserve P _
      (fun st2 h2 => mld_forwardStep_tableInv facade row T pc st2 h2) _ _ h
  have hfwd : ∀ T (l : List PhantomNode) st row, P st →
      P (mld.forwardPhase facade T phantom_nodes target_indices l st row) := by
    intro T l
    induction l with
    | nil => intro st col h; exact h
    | cons ph rest ih => intro st row h; exact ih _ _ (hfwdRun T _ st row ph h)
  exact hfwd _ _ _ 0 (hbwd _ _ 0 (TableInv_init _))

/-- C1: in the CH forward bucket update, whenever `new_w = w + tw` is
negative, loop repair applies: if the forward loop weight of the node is not
`INVALID_EDGE_WEIGHT` and `new_w + loop_weight ≥ 0`, the candidate weight
becomes `new_w + loop_weight` and the candidate duration becomes
`d + td + loop_duration(n)` — the minimum loop duration
(`getLoopWeight true`), not the loop weight — each applied to the cell by
`min`; otherwise the candidate is dropped and the cell is left unchanged. -/
theorem c1_ch_loop_repair (facade : ChFacade) (node : NodeID) (cw cd sw sd tw td : Int)
    (hneg : i32add sw tw < 0) :
    (ch.getLoopWeight false facade node ≠ INVALID_EDGE_WEIGHT ∧
        0 ≤ i32add (i32add sw tw) (ch.getLoopWeight false facade node) →
      ch.bucketHitCell (ch.getLoopWeight false facade node)
          (ch.getLoopWeight true facade node) cw cd sw sd tw td =
        (min cw (i32add (i32add sw tw) (ch.getLoopWeight false facade node)),
         min cd (i32add (i32add sd td) (ch.getLoopWeight true facade node)))) ∧
    (¬ (ch.getLoopWeight false facade node ≠ INVALID_EDGE_WEIGHT ∧
        0 ≤ i32add (i32add sw tw) (ch.getLoopWeight false facade node)) →
      ch.bucketHitCell (ch.getLoopWeight false facade node)
          (ch.getLoopWeight true facade node) cw cd sw sd tw td = (cw, cd)) := by
  constructor <;> intro hrep <;> simp [ch.bucketHitCell, hneg, hrep]

/-- C1 witness: a concrete repair (self-loop of weight 5, duration 7;
`new_w = -2` becomes 3, the duration candidate gains the loop duration 7) and
a concrete drop (no self-loop at all). -/
theorem c1_witness :
    i32add (-3) 1 < 0 ∧
    ch.bucketHitCell (ch.getLoopWeight false loopFacade 0) (ch.getLoopWeight true loopFacade 0)
        100 100 (-3) 2 1 4 =
      (min 100 (i32add (i32add (-3) 1) (ch.getLoopWeight false loopFacade 0)),
       min 100 (i32add (i32add 2 4) (ch.getLoopWeight true loopFacade 0))) ∧
    ch.bucketHitCell (ch.getLoopWeight false noLoopFacade 0) (ch.getLoopWeight true noLoopFacade 0)
        100 100 (-3) 2 1 4 = (100, 100) :=
  ⟨by decide,
   (c1_ch_loop_repair loopFacade 0 100 100 (-3) 2 1 4 (by decide)).1 (by decide),
   (c1_ch_loop_repair noLoopFacade 0 100 100 (-3) 2 1 4 (by decide)).2 (by decide)⟩

/-! ## Claim C2: CH bucket update for non-negative candidates -/

/-- C2 is false as stated: on an exact weight tie (stored weight 10, stored
duration 5, candidate weight `4 + 6 = 10` with smaller candidate duration
`1 + 2 = 3`) the code keeps the stored duration 5, not the smaller of the two
durations. -/
theorem c2_counterexample :
    (ch.bucketHitCell INVALID_EDGE_WEIGHT MAXIMAL_EDGE_DURATION 10 5 4 1 6 2).2 = 5 ∧
    ¬ ((ch.bucketHitCell INVALID_EDGE_WEIGHT MAXIMAL_EDGE_DURATION 10 5 4 1 6 2).2 =
        min 5 (i32add 1 2)) := by decide

/-- C2 amended: for a bucket hit with `new_w = w + tw ≥ 0` the table weight
becomes `min(current, new_w)`; on strict improvement both weight and duration
are replaced by the candidate; on an exact weight tie (or worse) the cell is
left unchanged — the previously stored duration is retained even when the
candidate duration is smaller. -/
theorem c2_ch_bucket_update_amended (lw ld cw cd sw sd tw td : Int)
    (hpos : 0 ≤ i32add sw tw) :
    (ch.bucketHitCell lw ld cw cd sw sd tw td).1 = min cw (i32add sw tw) ∧
    (i32add sw tw < cw →
      ch.bucketHitCell lw ld cw cd sw sd tw td = (i32add sw tw, i32add sd td)) ∧
    (cw ≤ i32add sw tw →
      ch.bucketHitCell lw ld cw cd sw sd tw td = (cw, cd)) := by
  have hnn : ¬ i32add sw tw < 0 := not_lt.mpr hpos
  refine ⟨?_, ?_, ?_⟩
  · rcases lt_or_ge (i32add sw tw) cw with hlt | hge
    · simp [ch.bucketHitCell, hnn, hlt, min_eq_right hlt.le]
    · simp [ch.bucketHitCell, hnn, not_lt.mpr hge, min_eq_left hge]
  · intro hlt
    simp [ch.bucketHitCell, hnn, hlt]
  · intro hge
    simp [ch.bucketHitCell, hnn, not_lt.mpr hge]

/-- C2 witness: a strict improvement (7 beats 10, duration replaced) and a
tie-or-worse case (5 retained together with its duration 9). -/
theorem c2_witness :
    0 ≤ i32add 3 4 ∧
    ch.bucketHitCell 0 0 10 9 3 1 4 2 = (i32add 3 4, i32add 1 2) ∧
    ch.bucketHitCell 0 0 5 9 3 1 4 2 = (5, 9) :=
  ⟨by decide,
   (c2_ch_bucket_update_amended 0 0 10 9 3 1 4 2 (by decide)).2.1 (by decide),
   (c2_ch_bucket_update_amended 0 0 5 9 3 1 4 2 (by decide)).2.2 (by decide)⟩

/-! ## Claim C8: MLD bucket update -/

/-- C8: in the MLD forward bucket update there is no loop repair — a
candidate with `new_w = w + tw < 0` is rejected without modifying the cell,
and a non-negative candidate updates the cell exactly when `new_w` is
strictly below the stored weight, then setting the duration to `d + td`. -/
theorem c8_mld_bucket_update (cw cd sw sd tw td : Int) :
    (i32add sw tw < 0 → mld.bucketHitCell cw cd sw sd tw td = (cw, cd)) ∧
    (0 ≤ i32add sw tw →
      (i32add sw tw < cw →
        mld.bucketHitCell cw cd sw sd tw td = (i32add sw tw, i32add sd td)) ∧
      (¬ i32add sw tw < cw →
        mld.bucketHitCell cw cd sw sd tw td = (cw, cd))) := by
  refine ⟨fun hneg => ?_, fun hpos => ⟨fun hlt => ?_, fun hge => ?_⟩⟩
  · have : ¬ (0 ≤ i32add sw tw ∧ i32add sw tw < cw) := fun h => absurd h.1 (not_le.mpr hneg)
    simp [mld.bucketHitCell, this]
  · simp [mld.bucketHitCell, hpos, hlt]
  · have : ¬ (0 ≤ i32add sw tw ∧ i32add sw tw < cw) := fun h => absurd h.2 hge
    simp [mld.bucketHitCell, this]

/-- C8 witness: a rejected overflow candidate, a strict improvement and a
rejected non-improvement, at concrete values. -/
theorem c8_witness :
    (i32add (-5) 2 < 0 ∧ mld.bucketHitCell 9 9 (-5) 0 2 0 = (9, 9)) ∧
    (0 ≤ i32add 3 4 ∧ mld.bucketHitCell 10 9 3 1 4 2 = (i32add 3 4, i32add 1 2)) ∧
    (¬ i32add 3 4 < 5 ∧ mld.bucketHitCell 5 9 3 1 4 2 = (5, 9)) :=
  ⟨⟨by decide, (c8_mld_bucket_update 9 9 (-5) 0 2 0).1 (by decide)⟩,
   ⟨by decide, ((c8_mld_bucket_update 10 9 3 1 4 2).2 (by decide)).1 (by decide)⟩,
   ⟨by decide, ((c8_mld_bucket_update 5 9 3 1 4 2).2 (by decide)).2 (by decide)⟩⟩

/-! ## Claim C7: stall-on-demand as a pure pruning optimization -/

/-- C7 is false as stated: on an adversarial (non-CH) graph the search with
stall-on-demand leaves the pair unreachable while the stall-free search finds
weight 11 — the tables differ, because stalling node 1 prunes the only path
to the bucket node. -/
theorem c7_counterexample :
    ch.manyToManySearch stallFacade [phantomAt0, phantomAt2] [0] [1] ≠
    ch.manyToManySearchNoStall stallFacade [phantomAt0, phantomAt2] [0] [1] := by
  decide

/-- C7 amended: within each routing step stalling is pure pruning — the
bucket append of the popped node and its table updates happen before the
stall test, so each step produces exactly the same tables (forward) and the
same buckets (backward) as its stall-free variant, and neither step ever
touches the other direction state; the whole-search equality claimed for
every input graph, however, holds only on genuine contraction hierarchies
(see the counterexample). -/
theorem c7_stall_prunes_only_relaxation (facade : ChFacade)
    (row_idx number_of_targets column_idx : Nat) (st : SState ChHeapData) :
    ((ch.forwardRoutingStep facade row_idx number_of_targets st).weights
        = (ch.forwardRoutingStepNoStall facade row_idx number_of_targets st).weights ∧
     (ch.forwardRoutingStep facade row_idx number_of_targets st).durations
        = (ch.forwardRoutingStepNoStall facade row_idx number_of_targets st).durations ∧
     (ch.forwardRoutingStep facade row_idx number_of_targets st).buckets = st.buckets) ∧
    ((ch.backwardRoutingStep facade column_idx st).buckets
        = (ch.backwardRoutingStepNoStall facade column_idx st).buckets ∧
     (ch.backwardRoutingStep facade column_idx st).weights = st.weights ∧
     (ch.backwardRoutingStep facade column_idx st).durations = st.durations) := by
  refine ⟨⟨?_, ?_, ?_⟩, ?_, ?_, ?_⟩ <;>
    simp only [ch.forwardRoutingStep, ch.forwardRoutingStepNoStall,
      ch.backwardRoutingStep, ch.backwardRoutingStepNoStall] <;>
    split <;> rfl

/-! ## Claim C3: the sentinel equivalence of the two tables -/

/-- C3 is false as stated: on `chainFacade` the two edge durations sum to
exactly `MAXIMAL_EDGE_DURATION`, so after the call the pair (0,0) holds a
finite weight (2) together with the sentinel duration — the claimed
equivalence `weights = INVALID ↔ durations = MAX_DURATION` fails. -/
theorem c3_counterexample :
    ¬ (((ch.manyToManyState chainFacade [phantomAt0, phantomAt2] [0] [1]).weights.getD 0 0
          = INVALID_EDGE_WEIGHT) ↔
       ((ch.manyToManyState chainFacade [phantomAt0, phantomAt2] [0] [1]).durations.getD 0 0
          = MAXIMAL_EDGE_DURATION)) := by decide

/-- C3 amended: at every point during and after a many-to-many call (CH with
positive in-range edge weights, and MLD unconditionally) the forward
direction of the claimed equivalence holds: a cell whose weight is
`INVALID_EDGE_WEIGHT` still holds `MAXIMAL_EDGE_DURATION` — in particular an
unreachable pair keeps both sentinels — and stored weights never exceed the
sentinel.  The converse implication is what the counterexample refutes: a
duration sum can land on `MAXIMAL_EDGE_DURATION` while the weight is finite.
Stated as: the coupling holds initially, is preserved by all four routing
steps, and hence holds of both final states. -/
theorem c3_sentinel_coupling_amended :
    (∀ n, TableInv (List.replicate n INVALID_EDGE_WEIGHT)
        (List.replicate n MAXIMAL_EDGE_DURATION)) ∧
    (∀ facade, WFch facade → ∀ row T st, TableInv st.weights st.durations →
      TableInv (ch.forwardRoutingStep facade row T st).weights
        (ch.forwardRoutingStep facade row T st).durations) ∧
    (∀ facade col st,
      (ch.backwardRoutingStep facade col st).weights = st.weights ∧
      (ch.backwardRoutingStep facade col st).durations = st.durations) ∧
    (∀ facade row T pc st, TableInv st.weights st.durations →
      TableInv (mld.forwardRoutingStep facade row T pc st).weights
        (mld.forwardRoutingStep facade row T pc st).durations) ∧
    (∀ facade col pc st,
      (mld.backwardRoutingStep facade col pc st).weights = st.weights ∧
      (mld.backwardRoutingStep facade col pc st).durations = st.durations) ∧
    (∀ facade, WFch facade → ∀ ph si ti,
      TableInv (ch.manyToManyState facade ph si ti).weights
        (ch.manyToManyState facade ph si ti).durations) ∧
    (∀ (facade : MldFacade) ph si ti,
      TableInv (mld.manyToManyState facade ph si ti).weights
        (mld.manyToManyState facade ph si ti).durations) :=
  ⟨TableInv_init,
   fun facade hwf row T st h => ch_forwardStep_tableInv facade hwf row T st h,
   fun facade col st => ch_backwardStep_tables facade col st,
   fun facade row T pc st h => mld_forwardStep_tableInv facade row T pc st h,
   fun facade col pc st => mld_backwardStep_tables facade col pc st,
   fun facade hwf ph si ti => ch_manyToMany_tableInv facade hwf ph si ti,
   fun facade ph si ti => mld_manyToMany_tableInv facade ph si ti⟩

/-- C3 witness: the amended coupling instantiated on the concrete chain
facade (whose well-formedness is discharged by evaluation) and on the
concrete MLD facade. -/
theorem c3_witness :
    TableInv (ch.manyToManyState chainFacade [phantomAt0, phantomAt2] [0] [1]).weights
      (ch.manyToManyState chainFacade [phantomAt0, phantomAt2] [0] [1]).durations ∧
    TableInv (mld.manyToManyState splitMldFacade [phantomAt0, phantomAt2] [0] [1]).weights
      (mld.manyToManyState splitMldFacade [phantomAt0, phantomAt2] [0] [1]).durations := by
  have hwf : WFch chainFacade := by
    intro n e he
    simp only [chainFacade] at he
    split at he
    · simp only [List.mem_singleton] at he
      subst he
      exact ⟨by decide, by decide, by decide⟩
    · split at he
      · simp only [List.mem_singleton] at he
        subst he
        exact ⟨by decide, by decide, by decide⟩
      · simp at he
  exact ⟨c3_sentinel_coupling_amended.2.2.2.2.2.1 chainFacade hwf
      [phantomAt0, phantomAt2] [0] [1],
    c3_sentinel_coupling_amended.2.2.2.2.2.2 splitMldFacade
      [phantomAt0, phantomAt2] [0] [1]⟩

/-! ## Claim C4: the MLD parent cell -/

/-- C4 is false as stated: with the current phantom carrying a disabled
forward segment at node 0 and an enabled reverse segment at node 1, and one
opposite-side phantom enabled at node 2 (nodes 1 and 2 share their level-1
cell, node 0 does not), the computed pair is `(1, 0)` — anchored at the
disabled forward segment — yet neither the enabled opposite segment (node 2)
nor the enabled reverse segment of the current phantom (node 1) lies in cell
0 at level 1, so `C*` contains neither the current phantom nor the opposite
side. -/
theorem c4_counterexample :
    mld.getParentCellID splitMldFacade phantomFwdDisabled
      [phantomFwdDisabled, phantomAt2] [1] = (1, 0) ∧
    phantomAt2.forward_segment_id.enabled = true ∧
    splitMldFacade.cellAt 1 phantomAt2.forward_segment_id.id ≠ 0 ∧
    phantomFwdDisabled.reverse_segment_id.enabled = true ∧
    splitMldFacade.cellAt 1 phantomFwdDisabled.reverse_segment_id.id ≠ 0 := by
  decide

theorem foldl_max_ge_acc {β : Type} (g : β → Nat) :
    ∀ (l : List β) (acc : Nat), acc ≤ l.foldl (fun a x => max a (g x)) acc := by
  intro l
  induction l with
  | nil => intro acc; exact le_refl _
  | cons x t ih => intro acc; exact le_trans (le_max_left _ _) (ih _)

theorem foldl_max_ge_elem {β : Type} (g : β → Nat) :
    ∀ (l : List β) (acc : Nat) (x : β), x ∈ l →
      g x ≤ l.foldl (fun a y => max a (g y)) acc := by
  intro l
  induction l with
  | nil => intro acc x hx; simp at hx
  | cons y t ih =>
      intro acc x hx
      rcases List.mem_cons.mp hx with h | h
      · subst h
        exact le_trans (le_max_right _ _) (foldl_max_ge_acc g t _)
      · exact ih _ x h

theorem foldl_condMax_ge_acc {β : Type} (q : β → Prop) [DecidablePred q] (g : β → Nat) :
    ∀ (l : List β) (acc : Nat), acc ≤ l.foldl (fun a x => if q x then max a (g x) else a) acc := by
  intro l
  induction l with
  | nil => intro acc; exact le_refl _
  | cons x t ih =>
      intro acc
      rw [List.foldl_cons]
      refine le_trans ?_ (ih _)
      show acc ≤ if q x then max acc (g x) else acc
      split
      · exact le_max_left _ _
      · exact le_refl _

theorem foldl_condMax_ge_elem {β : Type} (q : β → Prop) [DecidablePred q] (g : β → Nat) :
    ∀ (l : List β) (acc : Nat) (x : β), x ∈ l → q x →
      g x ≤ l.foldl (fun a y => if q y then max a (g y) else a) acc := by
  intro l
  induction l with
  | nil => intro acc x hx; simp at hx
  | cons y t ih =>
      intro acc x hx hq
      rcases List.mem_cons.mp hx with h | h
      · subst h
        rw [List.foldl_cons]
        refine le_trans ?_ (foldl_condMax_ge_acc q g t _)
        show g x ≤ if q x then max acc (g x) else acc
        rw [if_pos hq]
        exact le_max_right _ _
      · rw [List.foldl_cons]
        exact ih _ x h hq

/-- Nodes that agree above their highest different level: if
`getHighestDifferentLevel a b < L ≤ numLevels`, the cells of `a` and `b` at
level `L ≥ 1` coincide. -/
theorem hdl_lt_imp_cell_eq (facade : MldFacade) (a b : NodeID) (L : Nat)
    (h1 : 1 ≤ L) (h2 : L ≤ facade.numLevels)
    (hlt : mld.getHighestDifferentLevel facade a b < L) :
    facade.cellAt L a = facade.cellAt L b := by
  by_contra hne
  have hmem : L - 1 ∈ List.range facade.numLevels := List.mem_range.mpr (by omega)
  have hq : facade.cellAt (L - 1 + 1) a ≠ facade.cellAt (L - 1 + 1) b := by
    have : L - 1 + 1 = L := by omega
    rw [this]
    exact hne
  have hge : L - 1 + 1 ≤ mld.getHighestDifferentLevel facade a b :=
    foldl_condMax_ge_elem
      (fun l => facade.cellAt (l + 1) a ≠ facade.cellAt (l + 1) b)
      (fun l => l + 1) (List.range facade.numLevels) 0 (L - 1) hmem hq
  have heq : L - 1 + 1 = L := by omega
  rw [heq] at hge
  exact absurd (lt_of_le_of_lt hge hlt) (lt_irrefl L)

theorem entryOf_insert_ne {D : Type} (h : Heap D) (m n : NodeID) (k : Int) (d : D)
    (hmn : m ≠ n) : Heap.entryOf (h.insert m k d) n = Heap.entryOf h n := by
  simp only [Heap.insert, Heap.entryOf, List.find?_append]
  have hb : ((⟨m, k, d⟩ : HeapEntry D).node == n) = false := by simp [hmn]
  have : List.find? (fun e => e.node == n) [(⟨m, k, d⟩ : HeapEntry D)] = none := by
    simp [List.find?, hb]
  rw [this]
  cases List.find? (fun e => e.node == n) h.inserted <;> rfl

theorem entryOf_updateEntry_ne {D : Type} (h : Heap D) (m n : NodeID) (k : Int) (d : D)
    (hmn : m ≠ n) : Heap.entryOf (h.updateEntry m k d) n = Heap.entryOf h n := by
  simp only [Heap.updateEntry, Heap.entryOf]
  induction h.inserted with
  | nil => rfl
  | cons e t ih =>
      rw [List.map_cons]
      by_cases hem : (e.node == m) = true
      · have hem2 : e.node = m := by simpa using hem
        rw [if_pos hem]
        have h1 : ((⟨m, k, d⟩ : HeapEntry D).node == n) = false := by
          simp [hmn]
        have h2 : (e.node == n) = false := by
          simp [hem2, hmn]
        simp only [List.find?, h1, h2]
        exact ih
      · rw [if_neg hem]
        cases hen : (e.node == n) with
        | true => simp only [List.find?, hen]
        | false =>
            simp only [List.find?, hen]
            exact ih

theorem entryOf_heapRelax_ne {D : Type} (q : Heap D) (toNode : NodeID) (k : Int) (d : D)
    (n : NodeID) (hne : toNode ≠ n) :
    Heap.entryOf (heapRelax q toNode k d) n = Heap.entryOf q n := by
  unfold heapRelax
  split
  · exact entryOf_insert_ne q toNode n k d hne
  · split
    · exact entryOf_updateEntry_ne q toNode n k d hne
    · rfl

/-- Border relaxation only ever touches nodes lying in the parent cell. -/
theorem relaxBorderEdges_cell (dir : Bool) (facade : MldFacade) (node : NodeID)
    (level : Nat) (w d : Int) (pc : Nat × Nat) (h : Heap MldHeapData) (n : NodeID)
    (hch : Heap.entryOf (mld.relaxBorderEdges dir facade node level w d pc h) n ≠
      Heap.entryOf h n) :
    facade.cellAt pc.1 n = pc.2 := by
  by_cases hcell : facade.cellAt pc.1 n = pc.2
  · exact hcell
  · exfalso
    apply hch
    unfold mld.relaxBorderEdges
    refine foldl_preserve (fun q => Heap.entryOf q n = Heap.entryOf h n) _ _ ?_ h rfl
    intro q e he hq
    by_cases hflag : (if dir then e.forward else e.backward) = true
    · rw [if_pos hflag]
      by_cases hc : (facade.cellAt pc.1 e.target == pc.2) = true
      · rw [if_pos hc]
        have htn : e.target ≠ n := by
          intro habs
          rw [habs] at hc
          exact hcell (by simpa using hc)
        exact (entryOf_heapRelax_ne q e.target _ _ n htn).trans hq
      · rw [if_neg hc]
        exact hq
    · rw [if_neg hflag]
      exact hq

/-- C4 amended: the code anchors `C*` at the forward segment id of the
current phantom — `C* = GetCell(L*, source.forward_segment_id.id)` with
`L* = 1 + max` over opposite-side phantoms of the pairwise
highest-different-levels among enabled segment pairs.  When the forward
anchor segment is enabled and `L*` does not exceed the partition levels,
`C*` does contain every enabled opposite-side segment, and also the enabled
reverse segment of the current phantom provided some opposite-side segment is
enabled; with disabled segments the containment can fail (see the
counterexample).  Border relaxation only ever touches nodes lying in the
parent cell handed to it. -/
theorem c4_parent_cell_amended (facade : MldFacade) (source : PhantomNode)
    (phantom_nodes : List PhantomNode) (phantom_indices : List Nat) :
    ((mld.getParentCellID facade source phantom_nodes phantom_indices).2
      = facade.cellAt (mld.getParentCellID facade source phantom_nodes phantom_indices).1
          source.forward_segment_id.id) ∧
    (source.forward_segment_id.enabled = true →
      (mld.getParentCellID facade source phantom_nodes phantom_indices).1 ≤ facade.numLevels →
      ∀ t ∈ selectPhantoms phantom_nodes phantom_indices,
        (t.forward_segment_id.enabled = true →
          facade.cellAt (mld.getParentCellID facade source phantom_nodes phantom_indices).1
              t.forward_segment_id.id
            = (mld.getParentCellID facade source phantom_nodes phantom_indices).2) ∧
        (t.reverse_segment_id.enabled = true →
          facade.cellAt (mld.getParentCellID facade source phantom_nodes phantom_indices).1
              t.reverse_segment_id.id
            = (mld.getParentCellID facade source phantom_nodes phantom_indices).2)) ∧
    (source.forward_segment_id.enabled = true →
      source.reverse_segment_id.enabled = true →
      (mld.getParentCellID facade source phantom_nodes phantom_indices).1 ≤ facade.numLevels →
      ∀ t ∈ selectPhantoms phantom_nodes phantom_indices,
        (t.forward_segment_id.enabled = true ∨ t.reverse_segment_id.enabled = true) →
        facade.cellAt (mld.getParentCellID facade source phantom_nodes phantom_indices).1
            source.reverse_segment_id.id
          = (mld.getParentCellID facade source phantom_nodes phantom_indices).2) ∧
    (∀ (dir : Bool) (node : NodeID) (level : Nat) (w d : Int) (pc : Nat × Nat)
        (h : Heap MldHeapData) (n : NodeID),
      Heap.entryOf (mld.relaxBorderEdges dir facade node level w d pc h) n ≠
        Heap.entryOf h n →
      facade.cellAt pc.1 n = pc.2) := by
  classical
  set lvl : SegmentID → SegmentID → Nat := fun s t =>
    if s.enabled && t.enabled then mld.getHighestDifferentLevel facade s.id t.id else 0
    with hlvl
  set hle : PhantomNode → Nat := fun t =>
    max (max (lvl source.forward_segment_id t.forward_segment_id)
             (lvl source.forward_segment_id t.reverse_segment_id))
        (max (lvl source.reverse_segment_id t.forward_segment_id)
             (lvl source.reverse_segment_id t.reverse_segment_id))
    with hhle
  set hd : Nat := (selectPhantoms phantom_nodes phantom_indices).foldl
    (fun acc ph => max acc (hle ph)) 0 with hhd
  have hLC : mld.getParentCellID facade source phantom_nodes phantom_indices =
      (hd + 1, facade.cellAt (hd + 1) source.forward_segment_id.id) := rfl
  have pairBound : ∀ t ∈ selectPhantoms phantom_nodes phantom_indices,
      ∀ (s1 s2 : SegmentID),
      (s1 = source.forward_segment_id ∨ s1 = source.reverse_segment_id) →
      (s2 = t.forward_segment_id ∨ s2 = t.reverse_segment_id) →
      s1.enabled = true → s2.enabled = true →
      mld.getHighestDifferentLevel facade s1.id s2.id ≤ hd := by
    intro t ht s1 s2 hs1 hs2 he1 he2
    have hlv : lvl s1 s2 = mld.getHighestDifferentLevel facade s1.id s2.id := by
      rw [hlvl]
      simp [he1, he2]
    have hle1 : lvl s1 s2 ≤ hle t := by
      rw [hhle]
      rcases hs1 with rfl | rfl <;> rcases hs2 with rfl | rfl
      · exact le_trans (le_max_left _ _) (le_max_left _ _)
      · exact le_trans (le_max_right _ _) (le_max_left _ _)
      · exact le_trans (le_max_left _ _) (le_max_right _ _)
      · exact le_trans (le_max_right _ _) (le_max_right _ _)
    have hle2 : hle t ≤ hd := by
      rw [hhd]
      exact foldl_max_ge_elem hle _ 0 t ht
    rw [← hlv]
    exact le_trans hle1 hle2
  have cellEq : ∀ t ∈ selectPhantoms phantom_nodes phantom_indices,
      ∀ (s1 s2 : SegmentID),
      (s1 = source.forward_segment_id ∨ s1 = source.reverse_segment_id) →
      (s2 = t.forward_segment_id ∨ s2 = t.reverse_segment_id) →
      s1.enabled = true → s2.enabled = true →
      hd + 1 ≤ facade.numLevels →
      facade.cellAt (hd + 1) s1.id = facade.cellAt (hd + 1) s2.id := by
    intro t ht s1 s2 hs1 hs2 he1 he2 hrange
    exact hdl_lt_imp_cell_eq facade s1.id s2.id (hd + 1) (by omega) hrange
      (lt_of_le_of_lt (pairBound t ht s1 s2 hs1 hs2 he1 he2) (Nat.lt_succ_self hd))
  rw [hLC]
  refine ⟨rfl, ?_, ?_, ?_⟩
  · intro hsrc hrange t ht
    refine ⟨fun htf => ?_, fun htr => ?_⟩
    · exact (cellEq t ht source.forward_segment_id t.forward_segment_id
        (Or.inl rfl) (Or.inl rfl) hsrc htf hrange).symm
    · exact (cellEq t ht source.forward_segment_id t.reverse_segment_id
        (Or.inl rfl) (Or.inr rfl) hsrc htr hrange).symm
  · intro hsrcF hsrcR hrange t ht hseg
    rcases hseg with htf | htr
    · exact (cellEq t ht source.reverse_segment_id t.forward_segment_id
          (Or.inr rfl) (Or.inl rfl) hsrcR htf hrange).trans
        (cellEq t ht source.forward_segment_id t.forward_segment_id
          (Or.inl rfl) (Or.inl rfl) hsrcF htf hrange).symm
    · exact (cellEq t ht source.reverse_segment_id t.reverse_segment_id
          (Or.inr rfl) (Or.inr rfl) hsrcR htr hrange).trans
        (cellEq t ht source.forward_segment_id t.reverse_segment_id
          (Or.inl rfl) (Or.inr rfl) hsrcF htr hrange).symm
  · intro dir node level w d pc h n hch
    exact relaxBorderEdges_cell dir facade node level w d pc h n hch

/-- C4 witness: the amended containment on a concrete one-cell partition with
every relevant segment enabled, and the border restriction exercised on a
concrete relaxation. -/
theorem c4_witness :
    (allSameMldFacade.cellAt
        (mld.getParentCellID allSameMldFacade phantomBoth01 [phantomBoth01, phantomAt2] [1]).1
        phantomAt2.forward_segment_id.id
      = (mld.getParentCellID allSameMldFacade phantomBoth01 [phantomBoth01, phantomAt2] [1]).2) ∧
    (allSameMldFacade.cellAt
        (mld.getParentCellID allSameMldFacade phantomBoth01 [phantomBoth01, phantomAt2] [1]).1
        phantomBoth01.reverse_segment_id.id
      = (mld.getParentCellID allSameMldFacade phantomBoth01 [phantomBoth01, phantomAt2] [1]).2) ∧
    borderMldFacade.cellAt 1 1 = 0 :=
  ⟨((c4_parent_cell_amended allSameMldFacade phantomBoth01 [phantomBoth01, phantomAt2] [1]).2.1
      (by decide) (by decide) phantomAt2 (by decide)).1 (by decide),
   (c4_parent_cell_amended allSameMldFacade phantomBoth01 [phantomBoth01, phantomAt2] [1]).2.2.1
      (by decide) (by decide) (by decide) phantomAt2 (by decide) (Or.inl (by decide)),
   (c4_parent_cell_amended borderMldFacade phantomBoth01 [phantomBoth01] []).2.2.2
      true 0 0 0 0 (1, 0) Heap.init 1 (by decide)⟩

/-! ## Heap invariant, measure, and loop completion -/

theorem nodup_bounded_length_le (l : List Nat) (N : Nat) (hnd : l.Nodup)
    (hlt : ∀ m ∈ l, m < N) : l.length ≤ N := by
  have hsub : l.toFinset ⊆ Finset.range N := by
    intro x hx
    rw [Finset.mem_range]
    exact hlt x (List.mem_toFinset.mp hx)
  have := Finset.card_le_card hsub
  rw [List.toFinset_card_of_nodup hnd, Finset.card_range] at this
  exact this

theorem wasInserted_false_not_mem {D : Type} (q : Heap D) (n : NodeID)
    (h : q.wasInserted n = false) : n ∉ q.inserted.map (fun e => e.node) := by
  intro habs
  rcases List.mem_map.mp habs with ⟨e, he, hen⟩
  have : q.inserted.any (fun e => e.node == n) = true :=
    List.any_eq_true.mpr ⟨e, he, by simp [hen]⟩
  rw [Heap.wasInserted] at h
  rw [h] at this
  cases this

theorem updateEntry_map_node {D : Type} (q : Heap D) (n : NodeID) (k : Int) (d : D) :
    (q.updateEntry n k d).inserted.map (fun e => e.node) =
      q.inserted.map (fun e => e.node) := by
  simp only [Heap.updateEntry, List.map_map]
  apply List.map_congr_left
  intro e _
  by_cases hen : (e.node == n) = true
  · simp only [Function.comp, if_pos hen]
    exact (by simpa using hen : e.node = n).symm
  · simp only [Function.comp, if_neg hen]

theorem heapRelax_HInv_measure {D : Type} (N : Nat) (q : Heap D) (toN : NodeID)
    (k : Int) (d : D) (htn : toN < N) (h : HInv N q) :
    HInv N (heapRelax q toN k d) ∧ hmeasure N (heapRelax q toN k d) = hmeasure N q := by
  rcases h with ⟨hnd, hbound, hsub, hond⟩
  unfold heapRelax
  split
  · next hni =>
      have hfresh : q.wasInserted toN = false := by simpa using hni
      have hnotmem := wasInserted_false_not_mem q toN hfresh
      have hmap : (q.insert toN k d).inserted.map (fun e => e.node) =
          q.inserted.map (fun e => e.node) ++ [toN] := by
        simp [Heap.insert]
      have hopens : (q.insert toN k d).opens = q.opens ++ [toN] := rfl
      have hlen : q.inserted.length < N := by
        have := nodup_bounded_length_le (toN :: q.inserted.map (fun e => e.node)) N
          (List.nodup_cons.mpr ⟨hnotmem, hnd⟩)
          (by
            intro m hm
            rcases List.mem_cons.mp hm with rfl | hm2
            · exact htn
            · exact hbound m hm2)
        simpa using this
      refine ⟨⟨?_, ?_, ?_, ?_⟩, ?_⟩
      · rw [hmap]
        exact List.Nodup.append hnd (List.nodup_singleton _)
          (by
            intro a ha hb
            rcases List.mem_singleton.mp hb with rfl
            exact hnotmem ha)
      · intro m hm
        rw [hmap] at hm
        rcases List.mem_append.mp hm with hm2 | hm2
        · exact hbound m hm2
        · rcases List.mem_singleton.mp hm2 with rfl
          exact htn
      · intro m hm
        rw [hopens] at hm
        rw [hmap]
        rcases List.mem_append.mp hm with hm2 | hm2
        · exact List.mem_append.mpr (Or.inl (hsub m hm2))
        · exact List.mem_append.mpr (Or.inr hm2)
      · rw [hopens]
        refine List.Nodup.append hond (List.nodup_singleton _) ?_
        intro a ha hb
        rcases List.mem_singleton.mp hb with rfl
        exact hnotmem (hsub a ha)
      · simp only [hmeasure, hopens, Heap.insert, List.length_append,
          List.length_singleton]
        omega
  · split
    · have hmap := updateEntry_map_node q toN k d
      have hopens : (q.updateEntry toN k d).opens = q.opens := rfl
      refine ⟨⟨?_, ?_, ?_, ?_⟩, ?_⟩
      · rw [hmap]; exact hnd
      · intro m hm; rw [hmap] at hm; exact hbound m hm
      · intro m hm; rw [hopens] at hm; rw [hmap]; exact hsub m hm
      · rw [hopens]; exact hond
      · have hlen : (q.updateEntry toN k d).inserted.length = q.inserted.length := by
          simp [Heap.updateEntry]
        simp only [hmeasure, hopens, hlen]
    · exact ⟨⟨hnd, hbound, hsub, hond⟩, rfl⟩

theorem hmeasure_le_of_HInv {D : Type} (N : Nat) (h : Heap D) (hh : HInv N h) :
    hmeasure N h ≤ N := by
  rcases hh with ⟨hnd, hbound, hsub, hond⟩
  have h1 : h.opens.length ≤ (h.inserted.map (fun e => e.node)).length := by
    have hsub2 : h.opens.toFinset ⊆ (h.inserted.map (fun e => e.node)).toFinset := by
      intro x hx
      exact List.mem_toFinset.mpr (hsub x (List.mem_toFinset.mp hx))
    have hcard := Finset.card_le_card hsub2
    rw [List.toFinset_card_of_nodup hond] at hcard
    exact le_trans hcard (List.toFinset_card_le _)
  have h2 : h.inserted.length ≤ N :=
    le_trans (by simp) (nodup_bounded_length_le _ N hnd hbound)
  simp only [hmeasure]
  have h3 : h.opens.length ≤ h.inserted.length := by simpa using h1
  omega

theorem ch_relax_heapGood (dir : Bool) (facade : ChFacade) (hwf : WFch facade)
    (node : NodeID) (w d : Int) (q : Heap ChHeapData)
    (hq : HInv facade.numNodes q) :
    HInv facade.numNodes (ch.relaxOutgoingEdges dir facade node w d q) ∧
    hmeasure facade.numNodes (ch.relaxOutgoingEdges dir facade node w d q) =
      hmeasure facade.numNodes q := by
  unfold ch.relaxOutgoingEdges
  refine foldl_preserve
    (fun h2 => HInv facade.numNodes h2 ∧
      hmeasure facade.numNodes h2 = hmeasure facade.numNodes q) _ _ ?_ q ⟨hq, rfl⟩
  intro a e he hP
  by_cases hflag : (if dir then e.forward else e.backward) = true
  · rw [if_pos hflag]
    have hrel := heapRelax_HInv_measure facade.numNodes a e.target
      (i32add w e.weight) ⟨node, i32add d e.duration⟩ (hwf node e he).2.2 hP.1
    exact ⟨hrel.1, hrel.2.trans hP.2⟩
  · rw [if_neg hflag]
    exact hP

theorem mld_relaxShortcuts_heapGood (dir : Bool) (facade : MldFacade)
    (hwf : WFmld facade) (node : NodeID) (level : Nat) (w d : Int)
    (q : Heap MldHeapData) (hq : HInv facade.numNodes q) :
    HInv facade.numNodes (mld.relaxShortcuts dir facade node level w d q) ∧
    hmeasure facade.numNodes (mld.relaxShortcuts dir facade node level w d q) =
      hmeasure facade.numNodes q := by
  unfold mld.relaxShortcuts
  refine foldl_preserve
    (fun h2 => HInv facade.numNodes h2 ∧
      hmeasure facade.numNodes h2 = hmeasure facade.numNodes q) _ _ ?_ q ⟨hq, rfl⟩
  intro a arc harc hP
  unfold mld.relaxOneShortcut
  split
  · have htn : arc.1 < facade.numNodes := by
      split at harc
      · have hmem := List.of_mem_zip harc
        exact (hwf.2 level (facade.cellAt level node)).1 arc.1 hmem.1
      · have hmem := List.of_mem_zip harc
        exact (hwf.2 level (facade.cellAt level node)).2 arc.1 hmem.1
    have hrel := heapRelax_HInv_measure facade.numNodes a arc.1
      (i32add w arc.2.1) ⟨node, true, level, i32add d arc.2.2⟩ htn hP.1
    exact ⟨hrel.1, hrel.2.trans hP.2⟩
  · exact hP

theorem mld_relaxBorder_heapGood (dir : Bool) (facade : MldFacade)
    (hwf : WFmld facade) (node : NodeID) (level : Nat) (w d : Int)
    (pc : Nat × Nat) (q : Heap MldHeapData) (hq : HInv facade.numNodes q) :
    HInv facade.numNodes (mld.relaxBorderEdges dir facade node level w d pc q) ∧
    hmeasure facade.numNodes (mld.relaxBorderEdges dir facade node level w d pc q) =
      hmeasure facade.numNodes q := by
  unfold mld.relaxBorderEdges
  refine foldl_preserve
    (fun h2 => HInv facade.numNodes h2 ∧
      hmeasure facade.numNodes h2 = hmeasure facade.numNodes q) _ _ ?_ q ⟨hq, rfl⟩
  intro a e he hP
  by_cases hflag : (if dir then e.forward else e.backward) = true
  · rw [if_pos hflag]
    by_cases hc : (facade.cellAt pc.1 e.target == pc.2) = true
    · rw [if_pos hc]
      have hrel := heapRelax_HInv_measure facade.numNodes a e.target
        (i32add w e.weight) ⟨node, false, level, i32add d e.duration⟩
        ((hwf.1 level node e he).2.2) hP.1
      exact ⟨hrel.1, hrel.2.trans hP.2⟩
    · rw [if_neg hc]
      exact hP
  · rw [if_neg hflag]
    exact hP

theorem mld_relax_heapGood (dir : Bool) (facade : MldFacade) (hwf : WFmld facade)
    (node : NodeID) (w d : Int) (q : Heap MldHeapData) (pc : Nat × Nat)
    (hq : HInv facade.numNodes q) :
    HInv facade.numNodes (mld.relaxOutgoingEdges dir facade node w d q pc) ∧
    hmeasure facade.numNodes (mld.relaxOutgoingEdges dir facade node w d q pc) =
      hmeasure facade.numNodes q := by
  simp only [mld.relaxOutgoingEdges]
  split
  · have h1 := mld_relaxShortcuts_heapGood dir facade hwf node
      (max (q.getData node).level
        (mld.getHighestDifferentLevel facade (q.getData node).parent node)) w d q hq
    have h2 := mld_relaxBorder_heapGood dir facade hwf node
      (max (q.getData node).level
        (mld.getHighestDifferentLevel facade (q.getData node).parent node)) w d pc _ h1.1
    exact ⟨h2.1, h2.2.trans h1.2⟩
  · exact mld_relaxBorder_heapGood dir facade hwf node
      (max (q.getData node).level
        (mld.getHighestDifferentLevel facade (q.getData node).parent node)) w d pc q hq

theorem findMin_mem {D : Type} (h : Heap D) :
    ∀ n, h.findMin = some n → n ∈ h.opens := by
  unfold Heap.findMin
  suffices hgen : ∀ (l : List NodeID) (acc : Option NodeID), l ⊆ h.opens →
      (∀ b, acc = some b → b ∈ h.opens) → ∀ n,
      l.foldl (fun acc n =>
        match acc with
        | none => some n
        | some b => if h.getKey n < h.getKey b then some n else acc) acc = some n →
      n ∈ h.opens by
    intro n hn
    exact hgen h.opens none (fun x hx => hx) (fun b hb => by cases hb) n hn
  intro l
  induction l with
  | nil => intro acc _ hacc n hn; exact hacc n hn
  | cons x t ih =>
      intro acc hsub hacc n hn
      rw [List.foldl_cons] at hn
      refine ih _ (fun y hy => hsub (List.mem_cons_of_mem _ hy)) ?_ n hn
      intro b hb
      cases acc with
      | none =>
          cases hb
          exact hsub (List.mem_cons_self _ _)
      | some c =>
          have hb2 : (if h.getKey x < h.getKey c then some x else some c) = some b := hb
          by_cases hk : h.getKey x < h.getKey c
          · rw [if_pos hk] at hb2
            cases hb2
            exact hsub (List.mem_cons_self _ _)
          · rw [if_neg hk] at hb2
            exact hacc b hb2

theorem findMin_isSome {D : Type} (h : Heap D) (hne : h.opens ≠ []) :
    ∃ n, h.findMin = some n := by
  unfold Heap.findMin
  suffices hgen : ∀ (l : List NodeID) (acc : Option NodeID),
      (∃ b, acc = some b) ∨ l ≠ [] → ∃ n,
      l.foldl (fun acc n =>
        match acc with
        | none => some n
        | some b => if h.getKey n < h.getKey b then some n else acc) acc = some n by
    exact hgen h.opens none (Or.inr hne)
  intro l
  induction l with
  | nil =>
      intro acc hc
      rcases hc with ⟨b, hb⟩ | habs
      · exact ⟨b, hb⟩
      · exact absurd rfl habs
  | cons x t ih =>
      intro acc _
      rw [List.foldl_cons]
      apply ih
      left
      cases acc with
      | none => exact ⟨x, rfl⟩
      | some c =>
          by_cases hk : h.getKey x < h.getKey c
          · exact ⟨x, by simp [hk]⟩
          · exact ⟨c, by simp [hk]⟩

theorem deleteMin_spec {D : Type} (N : Nat) (q : Heap D) (hq : HInv N q)
    (hne : q.opens ≠ []) :
    HInv N q.deleteMin.2 ∧ hmeasure N q.deleteMin.2 + 1 = hmeasure N q ∧
    q.deleteMin.2.inserted = q.inserted := by
  rcases findMin_isSome q hne with ⟨n, hn⟩
  have hmem := findMin_mem q n hn
  rcases hq with ⟨hnd, hbound, hsub, hond⟩
  simp only [Heap.deleteMin, hn]
  refine ⟨⟨hnd, hbound, ?_, ?_⟩, ?_, trivial⟩
  · intro m hm
    exact hsub m (List.erase_subset _ _ hm)
  · exact hond.erase n
  · simp only [hmeasure]
    rw [List.length_erase_of_mem hmem]
    have h1 : 1 ≤ q.opens.length := by
      cases hq2 : q.opens with
      | nil => exact absurd hq2 hne
      | cons a t => simp
    omega

/-- Every CH backward routing step on a nonempty heap keeps the heap
invariant and decreases the measure by exactly one. -/
theorem ch_backwardStep_heapSpec (facade : ChFacade) (hwf : WFch facade)
    (col : Nat) (st : SState ChHeapData) (hne : st.heap.opens ≠ [])
    (hh : HInv facade.numNodes st.heap) :
    HInv facade.numNodes (ch.backwardRoutingStep facade col st).heap ∧
    hmeasure facade.numNodes (ch.backwardRoutingStep facade col st).heap + 1 =
      hmeasure facade.numNodes st.heap := by
  have hdm := deleteMin_spec facade.numNodes st.heap hh hne
  simp only [ch.backwardRoutingStep]
  split
  · exact ⟨hdm.1, hdm.2.1⟩
  · have hrel := ch_relax_heapGood false facade hwf st.heap.deleteMin.1
      (st.heap.getKey st.heap.deleteMin.1)
      ((st.heap.getData st.heap.deleteMin.1).duration) st.heap.deleteMin.2 hdm.1
    exact ⟨hrel.1, by rw [hrel.2]; exact hdm.2.1⟩

/-- Every CH forward routing step on a nonempty heap keeps the heap invariant
and decreases the measure by exactly one. -/
theorem ch_forwardStep_heapSpec (facade : ChFacade) (hwf : WFch facade)
    (row T : Nat) (st : SState ChHeapData) (hne : st.heap.opens ≠ [])
    (hh : HInv facade.numNodes st.heap) :
    HInv facade.numNodes (ch.forwardRoutingStep facade row T st).heap ∧
    hmeasure facade.numNodes (ch.forwardRoutingStep facade row T st).heap + 1 =
      hmeasure facade.numNodes st.heap := by
  have hdm := deleteMin_spec facade.numNodes st.heap hh hne
  simp only [ch.forwardRoutingStep]
  split
  · exact ⟨hdm.1, hdm.2.1⟩
  · have hrel := ch_relax_heapGood true facade hwf st.heap.deleteMin.1
      (st.heap.getKey st.heap.deleteMin.1)
      ((st.heap.getData st.heap.deleteMin.1).duration) st.heap.deleteMin.2 hdm.1
    exact ⟨hrel.1, by rw [hrel.2]; exact hdm.2.1⟩

/-- Every MLD backward routing step on a nonempty heap keeps the heap
invariant and decreases the measure by exactly one. -/
theorem mld_backwardStep_heapSpec (facade : MldFacade) (hwf : WFmld facade)
    (col : Nat) (pc : Nat × Nat) (st : SState MldHeapData) (hne : st.heap.opens ≠ [])
    (hh : HInv facade.numNodes st.heap) :
    HInv facade.numNodes (mld.backwardRoutingStep facade col pc st).heap ∧
    hmeasure facade.numNodes (mld.backwardRoutingStep facade col pc st).heap + 1 =
      hmeasure facade.numNodes st.heap := by
  have hdm := deleteMin_spec facade.numNodes st.heap hh hne
  simp only [mld.backwardRoutingStep]
  have hrel := mld_relax_heapGood false facade hwf st.heap.deleteMin.1
    (st.heap.getKey st.heap.deleteMin.1)
    ((st.heap.getData st.heap.deleteMin.1).duration) st.heap.deleteMin.2 pc hdm.1
  exact ⟨hrel.1, by rw [hrel.2]; exact hdm.2.1⟩

/-- Every MLD forward routing step on a nonempty heap keeps the heap
invariant and decreases the measure by exactly one. -/
theorem mld_forwardStep_heapSpec (facade : MldFacade) (hwf : WFmld facade)
    (row T : Nat) (pc : Nat × Nat) (st : SState MldHeapData) (hne : st.heap.opens ≠ [])
    (hh : HInv facade.numNodes st.heap) :
    HInv facade.numNodes (mld.forwardRoutingStep facade row T pc st).heap ∧
    hmeasure facade.numNodes (mld.forwardRoutingStep facade row T pc st).heap + 1 =
      hmeasure facade.numNodes st.heap := by
  have hdm := deleteMin_spec facade.numNodes st.heap hh hne
  simp only [mld.forwardRoutingStep]
  have hrel := mld_relax_heapGood true facade hwf st.heap.deleteMin.1
    (st.heap.getKey st.heap.deleteMin.1)
    ((st.heap.getData st.heap.deleteMin.1).duration) st.heap.deleteMin.2 pc hdm.1
  exact ⟨hrel.1, by rw [hrel.2]; exact hdm.2.1⟩

/-- With fuel at least the measure, the fuelled loop drains the heap. -/
theorem searchLoop_complete {D : Type} (N : Nat) (step : SState D → SState D)
    (hstep : ∀ st, st.heap.opens ≠ [] → HInv N st.heap →
      HInv N (step st).heap ∧ hmeasure N (step st).heap + 1 = hmeasure N st.heap) :
    ∀ (fuel : Nat) (st : SState D), HInv N st.heap → hmeasure N st.heap ≤ fuel →
      (searchLoop step fuel st).heap.opens = [] := by
  intro fuel
  induction fuel with
  | zero =>
      intro st hh hm
      have : st.heap.opens.length = 0 := by
        simp only [hmeasure] at hm
        omega
      simp only [searchLoop]
      exact List.length_eq_zero.mp this
  | succ n ih =>
      intro st hh hm
      simp only [searchLoop]
      split
      · next hempty => exact List.isEmpty_iff.mp hempty
      · next hnempty =>
          have hne : st.heap.opens ≠ [] := by
            intro habs
            rw [List.isEmpty_iff] at hnempty
            exact hnempty habs
          have hs := hstep st hne hh
          exact ih (step st) hs.1 (by omega)

theorem find?_none_of_wasInserted_false {D : Type} (q : Heap D) (n : NodeID)
    (h : q.wasInserted n = false) :
    q.inserted.find? (fun e => e.node == n) = none := by
  rw [List.find?_eq_none]
  intro x hx hpx
  have habs : q.inserted.any (fun e => e.node == n) = true :=
    List.any_eq_true.mpr ⟨x, hx, hpx⟩
  rw [Heap.wasInserted] at h
  rw [h] at habs
  cases habs

theorem entryOf_insert_self {D : Type} (q : Heap D) (n : NodeID) (k : Int) (d : D)
    (hw : q.wasInserted n = false) :
    Heap.entryOf (q.insert n k d) n = some ⟨n, k, d⟩ := by
  simp only [Heap.insert, Heap.entryOf, List.find?_append]
  rw [find?_none_of_wasInserted_false q n hw]
  simp [List.find?]

theorem entryOf_updateEntry_self {D : Type} (q : Heap D) (n : NodeID) (k : Int) (d : D) :
    Heap.entryOf (q.updateEntry n k d) n =
      (Heap.entryOf q n).map (fun _ => ⟨n, k, d⟩) := by
  simp only [Heap.updateEntry, Heap.entryOf]
  induction q.inserted with
  | nil => rfl
  | cons e t ih =>
      rw [List.map_cons]
      by_cases hen : (e.node == n) = true
      · rw [if_pos hen]
        have h1 : ((⟨n, k, d⟩ : HeapEntry D).node == n) = true := by simp
        simp only [List.find?, h1, hen]
        rfl
      · rw [if_neg hen]
        simp only [List.find?, hen]
        exact ih

theorem entryOf_heapRelax_self {D : Type} (q : Heap D) (n : NodeID) (k : Int) (d : D) :
    Heap.entryOf (heapRelax q n k d) n = Heap.entryOf q n ∨
    Heap.entryOf (heapRelax q n k d) n = some ⟨n, k, d⟩ := by
  unfold heapRelax
  split
  · next hni =>
      right
      exact entryOf_insert_self q n k d (by simpa using hni)
  · split
    · next hni _ =>
        right
        rw [entryOf_updateEntry_self]
        have hw : q.wasInserted n = true := by
          by_contra habs
          exact hni (by simpa using habs)
        have hsome : ∃ e, q.inserted.find? (fun x => x.node == n) = some e := by
          have : (q.inserted.find? (fun x => x.node == n)).isSome := by
            rw [List.find?_isSome]
            rcases List.any_eq_true.mp hw with ⟨x, hx, hpx⟩
            exact ⟨x, hx, hpx⟩
          exact Option.isSome_iff_exists.mp this
        rcases hsome with ⟨e, he⟩
        rw [Heap.entryOf, he]
        rfl
    · left; rfl

/-- Fold invariant for the clique-arc loop: an entry that changes carries the
clique payload `{node, true, level, _}` and is never the self node. -/
theorem relaxShortcuts_foldl_changed (node : NodeID) (level : Nat) (w d : Int)
    (h : Heap MldHeapData) (n : NodeID) :
    ∀ (arcs : List (NodeID × Int × Int)) (q : Heap MldHeapData),
      (Heap.entryOf q n = Heap.entryOf h n ∨
        ((∃ k dur, Heap.entryOf q n = some ⟨n, k, ⟨node, true, level, dur⟩⟩) ∧ n ≠ node)) →
      (Heap.entryOf (arcs.foldl (mld.relaxOneShortcut node level w d) q) n = Heap.entryOf h n ∨
        ((∃ k dur, Heap.entryOf (arcs.foldl (mld.relaxOneShortcut node level w d) q) n =
            some ⟨n, k, ⟨node, true, level, dur⟩⟩) ∧ n ≠ node)) := by
  intro arcs
  induction arcs with
  | nil => intro q hq; exact hq
  | cons a t ih =>
      intro q hq
      rw [List.foldl_cons]
      apply ih
      unfold mld.relaxOneShortcut
      split
      · next hcond =>
          by_cases htn : a.1 = n
          · subst htn
            rcases entryOf_heapRelax_self q a.1 (i32add w a.2.1)
                ⟨node, true, level, i32add d a.2.2⟩ with heq | heq
            · rw [heq]; exact hq
            · exact Or.inr ⟨⟨_, _, heq⟩, fun habs => hcond.2 habs.symm⟩
          · rw [entryOf_heapRelax_ne q a.1 _ _ n htn]
            exact hq
      · exact hq

/-- Any entry changed by the clique-arc expansion carries
`from_clique_arc = true` and the expansion level, and is not the self node. -/
theorem relaxShortcuts_changed (dir : Bool) (facade : MldFacade) (node : NodeID)
    (level : Nat) (w d : Int) (h : Heap MldHeapData) (n : NodeID)
    (hch : Heap.entryOf (mld.relaxShortcuts dir facade node level w d h) n ≠
      Heap.entryOf h n) :
    (∃ k dur, Heap.entryOf (mld.relaxShortcuts dir facade node level w d h) n =
        some ⟨n, k, ⟨node, true, level, dur⟩⟩) ∧ n ≠ node := by
  simp only [mld.relaxShortcuts] at hch ⊢
  rcases relaxShortcuts_foldl_changed node level w d h n _ h (Or.inl rfl) with hres | hres
  · exact absurd hres hch
  · exact hres

theorem relaxOneShortcut_skip (node : NodeID) (level : Nat) (w d : Int)
    (q : Heap MldHeapData) (arc : NodeID × Int × Int)
    (hskip : arc.2.1 = INVALID_EDGE_WEIGHT ∨ node = arc.1) :
    mld.relaxOneShortcut node level w d q arc = q := by
  unfold mld.relaxOneShortcut
  rw [if_neg]
  rintro ⟨h1, h2⟩
  rcases hskip with hs | hs
  · exact h1 hs
  · exact h2 hs

/-- C9: at a popped node, clique-arc expansion happens if and only if
`node_level = max(entry.level, highest_different_level(entry.parent, n))` is
at least 1 and the entry was not itself reached by a clique arc; the
expansion skips arcs with `INVALID_EDGE_WEIGHT` and self-arcs; and every
entry it writes carries `from_clique_arc = true` and `level = node_level`.
Border relaxation then always follows at `node_level`. -/
theorem c9_mld_clique_expansion :
    (∀ (dir : Bool) (facade : MldFacade) (node : NodeID) (w d : Int)
        (h : Heap MldHeapData) (pc : Nat × Nat),
      (1 ≤ max (h.getData node).level
            (mld.getHighestDifferentLevel facade (h.getData node).parent node) ∧
          (h.getData node).from_clique_arc = false →
        mld.relaxOutgoingEdges dir facade node w d h pc =
          mld.relaxBorderEdges dir facade node
            (max (h.getData node).level
              (mld.getHighestDifferentLevel facade (h.getData node).parent node)) w d pc
            (mld.relaxShortcuts dir facade node
              (max (h.getData node).level
                (mld.getHighestDifferentLevel facade (h.getData node).parent node)) w d h)) ∧
      (¬ (1 ≤ max (h.getData node).level
            (mld.getHighestDifferentLevel facade (h.getData node).parent node) ∧
          (h.getData node).from_clique_arc = false) →
        mld.relaxOutgoingEdges dir facade node w d h pc =
          mld.relaxBorderEdges dir facade node
            (max (h.getData node).level
              (mld.getHighestDifferentLevel facade (h.getData node).parent node)) w d pc h)) ∧
    (∀ (node : NodeID) (level : Nat) (w d : Int) (q : Heap MldHeapData)
        (arc : NodeID × Int × Int),
      arc.2.1 = INVALID_EDGE_WEIGHT ∨ node = arc.1 →
      mld.relaxOneShortcut node level w d q arc = q) ∧
    (∀ (dir : Bool) (facade : MldFacade) (node : NodeID) (level : Nat) (w d : Int)
        (h : Heap MldHeapData) (n : NodeID),
      Heap.entryOf (mld.relaxShortcuts dir facade node level w d h) n ≠ Heap.entryOf h n →
      (∃ k dur, Heap.entryOf (mld.relaxShortcuts dir facade node level w d h) n =
          some ⟨n, k, ⟨node, true, level, dur⟩⟩) ∧ n ≠ node) := by
  refine ⟨fun dir facade node w d h pc => ⟨fun hcond => ?_, fun hcond => ?_⟩,
    fun node level w d q arc hskip => relaxOneShortcut_skip node level w d q arc hskip,
    fun dir facade node level w d h n hch =>
      relaxShortcuts_changed dir facade node level w d h n hch⟩
  · simp only [mld.relaxOutgoingEdges]
    rw [if_pos hcond]
  · simp only [mld.relaxOutgoingEdges]
    rw [if_neg hcond]

/-- C9 witness: on a concrete one-cell partition, the expansion fires for a
level-2 entry, skips the absent arc, and the changed entry carries the clique
payload. -/
theorem c9_witness :
    (mld.relaxOutgoingEdges true cellMldFacade 0 5 0 heapLvl2 (1, 0) =
      mld.relaxBorderEdges true cellMldFacade 0
        (max (heapLvl2.getData 0).level
          (mld.getHighestDifferentLevel cellMldFacade (heapLvl2.getData 0).parent 0)) 5 0 (1, 0)
        (mld.relaxShortcuts true cellMldFacade 0
          (max (heapLvl2.getData 0).level
            (mld.getHighestDifferentLevel cellMldFacade (heapLvl2.getData 0).parent 0)) 5 0
          heapLvl2)) ∧
    mld.relaxOneShortcut 0 1 5 0 heapLvl2 (2, (INVALID_EDGE_WEIGHT, 9)) = heapLvl2 ∧
    ((∃ k dur, Heap.entryOf (mld.relaxShortcuts true cellMldFacade 0 2 5 0 heapLvl2) 1 =
        some ⟨1, k, ⟨0, true, 2, dur⟩⟩) ∧ (1 : NodeID) ≠ 0) :=
  ⟨(c9_mld_clique_expansion.1 true cellMldFacade 0 5 0 heapLvl2 (1, 0)).1 (by decide),
   c9_mld_clique_expansion.2.1 0 1 5 0 heapLvl2 (2, (INVALID_EDGE_WEIGHT, 9))
     (Or.inl rfl),
   c9_mld_clique_expansion.2.2 true cellMldFacade 0 2 5 0 heapLvl2 1 (by decide)⟩


theorem HInv_init {D : Type} (N : Nat) : HInv N (Heap.init : Heap D) :=
  ⟨List.nodup_nil, by simp [Heap.init], by simp [Heap.init], List.nodup_nil⟩

theorem ch_insertSegment_HInv (N : Nat) (h : Heap ChHeapData) (seg : SegmentID)
    (w d : Int) (hseg : seg.enabled = true → seg.id < N) (hh : HInv N h) :
    HInv N (ch.insertSegment h seg w d) := by
  unfold ch.insertSegment
  split
  · next hcond =>
      have hcond2 : seg.enabled = true ∧ ¬ h.wasInserted seg.id = true := by
        simpa using hcond
      have hni2 := hcond2.2
      have hr := heapRelax_HInv_measure N h seg.id w ⟨seg.id, d⟩ (hseg hcond2.1) hh
      have heq : heapRelax h seg.id w ⟨seg.id, d⟩ = h.insert seg.id w ⟨seg.id, d⟩ := by
        unfold heapRelax
        rw [if_pos hni2]
      rw [← heq]
      exact hr.1
  · exact hh

theorem mld_insertSegment_HInv (N : Nat) (h : Heap MldHeapData) (seg : SegmentID)
    (w d : Int) (hseg : seg.enabled = true → seg.id < N) (hh : HInv N h) :
    HInv N (mld.insertSegment h seg w d) := by
  unfold mld.insertSegment
  split
  · next hcond =>
      have hcond2 : seg.enabled = true ∧ ¬ h.wasInserted seg.id = true := by
        simpa using hcond
      have hni2 := hcond2.2
      have hr := heapRelax_HInv_measure N h seg.id w ⟨seg.id, false, 0, d⟩ (hseg hcond2.1) hh
      have heq : heapRelax h seg.id w ⟨seg.id, false, 0, d⟩ =
          h.insert seg.id w ⟨seg.id, false, 0, d⟩ := by
        unfold heapRelax
        rw [if_pos hni2]
      rw [← heq]
      exact hr.1
  · exact hh

theorem mld_seedTarget_HInv (N : Nat) (ph : PhantomNode) (hph : WFphantom N ph) :
    HInv N (mld.insertTargetInHeap Heap.init ph) := by
  unfold mld.insertTargetInHeap
  exact mld_insertSegment_HInv N _ _ _ _ hph.2
    (mld_insertSegment_HInv N Heap.init _ _ _ hph.1 (HInv_init N))

/-- Every CH backward search (one target phantom) drains its heap: the
`while` loop runs to completion with the supplied fuel. -/
theorem ch_runBackward_complete (facade : ChFacade) (hwf : WFch facade)
    (st : SState ChHeapData) (col : Nat) (ph : PhantomNode)
    (hph : WFphantom facade.numNodes ph) :
    (ch.runBackward facade st col ph).heap.opens = [] := by
  unfold ch.runBackward
  have hseed : HInv facade.numNodes (ch.insertTargetInHeap Heap.init ph) := by
    unfold ch.insertTargetInHeap
    exact ch_insertSegment_HInv facade.numNodes _ _ _ _ hph.2
      (ch_insertSegment_HInv facade.numNodes Heap.init _ _ _ hph.1
        (HInv_init facade.numNodes))
  exact searchLoop_complete facade.numNodes (ch.backwardRoutingStep facade col)
    (fun st2 hne hh => ch_backwardStep_heapSpec facade hwf col st2 hne hh)
    facade.numNodes _ hseed (hmeasure_le_of_HInv facade.numNodes _ hseed)

/-- Every MLD backward search (one target phantom) drains its heap. -/
theorem mld_runBackward_complete (facade : MldFacade) (hwf : WFmld facade)
    (pc : Nat × Nat) (st : SState MldHeapData) (col : Nat) (ph : PhantomNode)
    (hph : WFphantom facade.numNodes ph) :
    (mld.runBackward facade pc st col ph).heap.opens = [] := by
  unfold mld.runBackward
  have hseed := mld_seedTarget_HInv facade.numNodes ph hph
  exact searchLoop_complete facade.numNodes (mld.backwardRoutingStep facade col pc)
    (fun st2 hne hh => mld_backwardStep_heapSpec facade hwf col pc st2 hne hh)
    facade.numNodes _ hseed (hmeasure_le_of_HInv facade.numNodes _ hseed)

/-! ## Bucket preservation and column bounds -/

theorem ch_forwardStep_buckets (facade : ChFacade) (row T : Nat)
    (st : SState ChHeapData) :
    (ch.forwardRoutingStep facade row T st).buckets = st.buckets := by
  simp only [ch.forwardRoutingStep]
  split <;> rfl

theorem mld_forwardStep_buckets (facade : MldFacade) (row T : Nat) (pc : Nat × Nat)
    (st : SState MldHeapData) :
    (mld.forwardRoutingStep facade row T pc st).buckets = st.buckets := rfl

/-- The whole CH forward phase never touches the bucket index. -/
theorem ch_forwardPhase_buckets (facade : ChFacade) (T : Nat) :
    ∀ (l : List PhantomNode) (st : SState ChHeapData) (row : Nat),
      (ch.forwardPhase facade T l st row).buckets = st.buckets := by
  intro l
  induction l with
  | nil => intro st row; rfl
  | cons ph rest ih =>
      intro st row
      rw [ch.forwardPhase, ih]
      unfold ch.runForward
      exact searchLoop_preserve (fun st2 => st2.buckets = st.buckets) _
        (fun st2 h2 => (ch_forwardStep_buckets facade row T st2).trans h2) _ _ rfl

/-- The whole MLD forward phase never touches the bucket index. -/
theorem mld_forwardPhase_buckets (facade : MldFacade) (T : Nat)
    (phantom_nodes : List PhantomNode) (target_indices : List Nat) :
    ∀ (l : List PhantomNode) (st : SState MldHeapData) (row : Nat),
      (mld.forwardPhase facade T phantom_nodes target_indices l st row).buckets =
        st.buckets := by
  intro l
  induction l with
  | nil => intro st row; rfl
  | cons ph rest ih =>
      intro st row
      rw [mld.forwardPhase, ih]
      unfold mld.runForward
      exact searchLoop_preserve (fun st2 => st2.buckets = st.buckets) _
        (fun st2 h2 => (mld_forwardStep_buckets facade row T _ st2).trans h2) _ _ rfl

theorem bucketColsBelow_append (T : Nat) (b : SearchSpaceWithBuckets) (n : NodeID)
    (e : NodeBucket) (hb : bucketColsBelow T b) (he : e.target_id < T) :
    bucketColsBelow T (bucketAppend b n e) := by
  induction b with
  | nil =>
      intro p hp e2 he2
      rcases List.mem_singleton.mp hp with rfl
      rcases List.mem_singleton.mp he2 with rfl
      exact he
  | cons p rest ih =>
      unfold bucketAppend
      split
      · intro p2 hp2 e2 he2
        rcases List.mem_cons.mp hp2 with rfl | hp3
        · rcases List.mem_append.mp he2 with he3 | he3
          · exact hb p (List.mem_cons_self _ _) e2 he3
          · rcases List.mem_singleton.mp he3 with rfl
            exact he
        · exact hb p2 (List.mem_cons_of_mem _ hp3) e2 he2
      · intro p2 hp2 e2 he2
        rcases List.mem_cons.mp hp2 with rfl | hp3
        · exact hb p2 (List.mem_cons_self _ _) e2 he2
        · exact ih (fun p3 hp3b e3 he3 => hb p3 (List.mem_cons_of_mem _ hp3b) e3 he3)
            p2 hp3 e2 he2

theorem ch_backwardStep_cols (facade : ChFacade) (T col : Nat) (st : SState ChHeapData)
    (hcol : col < T) (hb : bucketColsBelow T st.buckets) :
    bucketColsBelow T (ch.backwardRoutingStep facade col st).buckets := by
  simp only [ch.backwardRoutingStep]
  split <;> exact bucketColsBelow_append T st.buckets _ _ hb hcol

theorem mld_backwardStep_cols (facade : MldFacade) (T col : Nat) (pc : Nat × Nat)
    (st : SState MldHeapData) (hcol : col < T) (hb : bucketColsBelow T st.buckets) :
    bucketColsBelow T (mld.backwardRoutingStep facade col pc st).buckets :=
  bucketColsBelow_append T st.buckets _ _ hb hcol

theorem ch_backwardPhase_cols (facade : ChFacade) (T : Nat) :
    ∀ (l : List PhantomNode) (st : SState ChHeapData) (col0 : Nat),
      col0 + l.length ≤ T → bucketColsBelow T st.buckets →
      bucketColsBelow T (ch.backwardPhase facade l st col0).buckets := by
  intro l
  induction l with
  | nil => intro st col0 _ hb; exact hb
  | cons ph rest ih =>
      intro st col0 hlen hb
      rw [ch.backwardPhase]
      refine ih (ch.runBackward facade st col0 ph) (col0 + 1) (by simp at hlen; omega) ?_
      unfold ch.runBackward
      exact searchLoop_preserve (fun st2 => bucketColsBelow T st2.buckets) _
        (fun st2 h2 => ch_backwardStep_cols facade T col0 st2 (by simp at hlen; omega) h2)
        _ _ hb

theorem mld_backwardPhase_cols (facade : MldFacade) (T : Nat)
    (phantom_nodes : List PhantomNode) (source_indices : List Nat) :
    ∀ (l : List PhantomNode) (st : SState MldHeapData) (col0 : Nat),
      col0 + l.length ≤ T → bucketColsBelow T st.buckets →
      bucketColsBelow T
        (mld.backwardPhase facade phantom_nodes source_indices l st col0).buckets := by
  intro l
  induction l with
  | nil => intro st col0 _ hb; exact hb
  | cons ph rest ih =>
      intro st col0 hlen hb
      rw [mld.backwardPhase]
      refine ih _ (col0 + 1) (by simp at hlen; omega) ?_
      unfold mld.runBackward
      exact searchLoop_preserve (fun st2 => bucketColsBelow T st2.buckets) _
        (fun st2 h2 => mld_backwardStep_cols facade T col0 _ st2 (by simp at hlen; omega) h2)
        _ _ hb

theorem selectPhantoms_length (phantoms : List PhantomNode) (indices : List Nat) :
    (selectPhantoms phantoms indices).length =
      if indices.isEmpty then phantoms.length else indices.length := by
  unfold selectPhantoms
  split
  · rfl
  · simp

/-- All bucket entries of a finished CH call carry columns below the number
of targets. -/
theorem ch_manyToMany_cols (facade : ChFacade) (ph : List PhantomNode)
    (si ti : List Nat) :
    bucketColsBelow (if ti.isEmpty then ph.length else ti.length)
      (ch.manyToManyState facade ph si ti).buckets := by
  simp only [ch.manyToManyState]
  rw [ch_forwardPhase_buckets]
  refine ch_backwardPhase_cols facade _ _ _ 0 ?_ ?_
  · rw [selectPhantoms_length]
    omega
  · intro p hp
    simp at hp

/-- All bucket entries of a finished MLD call carry columns below the number
of targets. -/
theorem mld_manyToMany_cols (facade : MldFacade) (ph : List PhantomNode)
    (si ti : List Nat) :
    bucketColsBelow (if ti.isEmpty then ph.length else ti.length)
      (mld.manyToManyState facade ph si ti).buckets := by
  simp only [mld.manyToManyState]
  rw [mld_forwardPhase_buckets]
  refine mld_backwardPhase_cols facade _ ph si _ _ 0 ?_ ?_
  · rw [selectPhantoms_length]
    omega
  · intro p hp
    simp at hp


theorem zip_map_left {α β γ : Type} (f : α → γ) (l1 : List α) (l2 : List β) :
    (l1.map f).zip l2 = (l1.zip l2).map (fun p => (f p.1, p.2)) := by
  induction l1 generalizing l2 with
  | nil => simp
  | cons a t ih =>
      cases l2 with
      | nil => simp
      | cons b t2 => simp [List.zip_cons_cons, ih]

theorem zip_range_cons {α : Type} (a : α) (l : List α) :
    (List.range (a :: l).length).zip (a :: l) =
      (0, a) :: (((List.range l.length).zip l).map (fun p => (p.1 + 1, p.2))) := by
  rw [List.length_cons, List.range_succ_eq_map, List.zip_cons_cons, zip_map_left]

/-- The CH target loop processes targets in order, assigning columns
`col0, col0+1, ...` by position. -/
theorem ch_backwardPhase_enum (facade : ChFacade) :
    ∀ (targets : List PhantomNode) (st : SState ChHeapData) (col0 : Nat),
      ch.backwardPhase facade targets st col0 =
        ((List.range targets.length).zip targets).foldl
          (fun st2 p => ch.runBackward facade st2 (col0 + p.1) p.2) st := by
  intro targets
  induction targets with
  | nil => intro st col0; rfl
  | cons ph rest ih =>
      intro st col0
      rw [ch.backwardPhase, ih, zip_range_cons, List.foldl_cons, List.foldl_map]
      refine (List.foldl_ext _ _ _ ?_).symm
      intro a p _
      show ch.runBackward facade a (col0 + (p.1 + 1)) p.2 =
        ch.runBackward facade a (col0 + 1 + p.1) p.2
      have harith : col0 + (p.1 + 1) = col0 + 1 + p.1 := by omega
      rw [harith]

/-- The MLD target loop processes targets in order, assigning columns
`col0, col0+1, ...` by position, computing each parent cell against the
source side. -/
theorem mld_backwardPhase_enum (facade : MldFacade) (pn : List PhantomNode)
    (si : List Nat) :
    ∀ (targets : List PhantomNode) (st : SState MldHeapData) (col0 : Nat),
      mld.backwardPhase facade pn si targets st col0 =
        ((List.range targets.length).zip targets).foldl
          (fun st2 p =>
            mld.runBackward facade (mld.getParentCellID facade p.2 pn si) st2
              (col0 + p.1) p.2) st := by
  intro targets
  induction targets with
  | nil => intro st col0; rfl
  | cons ph rest ih =>
      intro st col0
      rw [mld.backwardPhase, ih, zip_range_cons, List.foldl_cons, List.foldl_map]
      refine (List.foldl_ext _ _ _ ?_).symm
      intro a p _
      show mld.runBackward facade (mld.getParentCellID facade p.2 pn si) a
          (col0 + (p.1 + 1)) p.2 =
        mld.runBackward facade (mld.getParentCellID facade p.2 pn si) a
          (col0 + 1 + p.1) p.2
      have harith : col0 + (p.1 + 1) = col0 + 1 + p.1 := by omega
      rw [harith]

/-- C5: in every many-to-many call (CH and MLD) the bucket index is fully
built before the first forward search: the buckets of the final state equal
the buckets after the backward phase alone; the forward phase never appends
a bucket entry; the backward phase runs the target phantoms in index order
assigning columns 0, 1, ...; and on well-formed inputs each backward search
runs its heap to completion. -/
theorem c5_backward_phase_first :
    (∀ (facade : ChFacade) (ph : List PhantomNode) (si ti : List Nat),
      (ch.manyToManyState facade ph si ti).buckets =
        (ch.backwardPhase facade (selectPhantoms ph ti)
          ⟨Heap.init, [],
           List.replicate ((if si.isEmpty then ph.length else si.length) *
             (if ti.isEmpty then ph.length else ti.length)) INVALID_EDGE_WEIGHT,
           List.replicate ((if si.isEmpty then ph.length else si.length) *
             (if ti.isEmpty then ph.length else ti.length)) MAXIMAL_EDGE_DURATION⟩
          0).buckets) ∧
    (∀ (facade : MldFacade) (ph : List PhantomNode) (si ti : List Nat),
      (mld.manyToManyState facade ph si ti).buckets =
        (mld.backwardPhase facade ph si (selectPhantoms ph ti)
          ⟨Heap.init, [],
           List.replicate ((if si.isEmpty then ph.length else si.length) *
             (if ti.isEmpty then ph.length else ti.length)) INVALID_EDGE_WEIGHT,
           List.replicate ((if si.isEmpty then ph.length else si.length) *
             (if ti.isEmpty then ph.length else ti.length)) MAXIMAL_EDGE_DURATION⟩
          0).buckets) ∧
    (∀ (facade : ChFacade) (T : Nat) (l : List PhantomNode) (st : SState ChHeapData)
        (row : Nat),
      (ch.forwardPhase facade T l st row).buckets = st.buckets) ∧
    (∀ (facade : MldFacade) (T : Nat) (pn : List PhantomNode) (ti : List Nat)
        (l : List PhantomNode) (st : SState MldHeapData) (row : Nat),
      (mld.forwardPhase facade T pn ti l st row).buckets = st.buckets) ∧
    (∀ (facade : ChFacade) (targets : List PhantomNode) (st : SState ChHeapData)
        (col0 : Nat),
      ch.backwardPhase facade targets st col0 =
        ((List.range targets.length).zip targets).foldl
          (fun st2 p => ch.runBackward facade st2 (col0 + p.1) p.2) st) ∧
    (∀ (facade : MldFacade) (pn : List PhantomNode) (si : List Nat)
        (targets : List PhantomNode) (st : SState MldHeapData) (col0 : Nat),
      mld.backwardPhase facade pn si targets st col0 =
        ((List.range targets.length).zip targets).foldl
          (fun st2 p =>
            mld.runBackward facade (mld.getParentCellID facade p.2 pn si) st2
              (col0 + p.1) p.2) st) ∧
    (∀ (facade : ChFacade), WFch facade →
      ∀ (st : SState ChHeapData) (col : Nat) (ph : PhantomNode),
        WFphantom facade.numNodes ph →
        (ch.runBackward facade st col ph).heap.opens = []) ∧
    (∀ (facade : MldFacade), WFmld facade →
      ∀ (pc : Nat × Nat) (st : SState MldHeapData) (col : Nat) (ph : PhantomNode),
        WFphantom facade.numNodes ph →
        (mld.runBackward facade pc st col ph).heap.opens = []) := by
  refine ⟨?_, ?_,
    fun facade T l st row => ch_forwardPhase_buckets facade T l st row,
    fun facade T pn ti l st row => mld_forwardPhase_buckets facade T pn ti l st row,
    fun facade targets st col0 => ch_backwardPhase_enum facade targets st col0,
    fun facade pn si targets st col0 => mld_backwardPhase_enum facade pn si targets st col0,
    fun facade hwf st col ph hph => ch_runBackward_complete facade hwf st col ph hph,
    fun facade hwf pc st col ph hph => mld_runBackward_complete facade hwf pc st col ph hph⟩
  · intro facade ph si ti
    simp only [ch.manyToManyState]
    rw [ch_forwardPhase_buckets]
  · intro facade ph si ti
    simp only [mld.manyToManyState]
    rw [mld_forwardPhase_buckets]

/-- C5 witness: both completion conjuncts exercised on concrete facades and
phantoms. -/
theorem c5_witness :
    (ch.runBackward noLoopFacade ⟨Heap.init, [], [], []⟩ 0 phantomAt0).heap.opens = [] ∧
    (mld.runBackward allSameMldFacade (1, 0) ⟨Heap.init, [], [], []⟩ 0
      phantomAt0).heap.opens = [] := by
  have hwfc : WFch noLoopFacade := by
    intro n e he
    simp [noLoopFacade] at he
  have hwfm : WFmld allSameMldFacade := by
    constructor
    · intro l n e he
      simp [allSameMldFacade] at he
    · intro l c
      constructor <;> intro m hm <;> simp [allSameMldFacade] at hm
  exact ⟨c5_backward_phase_first.2.2.2.2.2.2.1 noLoopFacade hwfc
      ⟨Heap.init, [], [], []⟩ 0 phantomAt0 (by exact ⟨fun _ => by decide, fun h => by cases h⟩),
    c5_backward_phase_first.2.2.2.2.2.2.2 allSameMldFacade hwfm (1, 0)
      ⟨Heap.init, [], [], []⟩ 0 phantomAt0 (by exact ⟨fun _ => by decide, fun h => by cases h⟩)⟩

/-- C10: every bucket entry ever appended during a call (CH and MLD) carries
a column index strictly below the number of targets, and therefore each
forward routing step for row `i < S` only accesses the tables at
`i * T + column < S * T`. -/
theorem c10_bucket_columns_safe :
    (∀ (facade : ChFacade) (ph : List PhantomNode) (si ti : List Nat) (n : NodeID)
        (bl : List NodeBucket) (e : NodeBucket),
      bucketFind (ch.manyToManyState facade ph si ti).buckets n = some bl → e ∈ bl →
      e.target_id < (if ti.isEmpty then ph.length else ti.length)) ∧
    (∀ (facade : MldFacade) (ph : List PhantomNode) (si ti : List Nat) (n : NodeID)
        (bl : List NodeBucket) (e : NodeBucket),
      bucketFind (mld.manyToManyState facade ph si ti).buckets n = some bl → e ∈ bl →
      e.target_id < (if ti.isEmpty then ph.length else ti.length)) ∧
    (∀ i col S T : Nat, i < S → col < T → i * T + col < S * T) := by
  refine ⟨?_, ?_, ?_⟩
  · intro facade ph si ti n bl e hfind hmem
    have hcols := ch_manyToMany_cols facade ph si ti
    unfold bucketFind at hfind
    rcases Option.map_eq_some'.mp hfind with ⟨p, hp, hp2⟩
    have hpmem := List.mem_of_find?_eq_some hp
    exact hcols p hpmem e (by rw [hp2]; exact hmem)
  · intro facade ph si ti n bl e hfind hmem
    have hcols := mld_manyToMany_cols facade ph si ti
    unfold bucketFind at hfind
    rcases Option.map_eq_some'.mp hfind with ⟨p, hp, hp2⟩
    have hpmem := List.mem_of_find?_eq_some hp
    exact hcols p hpmem e (by rw [hp2]; exact hmem)
  · intro i col S T hi hcol
    have h1 : i * T + col < i * T + T := by omega
    have h2 : i * T + T = (i + 1) * T := by ring
    have h3 : (i + 1) * T ≤ S * T := Nat.mul_le_mul_right T (by omega)
    omega

/-- C10 witness: on the concrete chain run the single bucket entry at node 2
keeps its column below the single-target count, and the index bound holds at
the concrete cell. -/
theorem c10_witness :
    (⟨0, 0, 0⟩ : NodeBucket).target_id <
      (if ([1] : List Nat).isEmpty then ([phantomAt0, phantomAt2] : List PhantomNode).length
        else ([1] : List Nat).length) ∧
    0 * 1 + 0 < 1 * 1 :=
  ⟨c10_bucket_columns_safe.1 chainFacade [phantomAt0, phantomAt2] [0] [1] 2
      [⟨0, 0, 0⟩] ⟨0, 0, 0⟩ (by decide) (by decide),
   c10_bucket_columns_safe.2.2 0 0 1 1 (by decide) (by decide)⟩


/-! ## Generic table-update lemmas for the forward steps -/

theorem rowSlice_length (t : List Int) (rb T : Nat) : (rowSlice t rb T).length = T := by
  simp [rowSlice]

theorem rowSlice_getD (t : List Int) (rb T j : Nat) (hj : j < T) :
    (rowSlice t rb T).getD j 0 = t.getD (rb + j) 0 := by
  unfold rowSlice
  rw [List.getD_eq_getElem?_getD, List.getElem?_map, List.getElem?_range hj]
  rfl

theorem rowSlice_set (t : List Int) (rb T j : Nat) (v : Int) (hj : j < T)
    (hlen : rb + T ≤ t.length) :
    rowSlice (t.set (rb + j) v) rb T = (rowSlice t rb T).set j v := by
  apply List.ext_getElem
  · simp [rowSlice_length]
  · intro i h1 h2
    have hiT : i < T := by simpa [rowSlice_length] using h1
    have e1 : (rowSlice (t.set (rb + j) v) rb T)[i] =
        (rowSlice (t.set (rb + j) v) rb T).getD i 0 :=
      (List.getD_eq_getElem _ 0 h1).symm
    have e2 : ((rowSlice t rb T).set j v)[i] = ((rowSlice t rb T).set j v).getD i 0 :=
      (List.getD_eq_getElem _ 0 h2).symm
    rw [e1, e2, rowSlice_getD _ _ _ _ hiT]
    by_cases hij : i = j
    · subst hij
      rw [getD_set_self t (rb + i) v 0 (by omega),
        getD_set_self (rowSlice t rb T) i v 0 (by simp [rowSlice_length]; omega)]
    · rw [getD_set_other t (rb + j) (rb + i) v 0 (by omega),
        getD_set_other (rowSlice t rb T) j i v 0 (fun h => hij h.symm),
        rowSlice_getD _ _ _ _ hiT]

theorem applyHits_len (f : Int → Int → NodeBucket → Int × Int) (rb : Nat)
    (t : List Int × List Int) (bl : List NodeBucket) :
    (applyHits f rb t bl).1.length = t.1.length ∧
    (applyHits f rb t bl).2.length = t.2.length := by
  unfold applyHits
  refine foldl_preserve
    (fun x => x.1.length = t.1.length ∧ x.2.length = t.2.length) _ _ ?_ t ⟨rfl, rfl⟩
  intro a b _ hP
  simp only [List.length_set]
  exact hP

theorem applyHits_frame (f : Int → Int → NodeBucket → Int × Int) (rb T : Nat)
    (t : List Int × List Int) (bl : List NodeBucket)
    (hcols : ∀ b ∈ bl, b.target_id < T) (j : Nat) (hj : j < rb ∨ rb + T ≤ j) :
    (applyHits f rb t bl).1.getD j 0 = t.1.getD j 0 ∧
    (applyHits f rb t bl).2.getD j 0 = t.2.getD j 0 := by
  unfold applyHits
  refine foldl_preserve
    (fun x => x.1.getD j 0 = t.1.getD j 0 ∧ x.2.getD j 0 = t.2.getD j 0) _ _ ?_ t ⟨rfl, rfl⟩
  intro a b hb hP
  have hne : rb + b.target_id ≠ j := by
    have := hcols b hb
    omega
  constructor
  · rw [getD_set_other _ _ _ _ _ hne]
    exact hP.1
  · rw [getD_set_other _ _ _ _ _ hne]
    exact hP.2

theorem applyHits_rowPair (f : Int → Int → NodeBucket → Int × Int) (rb1 rb2 T : Nat) :
    ∀ (bl : List NodeBucket) (t1 t2 : List Int × List Int),
    (∀ b ∈ bl, b.target_id < T) →
    rb1 + T ≤ t1.1.length → rb1 + T ≤ t1.2.length →
    rb2 + T ≤ t2.1.length → rb2 + T ≤ t2.2.length →
    rowSlice t1.1 rb1 T = rowSlice t2.1 rb2 T →
    rowSlice t1.2 rb1 T = rowSlice t2.2 rb2 T →
    rowSlice (applyHits f rb1 t1 bl).1 rb1 T = rowSlice (applyHits f rb2 t2 bl).1 rb2 T ∧
    rowSlice (applyHits f rb1 t1 bl).2 rb1 T = rowSlice (applyHits f rb2 t2 bl).2 rb2 T := by
  intro bl
  induction bl with
  | nil => intro t1 t2 _ _ _ _ _ hw hd; exact ⟨hw, hd⟩
  | cons b rest ih =>
      intro t1 t2 hcols h11 h12 h21 h22 hw hd
      have htid : b.target_id < T := hcols b (List.mem_cons_self _ _)
      have hcw : t1.1.getD (rb1 + b.target_id) 0 = t2.1.getD (rb2 + b.target_id) 0 := by
        rw [← rowSlice_getD t1.1 rb1 T _ htid, ← rowSlice_getD t2.1 rb2 T _ htid, hw]
      have hcd : t1.2.getD (rb1 + b.target_id) 0 = t2.2.getD (rb2 + b.target_id) 0 := by
        rw [← rowSlice_getD t1.2 rb1 T _ htid, ← rowSlice_getD t2.2 rb2 T _ htid, hd]
      unfold applyHits
      rw [List.foldl_cons, List.foldl_cons]
      have hstep := ih
        (t1.1.set (rb1 + b.target_id)
            (f (t1.1.getD (rb1 + b.target_id) 0) (t1.2.getD (rb1 + b.target_id) 0) b).1,
         t1.2.set (rb1 + b.target_id)
            (f (t1.1.getD (rb1 + b.target_id) 0) (t1.2.getD (rb1 + b.target_id) 0) b).2)
        (t2.1.set (rb2 + b.target_id)
            (f (t2.1.getD (rb2 + b.target_id) 0) (t2.2.getD (rb2 + b.target_id) 0) b).1,
         t2.2.set (rb2 + b.target_id)
            (f (t2.1.getD (rb2 + b.target_id) 0) (t2.2.getD (rb2 + b.target_id) 0) b).2)
        (fun x hx => hcols x (List.mem_cons_of_mem _ hx))
        (by simpa using h11) (by simpa using h12) (by simpa using h21) (by simpa using h22)
        (by
          rw [rowSlice_set _ _ _ _ _ htid h11, rowSlice_set _ _ _ _ _ htid h21, hw,
            hcw, hcd])
        (by
          rw [rowSlice_set _ _ _ _ _ htid h12, rowSlice_set _ _ _ _ _ htid h22, hd,
            hcw, hcd])
      exact hstep

theorem applyHits_colDecomp (f : Int → Int → NodeBucket → Int × Int) (rb T : Nat) :
    ∀ (bl : List NodeBucket) (t : List Int × List Int),
    (∀ b ∈ bl, b.target_id < T) →
    rb + T ≤ t.1.length → rb + T ≤ t.2.length →
    ∀ j, j < T →
    ((applyHits f rb t bl).1.getD (rb + j) 0, (applyHits f rb t bl).2.getD (rb + j) 0) =
      cellFold f (bl.filter (fun b => b.target_id == j))
        (t.1.getD (rb + j) 0, t.2.getD (rb + j) 0) := by
  intro bl
  induction bl with
  | nil => intro t _ _ _ j _; rfl
  | cons b rest ih =>
      intro t hcols h1 h2 j hj
      unfold applyHits
      rw [List.foldl_cons]
      by_cases htid : b.target_id = j
      · have hfilter : (b :: rest).filter (fun b => b.target_id == j) =
            b :: rest.filter (fun b => b.target_id == j) := by
          simp [List.filter, htid]
        rw [hfilter]
        have hrec := ih
          (t.1.set (rb + b.target_id)
              (f (t.1.getD (rb + b.target_id) 0) (t.2.getD (rb + b.target_id) 0) b).1,
           t.2.set (rb + b.target_id)
              (f (t.1.getD (rb + b.target_id) 0) (t.2.getD (rb + b.target_id) 0) b).2)
          (fun x hx => hcols x (List.mem_cons_of_mem _ hx))
          (by simpa using h1) (by simpa using h2) j hj
        unfold applyHits at hrec
        rw [hrec]
        subst htid
        have e1 : (t.1.set (rb + b.target_id)
            (f (t.1.getD (rb + b.target_id) 0) (t.2.getD (rb + b.target_id) 0) b).1).getD
              (rb + b.target_id) 0 =
            (f (t.1.getD (rb + b.target_id) 0) (t.2.getD (rb + b.target_id) 0) b).1 :=
          getD_set_self _ _ _ _ (by omega)
        have e2 : (t.2.set (rb + b.target_id)
            (f (t.1.getD (rb + b.target_id) 0) (t.2.getD (rb + b.target_id) 0) b).2).getD
              (rb + b.target_id) 0 =
            (f (t.1.getD (rb + b.target_id) 0) (t.2.getD (rb + b.target_id) 0) b).2 :=
          getD_set_self _ _ _ _ (by omega)
        rw [e1, e2]
        rfl
      · have hbeq : (b.target_id == j) = false := by
          exact beq_false_of_ne htid
        have hfilter : (b :: rest).filter (fun b => b.target_id == j) =
            rest.filter (fun b => b.target_id == j) := by
          simp [List.filter, hbeq]
        rw [hfilter]
        have hrec := ih
          (t.1.set (rb + b.target_id)
              (f (t.1.getD (rb + b.target_id) 0) (t.2.getD (rb + b.target_id) 0) b).1,
           t.2.set (rb + b.target_id)
              (f (t.1.getD (rb + b.target_id) 0) (t.2.getD (rb + b.target_id) 0) b).2)
          (fun x hx => hcols x (List.mem_cons_of_mem _ hx))
          (by simpa using h1) (by simpa using h2) j hj
        unfold applyHits at hrec
        rw [hrec]
        have hne : rb + b.target_id ≠ rb + j := by omega
        rw [getD_set_other _ _ _ _ _ hne, getD_set_other _ _ _ _ _ hne]

theorem cellFold_congr (f : Int → Int → NodeBucket → Int × Int)
    (hf : ∀ cw cd b1 b2, b1.weight = b2.weight → b1.duration = b2.duration →
      f cw cd b1 = f cw cd b2) :
    ∀ (l1 l2 : List NodeBucket),
    l1.map (fun b => (b.weight, b.duration)) = l2.map (fun b => (b.weight, b.duration)) →
    ∀ cell, cellFold f l1 cell = cellFold f l2 cell := by
  intro l1
  induction l1 with
  | nil =>
      intro l2 hmap cell
      have : l2 = [] := by
        cases l2 with
        | nil => rfl
        | cons x t => simp at hmap
      rw [this]
  | cons b1 t1 ih =>
      intro l2 hmap cell
      cases l2 with
      | nil => simp at hmap
      | cons b2 t2 =>
          simp only [List.map_cons, List.cons.injEq] at hmap
          unfold cellFold
          rw [List.foldl_cons, List.foldl_cons]
          have hhead : f cell.1 cell.2 b1 = f cell.1 cell.2 b2 := by
            have hw : b1.weight = b2.weight := congrArg Prod.fst hmap.1
            have hd : b1.duration = b2.duration := congrArg Prod.snd hmap.1
            exact hf cell.1 cell.2 b1 b2 hw hd
          rw [hhead]
          exact ih t2 hmap.2 _

theorem searchLoop_pair {D : Type} (R : SState D → SState D → Prop)
    (step1 step2 : SState D → SState D)
    (hheap : ∀ st1 st2, R st1 st2 → st1.heap = st2.heap)
    (hstep : ∀ st1 st2, R st1 st2 → R (step1 st1) (step2 st2)) :
    ∀ (fuel : Nat) (st1 st2 : SState D), R st1 st2 →
      R (searchLoop step1 fuel st1) (searchLoop step2 fuel st2) := by
  intro fuel
  induction fuel with
  | zero => intro st1 st2 h; exact h
  | succ n ih =>
      intro st1 st2 h
      have hguard : st2.heap.opens.isEmpty = st1.heap.opens.isEmpty := by
        rw [hheap st1 st2 h]
      simp only [searchLoop]
      by_cases he : st1.heap.opens.isEmpty = true
      · rw [if_pos he, if_pos (by rw [hguard]; exact he)]
        exact h
      · rw [if_neg he, if_neg (by rw [hguard]; exact he)]
        exact ih _ _ (hstep st1 st2 h)

/-! ## Step-level bridges for the pairing arguments -/

/-- The heap after a CH forward step depends only on the incoming heap. -/
theorem ch_forwardStep_heap (facade : ChFacade) (r T : Nat) (st : SState ChHeapData) :
    (ch.forwardRoutingStep facade r T st).heap =
      (if ch.stallAtNode true facade st.heap.deleteMin.1
          (st.heap.getKey st.heap.deleteMin.1) st.heap.deleteMin.2 then
        st.heap.deleteMin.2
      else
        ch.relaxOutgoingEdges true facade st.heap.deleteMin.1
          (st.heap.getKey st.heap.deleteMin.1)
          ((st.heap.getData st.heap.deleteMin.1).duration) st.heap.deleteMin.2) := by
  simp only [ch.forwardRoutingStep]
  split
  · rfl
  · rfl

/-- The heap after an MLD forward step depends only on the incoming heap and
the parent cell. -/
theorem mld_forwardStep_heap (facade : MldFacade) (r T : Nat) (pc : Nat × Nat)
    (st : SState MldHeapData) :
    (mld.forwardRoutingStep facade r T pc st).heap =
      mld.relaxOutgoingEdges true facade st.heap.deleteMin.1
        (st.heap.getKey st.heap.deleteMin.1)
        ((st.heap.getData st.heap.deleteMin.1).duration) st.heap.deleteMin.2 pc := rfl

/-- The heap after a CH backward step depends only on the incoming heap. -/
theorem ch_backwardStep_heap (facade : ChFacade) (col : Nat) (st : SState ChHeapData) :
    (ch.backwardRoutingStep facade col st).heap =
      (if ch.stallAtNode false facade st.heap.deleteMin.1
          (st.heap.getKey st.heap.deleteMin.1) st.heap.deleteMin.2 then
        st.heap.deleteMin.2
      else
        ch.relaxOutgoingEdges false facade st.heap.deleteMin.1
          (st.heap.getKey st.heap.deleteMin.1)
          ((st.heap.getData st.heap.deleteMin.1).duration) st.heap.deleteMin.2) := by
  simp only [ch.backwardRoutingStep]
  split
  · rfl
  · rfl

/-- The heap after an MLD backward step depends only on the incoming heap and
the parent cell. -/
theorem mld_backwardStep_heap (facade : MldFacade) (col : Nat) (pc : Nat × Nat)
    (st : SState MldHeapData) :
    (mld.backwardRoutingStep facade col pc st).heap =
      mld.relaxOutgoingEdges false facade st.heap.deleteMin.1
        (st.heap.getKey st.heap.deleteMin.1)
        ((st.heap.getData st.heap.deleteMin.1).duration) st.heap.deleteMin.2 pc := rfl

/-- The CH backward step appends exactly one bucket entry for the popped
node. -/
theorem ch_backwardStep_buckets2 (facade : ChFacade) (col : Nat) (st : SState ChHeapData) :
    (ch.backwardRoutingStep facade col st).buckets =
      bucketAppend st.buckets st.heap.deleteMin.1
        ⟨col, st.heap.getKey st.heap.deleteMin.1,
          (st.heap.getData st.heap.deleteMin.1).duration⟩ := by
  simp only [ch.backwardRoutingStep]
  split <;> rfl

/-- The MLD backward step appends exactly one bucket entry for the popped
node. -/
theorem mld_backwardStep_buckets2 (facade : MldFacade) (col : Nat) (pc : Nat × Nat)
    (st : SState MldHeapData) :
    (mld.backwardRoutingStep facade col pc st).buckets =
      bucketAppend st.buckets st.heap.deleteMin.1
        ⟨col, st.heap.getKey st.heap.deleteMin.1,
          (st.heap.getData st.heap.deleteMin.1).duration⟩ := rfl

/-- The CH forward-step table effect is applyHits with the CH cell
function, on the bucket list of the popped node. -/
theorem ch_forwardStep_tables (facade : ChFacade) (r T : Nat) (st : SState ChHeapData) :
    (ch.forwardRoutingStep facade r T st).weights =
      (applyHits (chCellFn facade st.heap) (r * T) (st.weights, st.durations)
        (bucketListOf st.buckets st.heap.deleteMin.1)).1 ∧
    (ch.forwardRoutingStep facade r T st).durations =
      (applyHits (chCellFn facade st.heap) (r * T) (st.weights, st.durations)
        (bucketListOf st.buckets st.heap.deleteMin.1)).2 := by
  simp only [ch.forwardRoutingStep, bucketListOf]
  cases hb : bucketFind st.buckets st.heap.deleteMin.1 with
  | none =>
      simp only [hb, Option.getD_none]
      constructor <;> (split <;> rfl)
  | some bl =>
      simp only [hb, Option.getD_some]
      constructor <;> (split <;> rfl)

/-- The MLD forward-step table effect is applyHits with the MLD cell
function, on the bucket list of the popped node. -/
theorem mld_forwardStep_tables (facade : MldFacade) (r T : Nat) (pc : Nat × Nat)
    (st : SState MldHeapData) :
    (mld.forwardRoutingStep facade r T pc st).weights =
      (applyHits (mldCellFn st.heap) (r * T) (st.weights, st.durations)
        (bucketListOf st.buckets st.heap.deleteMin.1)).1 ∧
    (mld.forwardRoutingStep facade r T pc st).durations =
      (applyHits (mldCellFn st.heap) (r * T) (st.weights, st.durations)
        (bucketListOf st.buckets st.heap.deleteMin.1)).2 := by
  simp only [mld.forwardRoutingStep, bucketListOf]
  cases hb : bucketFind st.buckets st.heap.deleteMin.1 with
  | none =>
      simp only [hb, Option.getD_none]
      exact ⟨rfl, rfl⟩
  | some bl =>
      simp only [hb, Option.getD_some]
      exact ⟨rfl, rfl⟩


/-! ## Length and frame preservation through the phases -/

theorem bucketListOf_colsBelow (T : Nat) (B : SearchSpaceWithBuckets) (n : NodeID)
    (hb : bucketColsBelow T B) : ∀ e ∈ bucketListOf B n, e.target_id < T := by
  intro e he
  unfold bucketListOf bucketFind at he
  cases hf : B.find? (fun p => p.1 == n) with
  | none => rw [hf] at he; simp at he
  | some p =>
      rw [hf] at he
      simp at he
      exact hb p (List.mem_of_find?_eq_some hf) e he

theorem ch_forwardStep_len (facade : ChFacade) (r T : Nat) (st : SState ChHeapData) :
    (ch.forwardRoutingStep facade r T st).weights.length = st.weights.length ∧
    (ch.forwardRoutingStep facade r T st).durations.length = st.durations.length := by
  obtain ⟨hw, hd⟩ := ch_forwardStep_tables facade r T st
  rw [hw, hd]
  exact applyHits_len _ _ _ _

theorem mld_forwardStep_len (facade : MldFacade) (r T : Nat) (pc : Nat × Nat)
    (st : SState MldHeapData) :
    (mld.forwardRoutingStep facade r T pc st).weights.length = st.weights.length ∧
    (mld.forwardRoutingStep facade r T pc st).durations.length = st.durations.length := by
  obtain ⟨hw, hd⟩ := mld_forwardStep_tables facade r T pc st
  rw [hw, hd]
  exact applyHits_len _ _ _ _

/-- A CH forward run keeps the buckets and the table lengths. -/
theorem ch_runForward_pres (facade : ChFacade) (T : Nat) (st : SState ChHeapData)
    (r : Nat) (ph : PhantomNode) :
    (ch.runForward facade T st r ph).buckets = st.buckets ∧
    (ch.runForward facade T st r ph).weights.length = st.weights.length ∧
    (ch.runForward facade T st r ph).durations.length = st.durations.length := by
  unfold ch.runForward
  refine searchLoop_preserve
    (fun x => x.buckets = st.buckets ∧ x.weights.length = st.weights.length ∧
      x.durations.length = st.durations.length) _ ?_ _ _ ⟨rfl, rfl, rfl⟩
  intro x hx
  obtain ⟨hl1, hl2⟩ := ch_forwardStep_len facade r T x
  exact ⟨(ch_forwardStep_buckets facade r T x).trans hx.1, hl1.trans hx.2.1,
    hl2.trans hx.2.2⟩

/-- An MLD forward run keeps the buckets and the table lengths. -/
theorem mld_runForward_pres (facade : MldFacade) (T : Nat) (pc : Nat × Nat)
    (st : SState MldHeapData) (r : Nat) (ph : PhantomNode) :
    (mld.runForward facade T pc st r ph).buckets = st.buckets ∧
    (mld.runForward facade T pc st r ph).weights.length = st.weights.length ∧
    (mld.runForward facade T pc st r ph).durations.length = st.durations.length := by
  unfold mld.runForward
  refine searchLoop_preserve
    (fun x => x.buckets = st.buckets ∧ x.weights.length = st.weights.length ∧
      x.durations.length = st.durations.length) _ ?_ _ _ ⟨rfl, rfl, rfl⟩
  intro x hx
  obtain ⟨hl1, hl2⟩ := mld_forwardStep_len facade r T pc x
  exact ⟨(mld_forwardStep_buckets facade r T pc x).trans hx.1, hl1.trans hx.2.1,
    hl2.trans hx.2.2⟩

/-- A CH backward run never touches the tables. -/
theorem ch_runBackward_tables (facade : ChFacade) (st : SState ChHeapData)
    (col : Nat) (ph : PhantomNode) :
    (ch.runBackward facade st col ph).weights = st.weights ∧
    (ch.runBackward facade st col ph).durations = st.durations := by
  unfold ch.runBackward
  refine searchLoop_preserve
    (fun x => x.weights = st.weights ∧ x.durations = st.durations) _ ?_ _ _ ⟨rfl, rfl⟩
  intro x hx
  obtain ⟨h1, h2⟩ := ch_backwardStep_tables facade col x
  exact ⟨h1.trans hx.1, h2.trans hx.2⟩

/-- An MLD backward run never touches the tables. -/
theorem mld_runBackward_tables (facade : MldFacade) (pc : Nat × Nat)
    (st : SState MldHeapData) (col : Nat) (ph : PhantomNode) :
    (mld.runBackward facade pc st col ph).weights = st.weights ∧
    (mld.runBackward facade pc st col ph).durations = st.durations := by
  unfold mld.runBackward
  refine searchLoop_preserve
    (fun x => x.weights = st.weights ∧ x.durations = st.durations) _ ?_ _ _ ⟨rfl, rfl⟩
  intro x hx
  obtain ⟨h1, h2⟩ := mld_backwardStep_tables facade col pc x
  exact ⟨h1.trans hx.1, h2.trans hx.2⟩

/-- The whole CH backward phase never touches the tables. -/
theorem ch_backwardPhase_tables (facade : ChFacade) :
    ∀ (l : List PhantomNode) (st : SState ChHeapData) (col0 : Nat),
      (ch.backwardPhase facade l st col0).weights = st.weights ∧
      (ch.backwardPhase facade l st col0).durations = st.durations := by
  intro l
  induction l with
  | nil => intro st col0; exact ⟨rfl, rfl⟩
  | cons ph rest ih =>
      intro st col0
      rw [ch.backwardPhase]
      obtain ⟨h1, h2⟩ := ih (ch.runBackward facade st col0 ph) (col0 + 1)
      obtain ⟨h3, h4⟩ := ch_runBackward_tables facade st col0 ph
      exact ⟨h1.trans h3, h2.trans h4⟩

/-- The whole MLD backward phase never touches the tables. -/
theorem mld_backwardPhase_tables (facade : MldFacade) (pn : List PhantomNode)
    (si : List Nat) :
    ∀ (l : List PhantomNode) (st : SState MldHeapData) (col0 : Nat),
      (mld.backwardPhase facade pn si l st col0).weights = st.weights ∧
      (mld.backwardPhase facade pn si l st col0).durations = st.durations := by
  intro l
  induction l with
  | nil => intro st col0; exact ⟨rfl, rfl⟩
  | cons ph rest ih =>
      intro st col0
      rw [mld.backwardPhase]
      obtain ⟨h1, h2⟩ := ih _ (col0 + 1)
      obtain ⟨h3, h4⟩ :=
        mld_runBackward_tables facade (mld.getParentCellID facade ph pn si) st col0 ph
      exact ⟨h1.trans h3, h2.trans h4⟩

/-- The whole CH forward phase keeps the table lengths. -/
theorem ch_forwardPhase_len (facade : ChFacade) (T : Nat) :
    ∀ (l : List PhantomNode) (st : SState ChHeapData) (row : Nat),
      (ch.forwardPhase facade T l st row).weights.length = st.weights.length ∧
      (ch.forwardPhase facade T l st row).durations.length = st.durations.length := by
  intro l
  induction l with
  | nil => intro st row; exact ⟨rfl, rfl⟩
  | cons ph rest ih =>
      intro st row
      rw [ch.forwardPhase]
      obtain ⟨h1, h2⟩ := ih (ch.runForward facade T st row ph) (row + 1)
      obtain ⟨_, h3, h4⟩ := ch_runForward_pres facade T st row ph
      exact ⟨h1.trans h3, h2.trans h4⟩

/-- The whole MLD forward phase keeps the table lengths. -/
theorem mld_forwardPhase_len (facade : MldFacade) (T : Nat) (pn : List PhantomNode)
    (ti : List Nat) :
    ∀ (l : List PhantomNode) (st : SState MldHeapData) (row : Nat),
      (mld.forwardPhase facade T pn ti l st row).weights.length = st.weights.length ∧
      (mld.forwardPhase facade T pn ti l st row).durations.length =
        st.durations.length := by
  intro l
  induction l with
  | nil => intro st row; exact ⟨rfl, rfl⟩
  | cons ph rest ih =>
      intro st row
      rw [mld.forwardPhase]
      obtain ⟨h1, h2⟩ := ih _ (row + 1)
      obtain ⟨_, h3, h4⟩ :=
        mld_runForward_pres facade T (mld.getParentCellID facade ph pn ti) st row ph
      exact ⟨h1.trans h3, h2.trans h4⟩

/-- A CH forward step leaves every cell outside its row untouched. -/
theorem ch_forwardStep_frame (facade : ChFacade) (r T : Nat) (st : SState ChHeapData)
    (hb : bucketColsBelow T st.buckets) (j : Nat) (hj : j < r * T ∨ r * T + T ≤ j) :
    (ch.forwardRoutingStep facade r T st).weights.getD j 0 = st.weights.getD j 0 ∧
    (ch.forwardRoutingStep facade r T st).durations.getD j 0 = st.durations.getD j 0 := by
  obtain ⟨hw, hd⟩ := ch_forwardStep_tables facade r T st
  rw [hw, hd]
  exact applyHits_frame _ (r * T) T _ _
    (bucketListOf_colsBelow T st.buckets _ hb) j hj

/-- An MLD forward step leaves every cell outside its row untouched. -/
theorem mld_forwardStep_frame (facade : MldFacade) (r T : Nat) (pc : Nat × Nat)
    (st : SState MldHeapData)
    (hb : bucketColsBelow T st.buckets) (j : Nat) (hj : j < r * T ∨ r * T + T ≤ j) :
    (mld.forwardRoutingStep facade r T pc st).weights.getD j 0 = st.weights.getD j 0 ∧
    (mld.forwardRoutingStep facade r T pc st).durations.getD j 0 =
      st.durations.getD j 0 := by
  obtain ⟨hw, hd⟩ := mld_forwardStep_tables facade r T pc st
  rw [hw, hd]
  exact applyHits_frame _ (r * T) T _ _
    (bucketListOf_colsBelow T st.buckets _ hb) j hj

/-- A CH forward run leaves every cell outside its row untouched. -/
theorem ch_runForward_frame (facade : ChFacade) (T : Nat) (st : SState ChHeapData)
    (r : Nat) (ph : PhantomNode) (hb : bucketColsBelow T st.buckets) (j : Nat)
    (hj : j < r * T ∨ r * T + T ≤ j) :
    (ch.runForward facade T st r ph).weights.getD j 0 = st.weights.getD j 0 ∧
    (ch.runForward facade T st r ph).durations.getD j 0 = st.durations.getD j 0 := by
  unfold ch.runForward
  have hpres : ∀ x : SState ChHeapData,
      (x.buckets = st.buckets ∧ x.weights.getD j 0 = st.weights.getD j 0 ∧
        x.durations.getD j 0 = st.durations.getD j 0) →
      ((ch.forwardRoutingStep facade r T x).buckets = st.buckets ∧
        (ch.forwardRoutingStep facade r T x).weights.getD j 0 = st.weights.getD j 0 ∧
        (ch.forwardRoutingStep facade r T x).durations.getD j 0 =
          st.durations.getD j 0) := by
    intro x hx
    obtain ⟨h1, h2⟩ := ch_forwardStep_frame facade r T x (hx.1 ▸ hb) j hj
    exact ⟨(ch_forwardStep_buckets facade r T x).trans hx.1, h1.trans hx.2.1,
      h2.trans hx.2.2⟩
  have h := searchLoop_preserve
    (fun x => x.buckets = st.buckets ∧ x.weights.getD j 0 = st.weights.getD j 0 ∧
      x.durations.getD j 0 = st.durations.getD j 0)
    (ch.forwardRoutingStep facade r T) hpres facade.numNodes
    { st with heap := ch.insertSourceInHeap Heap.init ph } ⟨rfl, rfl, rfl⟩
  exact ⟨h.2.1, h.2.2⟩

/-- An MLD forward run leaves every cell outside its row untouched. -/
theorem mld_runForward_frame (facade : MldFacade) (T : Nat) (pc : Nat × Nat)
    (st : SState MldHeapData) (r : Nat) (ph : PhantomNode)
    (hb : bucketColsBelow T st.buckets) (j : Nat)
    (hj : j < r * T ∨ r * T + T ≤ j) :
    (mld.runForward facade T pc st r ph).weights.getD j 0 = st.weights.getD j 0 ∧
    (mld.runForward facade T pc st r ph).durations.getD j 0 = st.durations.getD j 0 := by
  unfold mld.runForward
  have hpres : ∀ x : SState MldHeapData,
      (x.buckets = st.buckets ∧ x.weights.getD j 0 = st.weights.getD j 0 ∧
        x.durations.getD j 0 = st.durations.getD j 0) →
      ((mld.forwardRoutingStep facade r T pc x).buckets = st.buckets ∧
        (mld.forwardRoutingStep facade r T pc x).weights.getD j 0 =
          st.weights.getD j 0 ∧
        (mld.forwardRoutingStep facade r T pc x).durations.getD j 0 =
          st.durations.getD j 0) := by
    intro x hx
    obtain ⟨h1, h2⟩ := mld_forwardStep_frame facade r T pc x (hx.1 ▸ hb) j hj
    exact ⟨(mld_forwardStep_buckets facade r T pc x).trans hx.1, h1.trans hx.2.1,
      h2.trans hx.2.2⟩
  have h := searchLoop_preserve
    (fun x => x.buckets = st.buckets ∧ x.weights.getD j 0 = st.weights.getD j 0 ∧
      x.durations.getD j 0 = st.durations.getD j 0)
    (mld.forwardRoutingStep facade r T pc) hpres facade.numNodes
    { st with heap := mld.insertSourceInHeap Heap.init ph } ⟨rfl, rfl, rfl⟩
  exact ⟨h.2.1, h.2.2⟩

/-- The CH forward phase leaves every cell below its starting row untouched. -/
theorem ch_forwardPhase_frame (facade : ChFacade) (T : Nat) :
    ∀ (l : List PhantomNode) (st : SState ChHeapData) (r0 : Nat),
      bucketColsBelow T st.buckets → ∀ j, j < r0 * T →
      (ch.forwardPhase facade T l st r0).weights.getD j 0 = st.weights.getD j 0 ∧
      (ch.forwardPhase facade T l st r0).durations.getD j 0 = st.durations.getD j 0 := by
  intro l
  induction l with
  | nil => intro st r0 _ j _; exact ⟨rfl, rfl⟩
  | cons ph rest ih =>
      intro st r0 hb j hj
      rw [ch.forwardPhase]
      have hbr : bucketColsBelow T (ch.runForward facade T st r0 ph).buckets := by
        rw [(ch_runForward_pres facade T st r0 ph).1]; exact hb
      have hj2 : j < (r0 + 1) * T := by
        have : r0 * T ≤ (r0 + 1) * T := Nat.mul_le_mul_right T (Nat.le_succ r0)
        omega
      obtain ⟨h1, h2⟩ := ih (ch.runForward facade T st r0 ph) (r0 + 1) hbr j hj2
      obtain ⟨h3, h4⟩ := ch_runForward_frame facade T st r0 ph hb j (Or.inl hj)
      exact ⟨h1.trans h3, h2.trans h4⟩

/-- The MLD forward phase leaves every cell below its starting row untouched. -/
theorem mld_forwardPhase_frame (facade : MldFacade) (T : Nat) (pn : List PhantomNode)
    (ti : List Nat) :
    ∀ (l : List PhantomNode) (st : SState MldHeapData) (r0 : Nat),
      bucketColsBelow T st.buckets → ∀ j, j < r0 * T →
      (mld.forwardPhase facade T pn ti l st r0).weights.getD j 0 =
        st.weights.getD j 0 ∧
      (mld.forwardPhase facade T pn ti l st r0).durations.getD j 0 =
        st.durations.getD j 0 := by
  intro l
  induction l with
  | nil => intro st r0 _ j _; exact ⟨rfl, rfl⟩
  | cons ph rest ih =>
      intro st r0 hb j hj
      rw [mld.forwardPhase]
      have hbr : bucketColsBelow T
          (mld.runForward facade T (mld.getParentCellID facade ph pn ti) st r0 ph).buckets := by
        rw [(mld_runForward_pres facade T _ st r0 ph).1]; exact hb
      have hj2 : j < (r0 + 1) * T := by
        have : r0 * T ≤ (r0 + 1) * T := Nat.mul_le_mul_right T (Nat.le_succ r0)
        omega
      obtain ⟨h1, h2⟩ := ih _ (r0 + 1) hbr j hj2
      obtain ⟨h3, h4⟩ :=
        mld_runForward_frame facade T (mld.getParentCellID facade ph pn ti) st r0 ph hb j
          (Or.inl hj)
      exact ⟨h1.trans h3, h2.trans h4⟩


/-! ## Row pairing: each row of the big table is the canonical single-row run -/

theorem rowSlice_congr (t1 t2 : List Int) (rb1 rb2 T : Nat)
    (h : ∀ j, j < T → t1.getD (rb1 + j) 0 = t2.getD (rb2 + j) 0) :
    rowSlice t1 rb1 T = rowSlice t2 rb2 T := by
  unfold rowSlice
  exact List.map_congr_left (fun j hj => h j (List.mem_range.mp hj))

/-- Two CH forward steps at possibly different rows, on equal heaps and the
same bucket index, keep their row slices equal. -/
theorem ch_forwardStep_rowPair (facade : ChFacade) (T : Nat)
    (B : SearchSpaceWithBuckets) (hb : bucketColsBelow T B) (r1 r2 : Nat)
    (x y : SState ChHeapData) (hh : x.heap = y.heap)
    (hxB : x.buckets = B) (hyB : y.buckets = B)
    (hL11 : r1 * T + T ≤ x.weights.length) (hL12 : r1 * T + T ≤ x.durations.length)
    (hL21 : r2 * T + T ≤ y.weights.length) (hL22 : r2 * T + T ≤ y.durations.length)
    (hrw : rowSlice x.weights (r1 * T) T = rowSlice y.weights (r2 * T) T)
    (hrd : rowSlice x.durations (r1 * T) T = rowSlice y.durations (r2 * T) T) :
    rowSlice (ch.forwardRoutingStep facade r1 T x).weights (r1 * T) T =
      rowSlice (ch.forwardRoutingStep facade r2 T y).weights (r2 * T) T ∧
    rowSlice (ch.forwardRoutingStep facade r1 T x).durations (r1 * T) T =
      rowSlice (ch.forwardRoutingStep facade r2 T y).durations (r2 * T) T := by
  obtain ⟨hxw, hxd⟩ := ch_forwardStep_tables facade r1 T x
  obtain ⟨hyw, hyd⟩ := ch_forwardStep_tables facade r2 T y
  rw [hxw, hxd, hyw, hyd, hxB, hyB, hh]
  exact applyHits_rowPair (chCellFn facade y.heap) (r1 * T) (r2 * T) T
    (bucketListOf B y.heap.deleteMin.1) (x.weights, x.durations)
    (y.weights, y.durations) (bucketListOf_colsBelow T B _ hb)
    hL11 hL12 hL21 hL22 hrw hrd

/-- Two MLD forward steps at possibly different rows, on equal heaps and the
same bucket index, keep their row slices equal. -/
theorem mld_forwardStep_rowPair (facade : MldFacade) (T : Nat) (pc : Nat × Nat)
    (B : SearchSpaceWithBuckets) (hb : bucketColsBelow T B) (r1 r2 : Nat)
    (x y : SState MldHeapData) (hh : x.heap = y.heap)
    (hxB : x.buckets = B) (hyB : y.buckets = B)
    (hL11 : r1 * T + T ≤ x.weights.length) (hL12 : r1 * T + T ≤ x.durations.length)
    (hL21 : r2 * T + T ≤ y.weights.length) (hL22 : r2 * T + T ≤ y.durations.length)
    (hrw : rowSlice x.weights (r1 * T) T = rowSlice y.weights (r2 * T) T)
    (hrd : rowSlice x.durations (r1 * T) T = rowSlice y.durations (r2 * T) T) :
    rowSlice (mld.forwardRoutingStep facade r1 T pc x).weights (r1 * T) T =
      rowSlice (mld.forwardRoutingStep facade r2 T pc y).weights (r2 * T) T ∧
    rowSlice (mld.forwardRoutingStep facade r1 T pc x).durations (r1 * T) T =
      rowSlice (mld.forwardRoutingStep facade r2 T pc y).durations (r2 * T) T := by
  obtain ⟨hxw, hxd⟩ := mld_forwardStep_tables facade r1 T pc x
  obtain ⟨hyw, hyd⟩ := mld_forwardStep_tables facade r2 T pc y
  rw [hxw, hxd, hyw, hyd, hxB, hyB, hh]
  exact applyHits_rowPair (mldCellFn y.heap) (r1 * T) (r2 * T) T
    (bucketListOf B y.heap.deleteMin.1) (x.weights, x.durations)
    (y.weights, y.durations) (bucketListOf_colsBelow T B _ hb)
    hL11 hL12 hL21 hL22 hrw hrd

/-- Two CH forward runs from the same phantom against the same bucket index
produce equal row slices. -/
theorem ch_runForward_rowPair (facade : ChFacade) (T : Nat)
    (B : SearchSpaceWithBuckets) (hb : bucketColsBelow T B)
    (st1 st2 : SState ChHeapData) (r1 r2 : Nat) (ph : PhantomNode)
    (hb1 : st1.buckets = B) (hb2 : st2.buckets = B)
    (hL11 : r1 * T + T ≤ st1.weights.length) (hL12 : r1 * T + T ≤ st1.durations.length)
    (hL21 : r2 * T + T ≤ st2.weights.length) (hL22 : r2 * T + T ≤ st2.durations.length)
    (hw : rowSlice st1.weights (r1 * T) T = rowSlice st2.weights (r2 * T) T)
    (hd : rowSlice st1.durations (r1 * T) T = rowSlice st2.durations (r2 * T) T) :
    rowSlice (ch.runForward facade T st1 r1 ph).weights (r1 * T) T =
      rowSlice (ch.runForward facade T st2 r2 ph).weights (r2 * T) T ∧
    rowSlice (ch.runForward facade T st1 r1 ph).durations (r1 * T) T =
      rowSlice (ch.runForward facade T st2 r2 ph).durations (r2 * T) T := by
  unfold ch.runForward
  have hstep : ∀ x y : SState ChHeapData,
      (x.heap = y.heap ∧ x.buckets = B ∧ y.buckets = B ∧
        x.weights.length = st1.weights.length ∧
        x.durations.length = st1.durations.length ∧
        y.weights.length = st2.weights.length ∧
        y.durations.length = st2.durations.length ∧
        rowSlice x.weights (r1 * T) T = rowSlice y.weights (r2 * T) T ∧
        rowSlice x.durations (r1 * T) T = rowSlice y.durations (r2 * T) T) →
      ((ch.forwardRoutingStep facade r1 T x).heap =
          (ch.forwardRoutingStep facade r2 T y).heap ∧
        (ch.forwardRoutingStep facade r1 T x).buckets = B ∧
        (ch.forwardRoutingStep facade r2 T y).buckets = B ∧
        (ch.forwardRoutingStep facade r1 T x).weights.length = st1.weights.length ∧
        (ch.forwardRoutingStep facade r1 T x).durations.length = st1.durations.length ∧
        (ch.forwardRoutingStep facade r2 T y).weights.length = st2.weights.length ∧
        (ch.forwardRoutingStep facade r2 T y).durations.length = st2.durations.length ∧
        rowSlice (ch.forwardRoutingStep facade r1 T x).weights (r1 * T) T =
          rowSlice (ch.forwardRoutingStep facade r2 T y).weights (r2 * T) T ∧
        rowSlice (ch.forwardRoutingStep facade r1 T x).durations (r1 * T) T =
          rowSlice (ch.forwardRoutingStep facade r2 T y).durations (r2 * T) T) := by
    intro x y h
    obtain ⟨hh, hxB, hyB, hxl1, hxl2, hyl1, hyl2, hrw, hrd⟩ := h
    obtain ⟨hsw, hsd⟩ := ch_forwardStep_rowPair facade T B hb r1 r2 x y hh hxB hyB
      (by rw [hxl1]; exact hL11) (by rw [hxl2]; exact hL12)
      (by rw [hyl1]; exact hL21) (by rw [hyl2]; exact hL22) hrw hrd
    refine ⟨?_, ?_, ?_, ?_, ?_, ?_, ?_, hsw, hsd⟩
    · rw [ch_forwardStep_heap, ch_forwardStep_heap, hh]
    · exact (ch_forwardStep_buckets facade r1 T x).trans hxB
    · exact (ch_forwardStep_buckets facade r2 T y).trans hyB
    · exact (ch_forwardStep_len facade r1 T x).1.trans hxl1
    · exact (ch_forwardStep_len facade r1 T x).2.trans hxl2
    · exact (ch_forwardStep_len facade r2 T y).1.trans hyl1
    · exact (ch_forwardStep_len facade r2 T y).2.trans hyl2
  have hpair := searchLoop_pair
    (fun x y => x.heap = y.heap ∧ x.buckets = B ∧ y.buckets = B ∧
      x.weights.length = st1.weights.length ∧
      x.durations.length = st1.durations.length ∧
      y.weights.length = st2.weights.length ∧
      y.durations.length = st2.durations.length ∧
      rowSlice x.weights (r1 * T) T = rowSlice y.weights (r2 * T) T ∧
      rowSlice x.durations (r1 * T) T = rowSlice y.durations (r2 * T) T)
    (ch.forwardRoutingStep facade r1 T) (ch.forwardRoutingStep facade r2 T)
    (fun x y h => h.1) hstep facade.numNodes
    { st1 with heap := ch.insertSourceInHeap Heap.init ph }
    { st2 with heap := ch.insertSourceInHeap Heap.init ph }
    ⟨rfl, hb1, hb2, rfl, rfl, rfl, rfl, hw, hd⟩
  exact ⟨hpair.2.2.2.2.2.2.2.1, hpair.2.2.2.2.2.2.2.2⟩

/-- Two MLD forward runs from the same phantom and parent cell against the
same bucket index produce equal row slices. -/
theorem mld_runForward_rowPair (facade : MldFacade) (T : Nat) (pc : Nat × Nat)
    (B : SearchSpaceWithBuckets) (hb : bucketColsBelow T B)
    (st1 st2 : SState MldHeapData) (r1 r2 : Nat) (ph : PhantomNode)
    (hb1 : st1.buckets = B) (hb2 : st2.buckets = B)
    (hL11 : r1 * T + T ≤ st1.weights.length) (hL12 : r1 * T + T ≤ st1.durations.length)
    (hL21 : r2 * T + T ≤ st2.weights.length) (hL22 : r2 * T + T ≤ st2.durations.length)
    (hw : rowSlice st1.weights (r1 * T) T = rowSlice st2.weights (r2 * T) T)
    (hd : rowSlice st1.durations (r1 * T) T = rowSlice st2.durations (r2 * T) T) :
    rowSlice (mld.runForward facade T pc st1 r1 ph).weights (r1 * T) T =
      rowSlice (mld.runForward facade T pc st2 r2 ph).weights (r2 * T) T ∧
    rowSlice (mld.runForward facade T pc st1 r1 ph).durations (r1 * T) T =
      rowSlice (mld.runForward facade T pc st2 r2 ph).durations (r2 * T) T := by
  unfold mld.runForward
  have hstep : ∀ x y : SState MldHeapData,
      (x.heap = y.heap ∧ x.buckets = B ∧ y.buckets = B ∧
        x.weights.length = st1.weights.length ∧
        x.durations.length = st1.durations.length ∧
        y.weights.length = st2.weights.length ∧
        y.durations.length = st2.durations.length ∧
        rowSlice x.weights (r1 * T) T = rowSlice y.weights (r2 * T) T ∧
        rowSlice x.durations (r1 * T) T = rowSlice y.durations (r2 * T) T) →
      ((mld.forwardRoutingStep facade r1 T pc x).heap =
          (mld.forwardRoutingStep facade r2 T pc y).heap ∧
        (mld.forwardRoutingStep facade r1 T pc x).buckets = B ∧
        (mld.forwardRoutingStep facade r2 T pc y).buckets = B ∧
        (mld.forwardRoutingStep facade r1 T pc x).weights.length = st1.weights.length ∧
        (mld.forwardRoutingStep facade r1 T pc x).durations.length =
          st1.durations.length ∧
        (mld.forwardRoutingStep facade r2 T pc y).weights.length = st2.weights.length ∧
        (mld.forwardRoutingStep facade r2 T pc y).durations.length =
          st2.durations.length ∧
        rowSlice (mld.forwardRoutingStep facade r1 T pc x).weights (r1 * T) T =
          rowSlice (mld.forwardRoutingStep facade r2 T pc y).weights (r2 * T) T ∧
        rowSlice (mld.forwardRoutingStep facade r1 T pc x).durations (r1 * T) T =
          rowSlice (mld.forwardRoutingStep facade r2 T pc y).durations (r2 * T) T) := by
    intro x y h
    obtain ⟨hh, hxB, hyB, hxl1, hxl2, hyl1, hyl2, hrw, hrd⟩ := h
    obtain ⟨hsw, hsd⟩ := mld_forwardStep_rowPair facade T pc B hb r1 r2 x y hh hxB hyB
      (by rw [hxl1]; exact hL11) (by rw [hxl2]; exact hL12)
      (by rw [hyl1]; exact hL21) (by rw [hyl2]; exact hL22) hrw hrd
    refine ⟨?_, ?_, ?_, ?_, ?_, ?_, ?_, hsw, hsd⟩
    · rw [mld_forwardStep_heap, mld_forwardStep_heap, hh]
    · exact (mld_forwardStep_buckets facade r1 T pc x).trans hxB
    · exact (mld_forwardStep_buckets facade r2 T pc y).trans hyB
    · exact (mld_forwardStep_len facade r1 T pc x).1.trans hxl1
    · exact (mld_forwardStep_len facade r1 T pc x).2.trans hxl2
    · exact (mld_forwardStep_len facade r2 T pc y).1.trans hyl1
    · exact (mld_forwardStep_len facade r2 T pc y).2.trans hyl2
  have hpair := searchLoop_pair
    (fun x y => x.heap = y.heap ∧ x.buckets = B ∧ y.buckets = B ∧
      x.weights.length = st1.weights.length ∧
      x.durations.length = st1.durations.length ∧
      y.weights.length = st2.weights.length ∧
      y.durations.length = st2.durations.length ∧
      rowSlice x.weights (r1 * T) T = rowSlice y.weights (r2 * T) T ∧
      rowSlice x.durations (r1 * T) T = rowSlice y.durations (r2 * T) T)
    (mld.forwardRoutingStep facade r1 T pc) (mld.forwardRoutingStep facade r2 T pc)
    (fun x y h => h.1) hstep facade.numNodes
    { st1 with heap := mld.insertSourceInHeap Heap.init ph }
    { st2 with heap := mld.insertSourceInHeap Heap.init ph }
    ⟨rfl, hb1, hb2, rfl, rfl, rfl, rfl, hw, hd⟩
  exact ⟨hpair.2.2.2.2.2.2.2.1, hpair.2.2.2.2.2.2.2.2⟩


/-- Each row of the CH forward phase, started on all-sentinel rows, is the
canonical single-row run of its source phantom. -/
theorem ch_forwardPhase_row (facade : ChFacade) (T L : Nat) :
    ∀ (l : List PhantomNode) (st : SState ChHeapData) (r0 : Nat),
      bucketColsBelow T st.buckets →
      st.weights.length = L → st.durations.length = L →
      (r0 + l.length) * T ≤ L →
      (∀ j, r0 * T ≤ j → j < L →
        st.weights.getD j 0 = INVALID_EDGE_WEIGHT ∧
        st.durations.getD j 0 = MAXIMAL_EDGE_DURATION) →
      ∀ p, p < l.length →
        rowSlice (ch.forwardPhase facade T l st r0).weights ((r0 + p) * T) T =
          rowSlice (ch.rowState facade T st.buckets (l.getD p default)).weights 0 T ∧
        rowSlice (ch.forwardPhase facade T l st r0).durations ((r0 + p) * T) T =
          rowSlice (ch.rowState facade T st.buckets (l.getD p default)).durations 0 T := by
  intro l
  induction l with
  | nil => intro st r0 _ _ _ _ _ p hp; exact absurd hp (by simp)
  | cons ph rest ih =>
      intro st r0 hbc hw hd hlen hsent p hp
      rw [ch.forwardPhase]
      have hbrun : (ch.runForward facade T st r0 ph).buckets = st.buckets :=
        (ch_runForward_pres facade T st r0 ph).1
      have hbc2 : bucketColsBelow T (ch.runForward facade T st r0 ph).buckets := by
        rw [hbrun]; exact hbc
      have hlrun1 : (ch.runForward facade T st r0 ph).weights.length = L :=
        ((ch_runForward_pres facade T st r0 ph).2.1).trans hw
      have hlrun2 : (ch.runForward facade T st r0 ph).durations.length = L :=
        ((ch_runForward_pres facade T st r0 ph).2.2).trans hd
      have hr1T : (r0 + 1) * T = r0 * T + T := by ring
      have hbound : r0 * T + T ≤ L := by
        have h1 : (r0 + 1) * T ≤ (r0 + (ph :: rest).length) * T :=
          Nat.mul_le_mul_right T (by simp only [List.length_cons]; omega)
        omega
      cases p with
      | zero =>
          have hstep1 : rowSlice
              (ch.forwardPhase facade T rest (ch.runForward facade T st r0 ph)
                (r0 + 1)).weights (r0 * T) T =
              rowSlice (ch.runForward facade T st r0 ph).weights (r0 * T) T ∧
              rowSlice
              (ch.forwardPhase facade T rest (ch.runForward facade T st r0 ph)
                (r0 + 1)).durations (r0 * T) T =
              rowSlice (ch.runForward facade T st r0 ph).durations (r0 * T) T := by
            constructor <;>
              refine rowSlice_congr _ _ _ _ T (fun j hj => ?_)
            · exact (ch_forwardPhase_frame facade T rest _ (r0 + 1) hbc2
                (r0 * T + j) (by omega)).1
            · exact (ch_forwardPhase_frame facade T rest _ (r0 + 1) hbc2
                (r0 * T + j) (by omega)).2
          have hcanon : rowSlice (ch.runForward facade T st r0 ph).weights (r0 * T) T =
              rowSlice (ch.rowState facade T st.buckets ph).weights (0 * T) T ∧
              rowSlice (ch.runForward facade T st r0 ph).durations (r0 * T) T =
              rowSlice (ch.rowState facade T st.buckets ph).durations (0 * T) T := by
            unfold ch.rowState
            refine ch_runForward_rowPair facade T st.buckets hbc st
              ⟨Heap.init, st.buckets, List.replicate T INVALID_EDGE_WEIGHT,
                List.replicate T MAXIMAL_EDGE_DURATION⟩ r0 0 ph rfl rfl
              (by omega) (by omega) (by simp) (by simp) ?_ ?_
            · refine rowSlice_congr _ _ _ _ T (fun j hj => ?_)
              rw [(hsent (r0 * T + j) (by omega) (by omega)).1, getD_replicate]
              simp [hj]
            · refine rowSlice_congr _ _ _ _ T (fun j hj => ?_)
              rw [(hsent (r0 * T + j) (by omega) (by omega)).2, getD_replicate]
              simp [hj]
          have hz : (0 : Nat) * T = 0 := by ring
          rw [hz] at hcanon
          have hgd : (ph :: rest).getD 0 default = ph := rfl
          rw [hgd]
          have hr00 : (r0 + 0) * T = r0 * T := by ring
          rw [hr00]
          exact ⟨hstep1.1.trans hcanon.1, hstep1.2.trans hcanon.2⟩
      | succ q =>
          have hsent2 : ∀ j, (r0 + 1) * T ≤ j → j < L →
              (ch.runForward facade T st r0 ph).weights.getD j 0 =
                INVALID_EDGE_WEIGHT ∧
              (ch.runForward facade T st r0 ph).durations.getD j 0 =
                MAXIMAL_EDGE_DURATION := by
            intro j hj1 hj2
            obtain ⟨hf1, hf2⟩ := ch_runForward_frame facade T st r0 ph hbc j
              (Or.inr (by omega))
            obtain ⟨hs1, hs2⟩ := hsent j (by omega) hj2
            exact ⟨hf1.trans hs1, hf2.trans hs2⟩
          have hlen2 : (r0 + 1 + rest.length) * T ≤ L := by
            have : r0 + 1 + rest.length = r0 + (ph :: rest).length := by
              simp only [List.length_cons]; omega
            rw [this]; exact hlen
          have hrec := ih (ch.runForward facade T st r0 ph) (r0 + 1) hbc2 hlrun1 hlrun2
            hlen2 hsent2 q (by simpa using hp)
          rw [hbrun] at hrec
          have harith : r0 + (q + 1) = r0 + 1 + q := by omega
          have hgd : (ph :: rest).getD (q + 1) default = rest.getD q default := rfl
          rw [harith, hgd]
          exact hrec

/-- Each row of the MLD forward phase, started on all-sentinel rows, is the
canonical single-row run of its source phantom at its own parent cell. -/
theorem mld_forwardPhase_row (facade : MldFacade) (T L : Nat) (pn : List PhantomNode)
    (ti : List Nat) :
    ∀ (l : List PhantomNode) (st : SState MldHeapData) (r0 : Nat),
      bucketColsBelow T st.buckets →
      st.weights.length = L → st.durations.length = L →
      (r0 + l.length) * T ≤ L →
      (∀ j, r0 * T ≤ j → j < L →
        st.weights.getD j 0 = INVALID_EDGE_WEIGHT ∧
        st.durations.getD j 0 = MAXIMAL_EDGE_DURATION) →
      ∀ p, p < l.length →
        rowSlice (mld.forwardPhase facade T pn ti l st r0).weights ((r0 + p) * T) T =
          rowSlice (mld.rowState facade T st.buckets
            (mld.getParentCellID facade (l.getD p default) pn ti)
            (l.getD p default)).weights 0 T ∧
        rowSlice (mld.forwardPhase facade T pn ti l st r0).durations ((r0 + p) * T) T =
          rowSlice (mld.rowState facade T st.buckets
            (mld.getParentCellID facade (l.getD p default) pn ti)
            (l.getD p default)).durations 0 T := by
  intro l
  induction l with
  | nil => intro st r0 _ _ _ _ _ p hp; exact absurd hp (by simp)
  | cons ph rest ih =>
      intro st r0 hbc hw hd hlen hsent p hp
      rw [mld.forwardPhase]
      have hbrun : (mld.runForward facade T
          (mld.getParentCellID facade ph pn ti) st r0 ph).buckets = st.buckets :=
        (mld_runForward_pres facade T _ st r0 ph).1
      have hbc2 : bucketColsBelow T (mld.runForward facade T
          (mld.getParentCellID facade ph pn ti) st r0 ph).buckets := by
        rw [hbrun]; exact hbc
      have hlrun1 : (mld.runForward facade T
          (mld.getParentCellID facade ph pn ti) st r0 ph).weights.length = L :=
        ((mld_runForward_pres facade T _ st r0 ph).2.1).trans hw
      have hlrun2 : (mld.runForward facade T
          (mld.getParentCellID facade ph pn ti) st r0 ph).durations.length = L :=
        ((mld_runForward_pres facade T _ st r0 ph).2.2).trans hd
      have hr1T : (r0 + 1) * T = r0 * T + T := by ring
      have hbound : r0 * T + T ≤ L := by
        have h1 : (r0 + 1) * T ≤ (r0 + (ph :: rest).length) * T :=
          Nat.mul_le_mul_right T (by simp only [List.length_cons]; omega)
        omega
      cases p with
      | zero =>
          have hstep1 : rowSlice
              (mld.forwardPhase facade T pn ti rest
                (mld.runForward facade T (mld.getParentCellID facade ph pn ti) st r0 ph)
                (r0 + 1)).weights (r0 * T) T =
              rowSlice (mld.runForward facade T
                (mld.getParentCellID facade ph pn ti) st r0 ph).weights
                (r0 * T) T ∧
              rowSlice
              (mld.forwardPhase facade T pn ti rest
                (mld.runForward facade T (mld.getParentCellID facade ph pn ti) st r0 ph)
                (r0 + 1)).durations (r0 * T) T =
              rowSlice (mld.runForward facade T
                (mld.getParentCellID facade ph pn ti) st r0 ph).durations
                (r0 * T) T := by
            constructor <;>
              refine rowSlice_congr _ _ _ _ T (fun j hj => ?_)
            · exact (mld_forwardPhase_frame facade T pn ti rest _ (r0 + 1) hbc2
                (r0 * T + j) (by omega)).1
            · exact (mld_forwardPhase_frame facade T pn ti rest _ (r0 + 1) hbc2
                (r0 * T + j) (by omega)).2
          have hcanon : rowSlice (mld.runForward facade T
              (mld.getParentCellID facade ph pn ti) st r0 ph).weights (r0 * T) T =
              rowSlice (mld.rowState facade T st.buckets
                (mld.getParentCellID facade ph pn ti) ph).weights (0 * T) T ∧
              rowSlice (mld.runForward facade T
                (mld.getParentCellID facade ph pn ti) st r0 ph).durations (r0 * T) T =
              rowSlice (mld.rowState facade T st.buckets
                (mld.getParentCellID facade ph pn ti) ph).durations (0 * T) T := by
            unfold mld.rowState
            refine mld_runForward_rowPair facade T _ st.buckets hbc st
              ⟨Heap.init, st.buckets, List.replicate T INVALID_EDGE_WEIGHT,
                List.replicate T MAXIMAL_EDGE_DURATION⟩ r0 0 ph rfl rfl
              (by omega) (by omega) (by simp) (by simp) ?_ ?_
            · refine rowSlice_congr _ _ _ _ T (fun j hj => ?_)
              rw [(hsent (r0 * T + j) (by omega) (by omega)).1, getD_replicate]
              simp [hj]
            · refine rowSlice_congr _ _ _ _ T (fun j hj => ?_)
              rw [(hsent (r0 * T + j) (by omega) (by omega)).2, getD_replicate]
              simp [hj]
          have hz : (0 : Nat) * T = 0 := by ring
          rw [hz] at hcanon
          have hgd : (ph :: rest).getD 0 default = ph := rfl
          rw [hgd]
          have hr00 : (r0 + 0) * T = r0 * T := by ring
          rw [hr00]
          exact ⟨hstep1.1.trans hcanon.1, hstep1.2.trans hcanon.2⟩
      | succ q =>
          have hsent2 : ∀ j, (r0 + 1) * T ≤ j → j < L →
              (mld.runForward facade T
                (mld.getParentCellID facade ph pn ti) st r0 ph).weights.getD j 0 =
                INVALID_EDGE_WEIGHT ∧
              (mld.runForward facade T
                (mld.getParentCellID facade ph pn ti) st r0 ph).durations.getD j 0 =
                MAXIMAL_EDGE_DURATION := by
            intro j hj1 hj2
            obtain ⟨hf1, hf2⟩ := mld_runForward_frame facade T _ st r0 ph hbc j
              (Or.inr (by omega))
            obtain ⟨hs1, hs2⟩ := hsent j (by omega) hj2
            exact ⟨hf1.trans hs1, hf2.trans hs2⟩
          have hlen2 : (r0 + 1 + rest.length) * T ≤ L := by
            have : r0 + 1 + rest.length = r0 + (ph :: rest).length := by
              simp only [List.length_cons]; omega
            rw [this]; exact hlen
          have hrec := ih
            (mld.runForward facade T (mld.getParentCellID facade ph pn ti) st r0 ph)
            (r0 + 1) hbc2 hlrun1 hlrun2 hlen2 hsent2 q (by simpa using hp)
          rw [hbrun] at hrec
          have harith : r0 + (q + 1) = r0 + 1 + q := by omega
          have hgd : (ph :: rest).getD (q + 1) default = rest.getD q default := rfl
          rw [harith, hgd]
          exact hrec


/-! ## Column traces of the bucket index -/

theorem bucketFind_append (n : NodeID) (e : NodeBucket) :
    ∀ (b : SearchSpaceWithBuckets) (m : NodeID),
    bucketFind (bucketAppend b n e) m =
      if m = n then some ((bucketFind b n).getD [] ++ [e]) else bucketFind b m := by
  intro b
  induction b with
  | nil =>
      intro m
      by_cases hmn : m = n
      · subst hmn
        simp [bucketAppend, bucketFind, List.find?]
      · have hbeq : (n == m) = false := beq_false_of_ne (fun h => hmn h.symm)
        simp [bucketAppend, bucketFind, List.find?, hbeq, hmn]
  | cons hd rest ih =>
      intro m
      unfold bucketAppend
      by_cases hpn : (hd.1 == n) = true
      · rw [if_pos hpn]
        have hp1 : hd.1 = n := by simpa using hpn
        by_cases hmn : m = n
        · subst hmn
          have hpm : (hd.1 == m) = true := by simpa using hp1
          simp [bucketFind, List.find?, hpm]
        · have hpm : (hd.1 == m) = false :=
            beq_false_of_ne (by rw [hp1]; exact fun h => hmn h.symm)
          simp [bucketFind, List.find?, hpm, hmn]
      · rw [if_neg hpn]
        by_cases hpm : (hd.1 == m) = true
        · have hp1 : hd.1 = m := by simpa using hpm
          have hmn : ¬ m = n := by
            intro h; subst h; exact hpn hpm
          simp [bucketFind, List.find?, hpm, hmn]
        · have hL : bucketFind (hd :: bucketAppend rest n e) m =
              bucketFind (bucketAppend rest n e) m := by
            simp [bucketFind, List.find?, hpm]
          rw [hL, ih m]
          by_cases hmn : m = n
          · rw [if_pos hmn, if_pos hmn]
            have hfn : (hd.1 == n) = false := by
              cases h : (hd.1 == n) with
              | true => exact absurd h hpn
              | false => rfl
            simp [bucketFind, List.find?, hfn]
          · rw [if_neg hmn, if_neg hmn]
            simp [bucketFind, List.find?, hpm]

theorem colTrace_nil (c : Nat) (m : NodeID) : colTrace c [] m = [] := rfl

theorem colTrace_append (c : Nat) (b : SearchSpaceWithBuckets) (n : NodeID)
    (e : NodeBucket) (m : NodeID) :
    colTrace c (bucketAppend b n e) m =
      colTrace c b m ++
        (if m = n ∧ e.target_id = c then [(e.weight, e.duration)] else []) := by
  unfold colTrace
  rw [bucketFind_append]
  by_cases hmn : m = n
  · rw [if_pos hmn]
    subst hmn
    simp only [Option.getD_some]
    rw [List.filterMap_append]
    congr 1
    by_cases hec : e.target_id = c <;> simp [List.filterMap, hec]
  · rw [if_neg hmn, if_neg (fun h => hmn h.1)]
    simp

theorem filterMap_trace (c : Nat) :
    ∀ (l : List NodeBucket),
    l.filterMap (fun e => if e.target_id = c then some (e.weight, e.duration) else none) =
      (l.filter (fun e => e.target_id == c)).map (fun e => (e.weight, e.duration)) := by
  intro l
  induction l with
  | nil => rfl
  | cons e t ih =>
      by_cases hec : e.target_id = c
      · have hbeq : (e.target_id == c) = true := by simpa using hec
        simp [List.filterMap_cons, List.filter_cons, hbeq, hec, ih]
      · have hbeq : (e.target_id == c) = false := beq_false_of_ne hec
        simp [List.filterMap_cons, List.filter_cons, hbeq, hec, ih]

theorem colTrace_filter (c : Nat) (B : SearchSpaceWithBuckets) (n : NodeID) :
    colTrace c B n =
      ((bucketListOf B n).filter (fun e => e.target_id == c)).map
        (fun e => (e.weight, e.duration)) := by
  unfold colTrace bucketListOf
  exact filterMap_trace c _

/-- A CH backward run at column `c` appends to column `c` exactly the
column-0 trace of the canonical run, at every node. -/
theorem ch_runBackward_trace (facade : ChFacade) (st : SState ChHeapData) (c : Nat)
    (ph : PhantomNode) :
    ∀ n, colTrace c (ch.runBackward facade st c ph).buckets n =
      colTrace c st.buckets n ++ colTrace 0 (ch.colState facade ph).buckets n := by
  unfold ch.runBackward ch.colState
  have hstep : ∀ x y : SState ChHeapData,
      (x.heap = y.heap ∧ ∀ n, colTrace c x.buckets n =
        colTrace c st.buckets n ++ colTrace 0 y.buckets n) →
      ((ch.backwardRoutingStep facade c x).heap =
          (ch.backwardRoutingStep facade 0 y).heap ∧
        ∀ n, colTrace c (ch.backwardRoutingStep facade c x).buckets n =
          colTrace c st.buckets n ++
            colTrace 0 (ch.backwardRoutingStep facade 0 y).buckets n) := by
    intro x y h
    obtain ⟨hh, htr⟩ := h
    constructor
    · rw [ch_backwardStep_heap, ch_backwardStep_heap, hh]
    · intro n
      rw [ch_backwardStep_buckets2, ch_backwardStep_buckets2, colTrace_append,
        colTrace_append, htr n, hh, List.append_assoc]
      congr 2
      by_cases hn : n = y.heap.deleteMin.1
      · rw [if_pos ⟨hn, rfl⟩, if_pos ⟨hn, rfl⟩]
      · rw [if_neg (fun hcon => hn hcon.1), if_neg (fun hcon => hn hcon.1)]
  have hpair := searchLoop_pair
    (fun x y => x.heap = y.heap ∧ ∀ n, colTrace c x.buckets n =
      colTrace c st.buckets n ++ colTrace 0 y.buckets n)
    (ch.backwardRoutingStep facade c) (ch.backwardRoutingStep facade 0)
    (fun x y h => h.1) hstep facade.numNodes
    { st with heap := ch.insertTargetInHeap Heap.init ph }
    { heap := ch.insertTargetInHeap Heap.init ph, buckets := [], weights := [],
      durations := [] }
    ⟨rfl, fun n => by rw [colTrace_nil, List.append_nil]⟩
  exact hpair.2

/-- An MLD backward run at column `c` appends to column `c` exactly the
column-0 trace of the canonical run, at every node. -/
theorem mld_runBackward_trace (facade : MldFacade) (pc : Nat × Nat)
    (st : SState MldHeapData) (c : Nat) (ph : PhantomNode) :
    ∀ n, colTrace c (mld.runBackward facade pc st c ph).buckets n =
      colTrace c st.buckets n ++ colTrace 0 (mld.colState facade pc ph).buckets n := by
  unfold mld.runBackward mld.colState
  have hstep : ∀ x y : SState MldHeapData,
      (x.heap = y.heap ∧ ∀ n, colTrace c x.buckets n =
        colTrace c st.buckets n ++ colTrace 0 y.buckets n) →
      ((mld.backwardRoutingStep facade c pc x).heap =
          (mld.backwardRoutingStep facade 0 pc y).heap ∧
        ∀ n, colTrace c (mld.backwardRoutingStep facade c pc x).buckets n =
          colTrace c st.buckets n ++
            colTrace 0 (mld.backwardRoutingStep facade 0 pc y).buckets n) := by
    intro x y h
    obtain ⟨hh, htr⟩ := h
    constructor
    · rw [mld_backwardStep_heap, mld_backwardStep_heap, hh]
    · intro n
      rw [mld_backwardStep_buckets2, mld_backwardStep_buckets2, colTrace_append,
        colTrace_append, htr n, hh, List.append_assoc]
      congr 2
      by_cases hn : n = y.heap.deleteMin.1
      · rw [if_pos ⟨hn, rfl⟩, if_pos ⟨hn, rfl⟩]
      · rw [if_neg (fun hcon => hn hcon.1), if_neg (fun hcon => hn hcon.1)]
  have hpair := searchLoop_pair
    (fun x y => x.heap = y.heap ∧ ∀ n, colTrace c x.buckets n =
      colTrace c st.buckets n ++ colTrace 0 y.buckets n)
    (mld.backwardRoutingStep facade c pc) (mld.backwardRoutingStep facade 0 pc)
    (fun x y h => h.1) hstep facade.numNodes
    { st with heap := mld.insertTargetInHeap Heap.init ph }
    { heap := mld.insertTargetInHeap Heap.init ph, buckets := [], weights := [],
      durations := [] }
    ⟨rfl, fun n => by rw [colTrace_nil, List.append_nil]⟩
  exact hpair.2

/-- A CH backward run at a different column leaves a column trace alone. -/
theorem ch_runBackward_trace_ne (facade : ChFacade) (st : SState ChHeapData)
    (c col : Nat) (hne : c ≠ col) (ph : PhantomNode) :
    ∀ n, colTrace c (ch.runBackward facade st col ph).buckets n =
      colTrace c st.buckets n := by
  unfold ch.runBackward
  refine searchLoop_preserve
    (fun x => ∀ n, colTrace c x.buckets n = colTrace c st.buckets n) _ ?_ _ _
    (fun n => rfl)
  intro x hx n
  rw [ch_backwardStep_buckets2, colTrace_append,
    if_neg (fun hcon => hne hcon.2.symm), List.append_nil]
  exact hx n

/-- An MLD backward run at a different column leaves a column trace alone. -/
theorem mld_runBackward_trace_ne (facade : MldFacade) (pc : Nat × Nat)
    (st : SState MldHeapData) (c col : Nat) (hne : c ≠ col) (ph : PhantomNode) :
    ∀ n, colTrace c (mld.runBackward facade pc st col ph).buckets n =
      colTrace c st.buckets n := by
  unfold mld.runBackward
  refine searchLoop_preserve
    (fun x => ∀ n, colTrace c x.buckets n = colTrace c st.buckets n) _ ?_ _ _
    (fun n => rfl)
  intro x hx n
  rw [mld_backwardStep_buckets2, colTrace_append,
    if_neg (fun hcon => hne hcon.2.symm), List.append_nil]
  exact hx n

/-- The CH backward phase from a later starting column leaves an earlier
column trace alone. -/
theorem ch_backwardPhase_trace_lt (facade : ChFacade) (c : Nat) :
    ∀ (l : List PhantomNode) (st : SState ChHeapData) (col0 : Nat), c < col0 →
      ∀ n, colTrace c (ch.backwardPhase facade l st col0).buckets n =
        colTrace c st.buckets n := by
  intro l
  induction l with
  | nil => intro st col0 _ n; rfl
  | cons ph rest ih =>
      intro st col0 hc n
      rw [ch.backwardPhase]
      rw [ih (ch.runBackward facade st col0 ph) (col0 + 1) (by omega) n]
      exact ch_runBackward_trace_ne facade st c col0 (by omega) ph n

/-- The MLD backward phase from a later starting column leaves an earlier
column trace alone. -/
theorem mld_backwardPhase_trace_lt (facade : MldFacade) (pn : List PhantomNode)
    (si : List Nat) (c : Nat) :
    ∀ (l : List PhantomNode) (st : SState MldHeapData) (col0 : Nat), c < col0 →
      ∀ n, colTrace c (mld.backwardPhase facade pn si l st col0).buckets n =
        colTrace c st.buckets n := by
  intro l
  induction l with
  | nil => intro st col0 _ n; rfl
  | cons ph rest ih =>
      intro st col0 hc n
      rw [mld.backwardPhase]
      rw [ih _ (col0 + 1) (by omega) n]
      exact mld_runBackward_trace_ne facade _ st c col0 (by omega) ph n

/-- Column `col0 + p` of the CH backward phase is the canonical trace of the
target phantom at position `p`. -/
theorem ch_backwardPhase_traceAt (facade : ChFacade) :
    ∀ (l : List PhantomNode) (st : SState ChHeapData) (col0 p : Nat), p < l.length →
      ∀ n, colTrace (col0 + p) (ch.backwardPhase facade l st col0).buckets n =
        colTrace (col0 + p) st.buckets n ++
          colTrace 0 (ch.colState facade (l.getD p default)).buckets n := by
  intro l
  induction l with
  | nil => intro st col0 p hp; exact absurd hp (by simp)
  | cons ph rest ih =>
      intro st col0 p hp n
      rw [ch.backwardPhase]
      cases p with
      | zero =>
          rw [Nat.add_zero]
          rw [ch_backwardPhase_trace_lt facade col0 rest _ (col0 + 1) (by omega) n]
          exact ch_runBackward_trace facade st col0 ph n
      | succ q =>
          have harith : col0 + (q + 1) = col0 + 1 + q := by omega
          rw [harith]
          rw [ih (ch.runBackward facade st col0 ph) (col0 + 1) q (by simpa using hp) n]
          rw [ch_runBackward_trace_ne facade st (col0 + 1 + q) col0 (by omega) ph n]
          have hgd : (ph :: rest).getD (q + 1) default = rest.getD q default := rfl
          rw [hgd]

/-- Column `col0 + p` of the MLD backward phase is the canonical trace of the
target phantom at position `p`, at its own parent cell. -/
theorem mld_backwardPhase_traceAt (facade : MldFacade) (pn : List PhantomNode)
    (si : List Nat) :
    ∀ (l : List PhantomNode) (st : SState MldHeapData) (col0 p : Nat), p < l.length →
      ∀ n, colTrace (col0 + p) (mld.backwardPhase facade pn si l st col0).buckets n =
        colTrace (col0 + p) st.buckets n ++
          colTrace 0 (mld.colState facade
            (mld.getParentCellID facade (l.getD p default) pn si)
            (l.getD p default)).buckets n := by
  intro l
  induction l with
  | nil => intro st col0 p hp; exact absurd hp (by simp)
  | cons ph rest ih =>
      intro st col0 p hp n
      rw [mld.backwardPhase]
      cases p with
      | zero =>
          rw [Nat.add_zero]
          rw [mld_backwardPhase_trace_lt facade pn si col0 rest _ (col0 + 1)
            (by omega) n]
          exact mld_runBackward_trace facade _ st col0 ph n
      | succ q =>
          have harith : col0 + (q + 1) = col0 + 1 + q := by omega
          rw [harith]
          rw [ih _ (col0 + 1) q (by simpa using hp) n]
          rw [mld_runBackward_trace_ne facade _ st (col0 + 1 + q) col0 (by omega) ph n]
          have hgd : (ph :: rest).getD (q + 1) default = rest.getD q default := rfl
          rw [hgd]


/-! ## Equal column traces give equal table columns through the forward phase -/

theorem cell_outside_row (i r T p : Nat) (hp : p < T) (hir : i ≠ r) :
    i * T + p < r * T ∨ r * T + T ≤ i * T + p := by
  rcases Nat.lt_or_ge i r with h | h
  · left
    have h2 : (i + 1) * T ≤ r * T := Nat.mul_le_mul_right T h
    have h3 : (i + 1) * T = i * T + T := by ring
    omega
  · right
    have hgt : r + 1 ≤ i := by omega
    have h2 : (r + 1) * T ≤ i * T := Nat.mul_le_mul_right T hgt
    have h3 : (r + 1) * T = r * T + T := by ring
    omega

/-- A CH forward step keeps two table columns equal whenever the bucket
index files equal traces under their two labels. -/
theorem ch_forwardStep_colEq (facade : ChFacade) (T p q : Nat)
    (B : SearchSpaceWithBuckets) (hb : bucketColsBelow T B) (hp : p < T) (hq : q < T)
    (htr : ∀ n, colTrace p B n = colTrace q B n) (L r : Nat) (hr : r * T + T ≤ L)
    (st : SState ChHeapData) (hB : st.buckets = B)
    (hw : st.weights.length = L) (hd : st.durations.length = L)
    (hcells : ∀ i, st.weights.getD (i * T + p) 0 = st.weights.getD (i * T + q) 0 ∧
      st.durations.getD (i * T + p) 0 = st.durations.getD (i * T + q) 0) :
    ∀ i,
      (ch.forwardRoutingStep facade r T st).weights.getD (i * T + p) 0 =
        (ch.forwardRoutingStep facade r T st).weights.getD (i * T + q) 0 ∧
      (ch.forwardRoutingStep facade r T st).durations.getD (i * T + p) 0 =
        (ch.forwardRoutingStep facade r T st).durations.getD (i * T + q) 0 := by
  intro i
  obtain ⟨hsw, hsd⟩ := ch_forwardStep_tables facade r T st
  rw [hsw, hsd, hB]
  have hf : ∀ cw cd (b1 b2 : NodeBucket), b1.weight = b2.weight →
      b1.duration = b2.duration →
      chCellFn facade st.heap cw cd b1 = chCellFn facade st.heap cw cd b2 := by
    intro cw cd b1 b2 h1 h2
    unfold chCellFn
    rw [h1, h2]
  by_cases hir : i = r
  · subst hir
    have hcols := bucketListOf_colsBelow T B st.heap.deleteMin.1 hb
    have hdp := applyHits_colDecomp (chCellFn facade st.heap) (i * T) T
      (bucketListOf B st.heap.deleteMin.1) (st.weights, st.durations) hcols
      (by show i * T + T ≤ st.weights.length; omega)
      (by show i * T + T ≤ st.durations.length; omega) p hp
    have hdq := applyHits_colDecomp (chCellFn facade st.heap) (i * T) T
      (bucketListOf B st.heap.deleteMin.1) (st.weights, st.durations) hcols
      (by show i * T + T ≤ st.weights.length; omega)
      (by show i * T + T ≤ st.durations.length; omega) q hq
    have hcell : ((st.weights, st.durations).1.getD (i * T + p) 0,
        (st.weights, st.durations).2.getD (i * T + p) 0) =
        ((st.weights, st.durations).1.getD (i * T + q) 0,
          (st.weights, st.durations).2.getD (i * T + q) 0) := by
      obtain ⟨h1, h2⟩ := hcells i
      show (st.weights.getD (i * T + p) 0, st.durations.getD (i * T + p) 0) =
        (st.weights.getD (i * T + q) 0, st.durations.getD (i * T + q) 0)
      rw [h1, h2]
    have hfold : cellFold (chCellFn facade st.heap)
        ((bucketListOf B st.heap.deleteMin.1).filter (fun b => b.target_id == p))
        ((st.weights, st.durations).1.getD (i * T + p) 0,
          (st.weights, st.durations).2.getD (i * T + p) 0) =
        cellFold (chCellFn facade st.heap)
        ((bucketListOf B st.heap.deleteMin.1).filter (fun b => b.target_id == q))
        ((st.weights, st.durations).1.getD (i * T + q) 0,
          (st.weights, st.durations).2.getD (i * T + q) 0) := by
      rw [hcell]
      exact cellFold_congr (chCellFn facade st.heap) hf _ _
        (by rw [← colTrace_filter, ← colTrace_filter]
            exact htr st.heap.deleteMin.1) _
    have hcomb := (hdp.trans hfold).trans hdq.symm
    exact ⟨congrArg Prod.fst hcomb, congrArg Prod.snd hcomb⟩
  · obtain ⟨h1p, h2p⟩ := applyHits_frame (chCellFn facade st.heap) (r * T) T
      (st.weights, st.durations) (bucketListOf B st.heap.deleteMin.1)
      (bucketListOf_colsBelow T B _ hb) (i * T + p) (cell_outside_row i r T p hp hir)
    obtain ⟨h1q, h2q⟩ := applyHits_frame (chCellFn facade st.heap) (r * T) T
      (st.weights, st.durations) (bucketListOf B st.heap.deleteMin.1)
      (bucketListOf_colsBelow T B _ hb) (i * T + q) (cell_outside_row i r T q hq hir)
    constructor
    · rw [h1p, h1q]; exact (hcells i).1
    · rw [h2p, h2q]; exact (hcells i).2

/-- An MLD forward step keeps two table columns equal whenever the bucket
index files equal traces under their two labels. -/
theorem mld_forwardStep_colEq (facade : MldFacade) (T p q : Nat) (pc : Nat × Nat)
    (B : SearchSpaceWithBuckets) (hb : bucketColsBelow T B) (hp : p < T) (hq : q < T)
    (htr : ∀ n, colTrace p B n = colTrace q B n) (L r : Nat) (hr : r * T + T ≤ L)
    (st : SState MldHeapData) (hB : st.buckets = B)
    (hw : st.weights.length = L) (hd : st.durations.length = L)
    (hcells : ∀ i, st.weights.getD (i * T + p) 0 = st.weights.getD (i * T + q) 0 ∧
      st.durations.getD (i * T + p) 0 = st.durations.getD (i * T + q) 0) :
    ∀ i,
      (mld.forwardRoutingStep facade r T pc st).weights.getD (i * T + p) 0 =
        (mld.forwardRoutingStep facade r T pc st).weights.getD (i * T + q) 0 ∧
      (mld.forwardRoutingStep facade r T pc st).durations.getD (i * T + p) 0 =
        (mld.forwardRoutingStep facade r T pc st).durations.getD (i * T + q) 0 := by
  intro i
  obtain ⟨hsw, hsd⟩ := mld_forwardStep_tables facade r T pc st
  rw [hsw, hsd, hB]
  have hf : ∀ cw cd (b1 b2 : NodeBucket), b1.weight = b2.weight →
      b1.duration = b2.duration →
      mldCellFn st.heap cw cd b1 = mldCellFn st.heap cw cd b2 := by
    intro cw cd b1 b2 h1 h2
    unfold mldCellFn
    rw [h1, h2]
  by_cases hir : i = r
  · subst hir
    have hcols := bucketListOf_colsBelow T B st.heap.deleteMin.1 hb
    have hdp := applyHits_colDecomp (mldCellFn st.heap) (i * T) T
      (bucketListOf B st.heap.deleteMin.1) (st.weights, st.durations) hcols
      (by show i * T + T ≤ st.weights.length; omega)
      (by show i * T + T ≤ st.durations.length; omega) p hp
    have hdq := applyHits_colDecomp (mldCellFn st.heap) (i * T) T
      (bucketListOf B st.heap.deleteMin.1) (st.weights, st.durations) hcols
      (by show i * T + T ≤ st.weights.length; omega)
      (by show i * T + T ≤ st.durations.length; omega) q hq
    have hcell : ((st.weights, st.durations).1.getD (i * T + p) 0,
        (st.weights, st.durations).2.getD (i * T + p) 0) =
        ((st.weights, st.durations).1.getD (i * T + q) 0,
          (st.weights, st.durations).2.getD (i * T + q) 0) := by
      obtain ⟨h1, h2⟩ := hcells i
      show (st.weights.getD (i * T + p) 0, st.durations.getD (i * T + p) 0) =
        (st.weights.getD (i * T + q) 0, st.durations.getD (i * T + q) 0)
      rw [h1, h2]
    have hfold : cellFold (mldCellFn st.heap)
        ((bucketListOf B st.heap.deleteMin.1).filter (fun b => b.target_id == p))
        ((st.weights, st.durations).1.getD (i * T + p) 0,
          (st.weights, st.durations).2.getD (i * T + p) 0) =
        cellFold (mldCellFn st.heap)
        ((bucketListOf B st.heap.deleteMin.1).filter (fun b => b.target_id == q))
        ((st.weights, st.durations).1.getD (i * T + q) 0,
          (st.weights, st.durations).2.getD (i * T + q) 0) := by
      rw [hcell]
      exact cellFold_congr (mldCellFn st.heap) hf _ _
        (by rw [← colTrace_filter, ← colTrace_filter]
            exact htr st.heap.deleteMin.1) _
    have hcomb := (hdp.trans hfold).trans hdq.symm
    exact ⟨congrArg Prod.fst hcomb, congrArg Prod.snd hcomb⟩
  · obtain ⟨h1p, h2p⟩ := applyHits_frame (mldCellFn st.heap) (r * T) T
      (st.weights, st.durations) (bucketListOf B st.heap.deleteMin.1)
      (bucketListOf_colsBelow T B _ hb) (i * T + p) (cell_outside_row i r T p hp hir)
    obtain ⟨h1q, h2q⟩ := applyHits_frame (mldCellFn st.heap) (r * T) T
      (st.weights, st.durations) (bucketListOf B st.heap.deleteMin.1)
      (bucketListOf_colsBelow T B _ hb) (i * T + q) (cell_outside_row i r T q hq hir)
    constructor
    · rw [h1p, h1q]; exact (hcells i).1
    · rw [h2p, h2q]; exact (hcells i).2

/-- A CH forward run keeps two table columns equal whenever the bucket index
files equal traces under their two labels. -/
theorem ch_runForward_colEq (facade : ChFacade) (T p q : Nat)
    (B : SearchSpaceWithBuckets) (hb : bucketColsBelow T B) (hp : p < T) (hq : q < T)
    (htr : ∀ n, colTrace p B n = colTrace q B n) (L r : Nat) (hr : r * T + T ≤ L)
    (st : SState ChHeapData) (ph : PhantomNode) (hB : st.buckets = B)
    (hw : st.weights.length = L) (hd : st.durations.length = L)
    (hcells : ∀ i, st.weights.getD (i * T + p) 0 = st.weights.getD (i * T + q) 0 ∧
      st.durations.getD (i * T + p) 0 = st.durations.getD (i * T + q) 0) :
    ∀ i,
      (ch.runForward facade T st r ph).weights.getD (i * T + p) 0 =
        (ch.runForward facade T st r ph).weights.getD (i * T + q) 0 ∧
      (ch.runForward facade T st r ph).durations.getD (i * T + p) 0 =
        (ch.runForward facade T st r ph).durations.getD (i * T + q) 0 := by
  unfold ch.runForward
  refine (searchLoop_preserve
    (fun x => x.buckets = B ∧ x.weights.length = L ∧ x.durations.length = L ∧
      ∀ i, x.weights.getD (i * T + p) 0 = x.weights.getD (i * T + q) 0 ∧
        x.durations.getD (i * T + p) 0 = x.durations.getD (i * T + q) 0)
    (ch.forwardRoutingStep facade r T) ?_ facade.numNodes
    { st with heap := ch.insertSourceInHeap Heap.init ph }
    ⟨hB, hw, hd, hcells⟩).2.2.2
  intro x hx
  obtain ⟨hxB, hxw, hxd, hxc⟩ := hx
  exact ⟨(ch_forwardStep_buckets facade r T x).trans hxB,
    (ch_forwardStep_len facade r T x).1.trans hxw,
    (ch_forwardStep_len facade r T x).2.trans hxd,
    ch_forwardStep_colEq facade T p q B hb hp hq htr L r hr x hxB hxw hxd hxc⟩

/-- An MLD forward run keeps two table columns equal whenever the bucket
index files equal traces under their two labels. -/
theorem mld_runForward_colEq (facade : MldFacade) (T p q : Nat) (pc : Nat × Nat)
    (B : SearchSpaceWithBuckets) (hb : bucketColsBelow T B) (hp : p < T) (hq : q < T)
    (htr : ∀ n, colTrace p B n = colTrace q B n) (L r : Nat) (hr : r * T + T ≤ L)
    (st : SState MldHeapData) (ph : PhantomNode) (hB : st.buckets = B)
    (hw : st.weights.length = L) (hd : st.durations.length = L)
    (hcells : ∀ i, st.weights.getD (i * T + p) 0 = st.weights.getD (i * T + q) 0 ∧
      st.durations.getD (i * T + p) 0 = st.durations.getD (i * T + q) 0) :
    ∀ i,
      (mld.runForward facade T pc st r ph).weights.getD (i * T + p) 0 =
        (mld.runForward facade T pc st r ph).weights.getD (i * T + q) 0 ∧
      (mld.runForward facade T pc st r ph).durations.getD (i * T + p) 0 =
        (mld.runForward facade T pc st r ph).durations.getD (i * T + q) 0 := by
  unfold mld.runForward
  refine (searchLoop_preserve
    (fun x => x.buckets = B ∧ x.weights.length = L ∧ x.durations.length = L ∧
      ∀ i, x.weights.getD (i * T + p) 0 = x.weights.getD (i * T + q) 0 ∧
        x.durations.getD (i * T + p) 0 = x.durations.getD (i * T + q) 0)
    (mld.forwardRoutingStep facade r T pc) ?_ facade.numNodes
    { st with heap := mld.insertSourceInHeap Heap.init ph }
    ⟨hB, hw, hd, hcells⟩).2.2.2
  intro x hx
  obtain ⟨hxB, hxw, hxd, hxc⟩ := hx
  exact ⟨(mld_forwardStep_buckets facade r T pc x).trans hxB,
    (mld_forwardStep_len facade r T pc x).1.trans hxw,
    (mld_forwardStep_len facade r T pc x).2.trans hxd,
    mld_forwardStep_colEq facade T p q pc B hb hp hq htr L r hr x hxB hxw hxd hxc⟩

/-- The CH forward phase keeps two table columns equal whenever the bucket
index files equal traces under their two labels. -/
theorem ch_forwardPhase_colEq (facade : ChFacade) (T p q : Nat)
    (B : SearchSpaceWithBuckets) (hb : bucketColsBelow T B) (hp : p < T) (hq : q < T)
    (htr : ∀ n, colTrace p B n = colTrace q B n) (L : Nat) :
    ∀ (l : List PhantomNode) (st : SState ChHeapData) (r0 : Nat),
      st.buckets = B → st.weights.length = L → st.durations.length = L →
      (r0 + l.length) * T ≤ L →
      (∀ i, st.weights.getD (i * T + p) 0 = st.weights.getD (i * T + q) 0 ∧
        st.durations.getD (i * T + p) 0 = st.durations.getD (i * T + q) 0) →
      ∀ i,
        (ch.forwardPhase facade T l st r0).weights.getD (i * T + p) 0 =
          (ch.forwardPhase facade T l st r0).weights.getD (i * T + q) 0 ∧
        (ch.forwardPhase facade T l st r0).durations.getD (i * T + p) 0 =
          (ch.forwardPhase facade T l st r0).durations.getD (i * T + q) 0 := by
  intro l
  induction l with
  | nil => intro st r0 _ _ _ _ hc i; exact hc i
  | cons ph rest ih =>
      intro st r0 hB hw hd hlen hc i
      rw [ch.forwardPhase]
      have hr : r0 * T + T ≤ L := by
        have h1 : (r0 + 1) * T ≤ (r0 + (ph :: rest).length) * T :=
          Nat.mul_le_mul_right T (by simp only [List.length_cons]; omega)
        have h2 : (r0 + 1) * T = r0 * T + T := by ring
        omega
      have hpres := ch_runForward_pres facade T st r0 ph
      refine ih (ch.runForward facade T st r0 ph) (r0 + 1)
        (hpres.1.trans hB) (hpres.2.1.trans hw) (hpres.2.2.trans hd) ?_ ?_ i
      · have : r0 + 1 + rest.length = r0 + (ph :: rest).length := by
          simp only [List.length_cons]; omega
        rw [this]; exact hlen
      · exact ch_runForward_colEq facade T p q B hb hp hq htr L r0 hr st ph hB hw hd hc

/-- The MLD forward phase keeps two table columns equal whenever the bucket
index files equal traces under their two labels. -/
theorem mld_forwardPhase_colEq (facade : MldFacade) (T p q : Nat)
    (pn : List PhantomNode) (ti : List Nat)
    (B : SearchSpaceWithBuckets) (hb : bucketColsBelow T B) (hp : p < T) (hq : q < T)
    (htr : ∀ n, colTrace p B n = colTrace q B n) (L : Nat) :
    ∀ (l : List PhantomNode) (st : SState MldHeapData) (r0 : Nat),
      st.buckets = B → st.weights.length = L → st.durations.length = L →
      (r0 + l.length) * T ≤ L →
      (∀ i, st.weights.getD (i * T + p) 0 = st.weights.getD (i * T + q) 0 ∧
        st.durations.getD (i * T + p) 0 = st.durations.getD (i * T + q) 0) →
      ∀ i,
        (mld.forwardPhase facade T pn ti l st r0).weights.getD (i * T + p) 0 =
          (mld.forwardPhase facade T pn ti l st r0).weights.getD (i * T + q) 0 ∧
        (mld.forwardPhase facade T pn ti l st r0).durations.getD (i * T + p) 0 =
          (mld.forwardPhase facade T pn ti l st r0).durations.getD (i * T + q) 0 := by
  intro l
  induction l with
  | nil => intro st r0 _ _ _ _ hc i; exact hc i
  | cons ph rest ih =>
      intro st r0 hB hw hd hlen hc i
      rw [mld.forwardPhase]
      have hr : r0 * T + T ≤ L := by
        have h1 : (r0 + 1) * T ≤ (r0 + (ph :: rest).length) * T :=
          Nat.mul_le_mul_right T (by simp only [List.length_cons]; omega)
        have h2 : (r0 + 1) * T = r0 * T + T := by ring
        omega
      have hpres := mld_runForward_pres facade T
        (mld.getParentCellID facade ph pn ti) st r0 ph
      refine ih
        (mld.runForward facade T (mld.getParentCellID facade ph pn ti) st r0 ph)
        (r0 + 1) (hpres.1.trans hB) (hpres.2.1.trans hw) (hpres.2.2.trans hd) ?_ ?_ i
      · have : r0 + 1 + rest.length = r0 + (ph :: rest).length := by
          simp only [List.length_cons]; omega
        rw [this]; exact hlen
      · exact mld_runForward_colEq facade T p q
          (mld.getParentCellID facade ph pn ti) B hb hp hq htr L r0 hr st ph hB hw hd hc


/-! ## Phantom selection and the assembled duplicate-row and column facts -/

theorem selectPhantoms_nil (ph : List PhantomNode) : selectPhantoms ph [] = ph := rfl

theorem selectPhantoms_range (ph : List PhantomNode) :
    selectPhantoms ph (List.range ph.length) = ph := by
  unfold selectPhantoms
  by_cases h : (List.range ph.length).isEmpty = true
  · rw [if_pos h]
  · rw [if_neg h]
    refine List.ext_getElem (by simp) ?_
    intro i h1 h2
    simp only [List.getElem_map, List.getElem_range]
    exact List.getD_eq_getElem ph default h2

theorem count_range (n : Nat) :
    (if (List.range n).isEmpty then n else (List.range n).length) = n := by
  cases n with
  | zero => simp
  | succ m => simp

theorem selectPhantoms_getD (ph : List PhantomNode) (idx : List Nat) (p : Nat)
    (hne : idx.isEmpty = false) (hp : p < idx.length) :
    (selectPhantoms ph idx).getD p default = ph.getD (idx.getD p 0) default := by
  unfold selectPhantoms
  rw [if_neg (by simp [hne])]
  rw [List.getD_eq_getElem _ default (by simpa using hp), List.getElem_map]
  rw [List.getD_eq_getElem idx 0 hp]

theorem replicate_colEq (S T p q : Nat) (hp : p < T) (hq : q < T) (v : Int) :
    ∀ i, (List.replicate (S * T) v).getD (i * T + p) 0 =
      (List.replicate (S * T) v).getD (i * T + q) 0 := by
  intro i
  rw [getD_replicate, getD_replicate]
  by_cases hi : i < S
  · have h1 : (i + 1) * T ≤ S * T := Nat.mul_le_mul_right T hi
    have h2 : (i + 1) * T = i * T + T := by ring
    rw [if_pos (by omega), if_pos (by omega)]
  · have h1 : S * T ≤ i * T := Nat.mul_le_mul_right T (by omega)
    rw [if_neg (by omega), if_neg (by omega)]

/-- The CH durations vector has length sources times targets. -/
theorem ch_manyToMany_len (facade : ChFacade) (ph : List PhantomNode) (si ti : List Nat) :
    (ch.manyToManySearch facade ph si ti).length =
      (if si.isEmpty then ph.length else si.length) *
        (if ti.isEmpty then ph.length else ti.length) := by
  simp only [ch.manyToManySearch, ch.manyToManyState]
  rw [(ch_forwardPhase_len facade _ _ _ _).2, (ch_backwardPhase_tables facade _ _ _).2]
  simp

/-- The MLD durations vector has length sources times targets. -/
theorem mld_manyToMany_len (facade : MldFacade) (ph : List PhantomNode)
    (si ti : List Nat) :
    (mld.manyToManySearch facade ph si ti).length =
      (if si.isEmpty then ph.length else si.length) *
        (if ti.isEmpty then ph.length else ti.length) := by
  simp only [mld.manyToManySearch, mld.manyToManyState]
  rw [(mld_forwardPhase_len facade _ _ _ _ _ _).2,
    (mld_backwardPhase_tables facade _ _ _ _ _).2]
  simp

/-- Equal source phantoms at two row positions give equal rows of the CH
durations vector. -/
theorem ch_manyToMany_rowDup (facade : ChFacade) (ph : List PhantomNode)
    (si ti : List Nat) (p q : Nat)
    (hp : p < (selectPhantoms ph si).length) (hq : q < (selectPhantoms ph si).length)
    (heq : (selectPhantoms ph si).getD p default = (selectPhantoms ph si).getD q default) :
    rowSlice (ch.manyToManySearch facade ph si ti)
        (p * (if ti.isEmpty then ph.length else ti.length))
        (if ti.isEmpty then ph.length else ti.length) =
      rowSlice (ch.manyToManySearch facade ph si ti)
        (q * (if ti.isEmpty then ph.length else ti.length))
        (if ti.isEmpty then ph.length else ti.length) := by
  simp only [ch.manyToManySearch, ch.manyToManyState]
  set S := if si.isEmpty then ph.length else si.length with hS
  set T := if ti.isEmpty then ph.length else ti.length with hT
  set init : SState ChHeapData :=
    ⟨Heap.init, [], List.replicate (S * T) INVALID_EDGE_WEIGHT,
      List.replicate (S * T) MAXIMAL_EDGE_DURATION⟩ with hinit
  set st := ch.backwardPhase facade (selectPhantoms ph ti) init 0 with hst
  have hbc : bucketColsBelow T st.buckets := by
    refine ch_backwardPhase_cols facade T _ init 0 ?_ ?_
    · rw [selectPhantoms_length]; omega
    · intro x hx; simp [hinit] at hx
  have hwst : st.weights = List.replicate (S * T) INVALID_EDGE_WEIGHT :=
    (ch_backwardPhase_tables facade _ init 0).1
  have hdst : st.durations = List.replicate (S * T) MAXIMAL_EDGE_DURATION :=
    (ch_backwardPhase_tables facade _ init 0).2
  have hlw : st.weights.length = S * T := by rw [hwst]; simp
  have hld : st.durations.length = S * T := by rw [hdst]; simp
  have hbound : (0 + (selectPhantoms ph si).length) * T ≤ S * T := by
    rw [selectPhantoms_length]
    simp [hS]
  have hsent : ∀ j, 0 * T ≤ j → j < S * T →
      st.weights.getD j 0 = INVALID_EDGE_WEIGHT ∧
      st.durations.getD j 0 = MAXIMAL_EDGE_DURATION := by
    intro j _ hj
    rw [hwst, hdst, getD_replicate, getD_replicate, if_pos hj, if_pos hj]
    exact ⟨rfl, rfl⟩
  have hrp := (ch_forwardPhase_row facade T (S * T) (selectPhantoms ph si) st 0
    hbc hlw hld hbound hsent p hp).2
  have hrq := (ch_forwardPhase_row facade T (S * T) (selectPhantoms ph si) st 0
    hbc hlw hld hbound hsent q hq).2
  rw [Nat.zero_add] at hrp hrq
  rw [hrp, hrq, heq]

/-- Equal source phantoms at two row positions give equal rows of the MLD
durations vector. -/
theorem mld_manyToMany_rowDup (facade : MldFacade) (ph : List PhantomNode)
    (si ti : List Nat) (p q : Nat)
    (hp : p < (selectPhantoms ph si).length) (hq : q < (selectPhantoms ph si).length)
    (heq : (selectPhantoms ph si).getD p default = (selectPhantoms ph si).getD q default) :
    rowSlice (mld.manyToManySearch facade ph si ti)
        (p * (if ti.isEmpty then ph.length else ti.length))
        (if ti.isEmpty then ph.length else ti.length) =
      rowSlice (mld.manyToManySearch facade ph si ti)
        (q * (if ti.isEmpty then ph.length else ti.length))
        (if ti.isEmpty then ph.length else ti.length) := by
  simp only [mld.manyToManySearch, mld.manyToManyState]
  set S := if si.isEmpty then ph.length else si.length with hS
  set T := if ti.isEmpty then ph.length else ti.length with hT
  set init : SState MldHeapData :=
    ⟨Heap.init, [], List.replicate (S * T) INVALID_EDGE_WEIGHT,
      List.replicate (S * T) MAXIMAL_EDGE_DURATION⟩ with hinit
  set st := mld.backwardPhase facade ph si (selectPhantoms ph ti) init 0 with hst
  have hbc : bucketColsBelow T st.buckets := by
    refine mld_backwardPhase_cols facade T ph si _ init 0 ?_ ?_
    · rw [selectPhantoms_length]; omega
    · intro x hx; simp [hinit] at hx
  have hwst : st.weights = List.replicate (S * T) INVALID_EDGE_WEIGHT :=
    (mld_backwardPhase_tables facade ph si _ init 0).1
  have hdst : st.durations = List.replicate (S * T) MAXIMAL_EDGE_DURATION :=
    (mld_backwardPhase_tables facade ph si _ init 0).2
  have hlw : st.weights.length = S * T := by rw [hwst]; simp
  have hld : st.durations.length = S * T := by rw [hdst]; simp
  have hbound : (0 + (selectPhantoms ph si).length) * T ≤ S * T := by
    rw [selectPhantoms_length]
    simp [hS]
  have hsent : ∀ j, 0 * T ≤ j → j < S * T →
      st.weights.getD j 0 = INVALID_EDGE_WEIGHT ∧
      st.durations.getD j 0 = MAXIMAL_EDGE_DURATION := by
    intro j _ hj
    rw [hwst, hdst, getD_replicate, getD_replicate, if_pos hj, if_pos hj]
    exact ⟨rfl, rfl⟩
  have hrp := (mld_forwardPhase_row facade T (S * T) ph ti (selectPhantoms ph si) st 0
    hbc hlw hld hbound hsent p hp).2
  have hrq := (mld_forwardPhase_row facade T (S * T) ph ti (selectPhantoms ph si) st 0
    hbc hlw hld hbound hsent q hq).2
  rw [Nat.zero_add] at hrp hrq
  rw [hrp, hrq, heq]

/-- Equal target phantoms at two column positions give equal columns of the
CH durations vector. -/
theorem ch_manyToMany_colDup (facade : ChFacade) (ph : List PhantomNode)
    (si ti : List Nat) (p q : Nat)
    (hp : p < (selectPhantoms ph ti).length) (hq : q < (selectPhantoms ph ti).length)
    (heq : (selectPhantoms ph ti).getD p default = (selectPhantoms ph ti).getD q default) :
    ∀ i, (ch.manyToManySearch facade ph si ti).getD
        (i * (if ti.isEmpty then ph.length else ti.length) + p) 0 =
      (ch.manyToManySearch facade ph si ti).getD
        (i * (if ti.isEmpty then ph.length else ti.length) + q) 0 := by
  simp only [ch.manyToManySearch, ch.manyToManyState]
  set S := if si.isEmpty then ph.length else si.length with hS
  set T := if ti.isEmpty then ph.length else ti.length with hT
  set init : SState ChHeapData :=
    ⟨Heap.init, [], List.replicate (S * T) INVALID_EDGE_WEIGHT,
      List.replicate (S * T) MAXIMAL_EDGE_DURATION⟩ with hinit
  set st := ch.backwardPhase facade (selectPhantoms ph ti) init 0 with hst
  have hpT : p < T := by
    rw [selectPhantoms_length] at hp
    omega
  have hqT : q < T := by
    rw [selectPhantoms_length] at hq
    omega
  have hbc : bucketColsBelow T st.buckets := by
    refine ch_backwardPhase_cols facade T _ init 0 ?_ ?_
    · rw [selectPhantoms_length]; omega
    · intro x hx; simp [hinit] at hx
  have htr : ∀ n, colTrace p st.buckets n = colTrace q st.buckets n := by
    intro n
    have htp := ch_backwardPhase_traceAt facade (selectPhantoms ph ti) init 0 p
      (by rw [selectPhantoms_length] at hp ⊢; omega) n
    have htq := ch_backwardPhase_traceAt facade (selectPhantoms ph ti) init 0 q
      (by rw [selectPhantoms_length] at hq ⊢; omega) n
    rw [Nat.zero_add] at htp htq
    rw [htp, htq, heq]
    rfl
  have hwst : st.weights = List.replicate (S * T) INVALID_EDGE_WEIGHT :=
    (ch_backwardPhase_tables facade _ init 0).1
  have hdst : st.durations = List.replicate (S * T) MAXIMAL_EDGE_DURATION :=
    (ch_backwardPhase_tables facade _ init 0).2
  have hlw : st.weights.length = S * T := by rw [hwst]; simp
  have hld : st.durations.length = S * T := by rw [hdst]; simp
  have hbound : (0 + (selectPhantoms ph si).length) * T ≤ S * T := by
    rw [selectPhantoms_length]
    simp [hS]
  have hcells : ∀ i, st.weights.getD (i * T + p) 0 = st.weights.getD (i * T + q) 0 ∧
      st.durations.getD (i * T + p) 0 = st.durations.getD (i * T + q) 0 := by
    intro i
    rw [hwst, hdst]
    exact ⟨replicate_colEq S T p q hpT hqT _ i, replicate_colEq S T p q hpT hqT _ i⟩
  intro i
  exact (ch_forwardPhase_colEq facade T p q st.buckets hbc hpT hqT htr (S * T)
    (selectPhantoms ph si) st 0 rfl hlw hld hbound hcells i).2

/-- Equal target phantoms at two column positions give equal columns of the
MLD durations vector. -/
theorem mld_manyToMany_colDup (facade : MldFacade) (ph : List PhantomNode)
    (si ti : List Nat) (p q : Nat)
    (hp : p < (selectPhantoms ph ti).length) (hq : q < (selectPhantoms ph ti).length)
    (heq : (selectPhantoms ph ti).getD p default = (selectPhantoms ph ti).getD q default) :
    ∀ i, (mld.manyToManySearch facade ph si ti).getD
        (i * (if ti.isEmpty then ph.length else ti.length) + p) 0 =
      (mld.manyToManySearch facade ph si ti).getD
        (i * (if ti.isEmpty then ph.length else ti.length) + q) 0 := by
  simp only [mld.manyToManySearch, mld.manyToManyState]
  set S := if si.isEmpty then ph.length else si.length with hS
  set T := if ti.isEmpty then ph.length else ti.length with hT
  set init : SState MldHeapData :=
    ⟨Heap.init, [], List.replicate (S * T) INVALID_EDGE_WEIGHT,
      List.replicate (S * T) MAXIMAL_EDGE_DURATION⟩ with hinit
  set st := mld.backwardPhase facade ph si (selectPhantoms ph ti) init 0 with hst
  have hpT : p < T := by
    rw [selectPhantoms_length] at hp
    omega
  have hqT : q < T := by
    rw [selectPhantoms_length] at hq
    omega
  have hbc : bucketColsBelow T st.buckets := by
    refine mld_backwardPhase_cols facade T ph si _ init 0 ?_ ?_
    · rw [selectPhantoms_length]; omega
    · intro x hx; simp [hinit] at hx
  have htr : ∀ n, colTrace p st.buckets n = colTrace q st.buckets n := by
    intro n
    have htp := mld_backwardPhase_traceAt facade ph si (selectPhantoms ph ti) init 0 p
      (by rw [selectPhantoms_length] at hp ⊢; omega) n
    have htq := mld_backwardPhase_traceAt facade ph si (selectPhantoms ph ti) init 0 q
      (by rw [selectPhantoms_length] at hq ⊢; omega) n
    rw [Nat.zero_add] at htp htq
    rw [htp, htq, heq]
    rfl
  have hwst : st.weights = List.replicate (S * T) INVALID_EDGE_WEIGHT :=
    (mld_backwardPhase_tables facade ph si _ init 0).1
  have hdst : st.durations = List.replicate (S * T) MAXIMAL_EDGE_DURATION :=
    (mld_backwardPhase_tables facade ph si _ init 0).2
  have hlw : st.weights.length = S * T := by rw [hwst]; simp
  have hld : st.durations.length = S * T := by rw [hdst]; simp
  have hbound : (0 + (selectPhantoms ph si).length) * T ≤ S * T := by
    rw [selectPhantoms_length]
    simp [hS]
  have hcells : ∀ i, st.weights.getD (i * T + p) 0 = st.weights.getD (i * T + q) 0 ∧
      st.durations.getD (i * T + p) 0 = st.durations.getD (i * T + q) 0 := by
    intro i
    rw [hwst, hdst]
    exact ⟨replicate_colEq S T p q hpT hqT _ i, replicate_colEq S T p q hpT hqT _ i⟩
  intro i
  exact (mld_forwardPhase_colEq facade T p q ph ti st.buckets hbc hpT hqT htr (S * T)
    (selectPhantoms ph si) st 0 rfl hlw hld hbound hcells i).2


/-! ## Empty index lists mean all phantoms in order -/

theorem mld_getParentCellID_congr (facade : MldFacade) (src : PhantomNode)
    (pn : List PhantomNode) (i1 i2 : List Nat)
    (h : selectPhantoms pn i1 = selectPhantoms pn i2) :
    mld.getParentCellID facade src pn i1 = mld.getParentCellID facade src pn i2 := by
  unfold mld.getParentCellID
  rw [h]

theorem mld_backwardPhase_congr (facade : MldFacade) (pn : List PhantomNode)
    (i1 i2 : List Nat) (h : selectPhantoms pn i1 = selectPhantoms pn i2) :
    ∀ (l : List PhantomNode) (st : SState MldHeapData) (col0 : Nat),
      mld.backwardPhase facade pn i1 l st col0 =
        mld.backwardPhase facade pn i2 l st col0 := by
  intro l
  induction l with
  | nil => intro st col0; rfl
  | cons x rest ih =>
      intro st col0
      rw [mld.backwardPhase, mld.backwardPhase,
        mld_getParentCellID_congr facade x pn i1 i2 h, ih]

theorem mld_forwardPhase_congr (facade : MldFacade) (T : Nat) (pn : List PhantomNode)
    (i1 i2 : List Nat) (h : selectPhantoms pn i1 = selectPhantoms pn i2) :
    ∀ (l : List PhantomNode) (st : SState MldHeapData) (row : Nat),
      mld.forwardPhase facade T pn i1 l st row =
        mld.forwardPhase facade T pn i2 l st row := by
  intro l
  induction l with
  | nil => intro st row; rfl
  | cons x rest ih =>
      intro st row
      rw [mld.forwardPhase, mld.forwardPhase,
        mld_getParentCellID_congr facade x pn i1 i2 h, ih]

/-- Empty source indices behave exactly like the full in-order index range
(CH). -/
theorem ch_manyToMany_sourcesAll (facade : ChFacade) (ph : List PhantomNode)
    (ti : List Nat) :
    ch.manyToManySearch facade ph [] ti =
      ch.manyToManySearch facade ph (List.range ph.length) ti := by
  simp only [ch.manyToManySearch, ch.manyToManyState]
  rw [selectPhantoms_range, selectPhantoms_nil, count_range]
  simp

/-- Empty target indices behave exactly like the full in-order index range
(CH). -/
theorem ch_manyToMany_targetsAll (facade : ChFacade) (ph : List PhantomNode)
    (si : List Nat) :
    ch.manyToManySearch facade ph si [] =
      ch.manyToManySearch facade ph si (List.range ph.length) := by
  simp only [ch.manyToManySearch, ch.manyToManyState]
  rw [selectPhantoms_range, selectPhantoms_nil, count_range]
  simp

/-- Empty source indices behave exactly like the full in-order index range
(MLD). -/
theorem mld_manyToMany_sourcesAll (facade : MldFacade) (ph : List PhantomNode)
    (ti : List Nat) :
    mld.manyToManySearch facade ph [] ti =
      mld.manyToManySearch facade ph (List.range ph.length) ti := by
  simp only [mld.manyToManySearch, mld.manyToManyState]
  rw [selectPhantoms_range, selectPhantoms_nil, count_range,
    mld_backwardPhase_congr facade ph [] (List.range ph.length)
      ((selectPhantoms_nil ph).trans (selectPhantoms_range ph).symm)]
  simp

/-- Empty target indices behave exactly like the full in-order index range
(MLD). -/
theorem mld_manyToMany_targetsAll (facade : MldFacade) (ph : List PhantomNode)
    (si : List Nat) :
    mld.manyToManySearch facade ph si [] =
      mld.manyToManySearch facade ph si (List.range ph.length) := by
  simp only [mld.manyToManySearch, mld.manyToManyState]
  rw [selectPhantoms_range, selectPhantoms_nil, count_range,
    mld_forwardPhase_congr facade _ ph [] (List.range ph.length)
      ((selectPhantoms_nil ph).trans (selectPhantoms_range ph).symm)]
  simp


/-- C6: `many_to_many_search` returns a durations vector of length
`|sources| * |targets|` laid out row-major with row = source index and
column = target index, for CH and MLD alike: (1, 2) the vector length is
the product of the selected counts, where an empty index list counts all
phantoms; (3, 4) an empty source or target index list behaves exactly like
the explicit full index range `0, 1, ..., |phantoms| - 1`, i.e. all
phantoms in order; (5, 6) duplicate source indices produce duplicate rows
(equal `T`-cell row slices at the two row positions); (7, 8) duplicate
target indices produce duplicate columns (equal cells at the two column
offsets in every row). -/
theorem c6_table_shape :
    (∀ (facade : ChFacade) (ph : List PhantomNode) (si ti : List Nat),
      (ch.manyToManySearch facade ph si ti).length =
        (if si.isEmpty then ph.length else si.length) *
          (if ti.isEmpty then ph.length else ti.length)) ∧
    (∀ (facade : MldFacade) (ph : List PhantomNode) (si ti : List Nat),
      (mld.manyToManySearch facade ph si ti).length =
        (if si.isEmpty then ph.length else si.length) *
          (if ti.isEmpty then ph.length else ti.length)) ∧
    (∀ (facade : ChFacade) (ph : List PhantomNode) (si ti : List Nat),
      ch.manyToManySearch facade ph [] ti =
        ch.manyToManySearch facade ph (List.range ph.length) ti ∧
      ch.manyToManySearch facade ph si [] =
        ch.manyToManySearch facade ph si (List.range ph.length)) ∧
    (∀ (facade : MldFacade) (ph : List PhantomNode) (si ti : List Nat),
      mld.manyToManySearch facade ph [] ti =
        mld.manyToManySearch facade ph (List.range ph.length) ti ∧
      mld.manyToManySearch facade ph si [] =
        mld.manyToManySearch facade ph si (List.range ph.length)) ∧
    (∀ (facade : ChFacade) (ph : List PhantomNode) (si ti : List Nat) (p q : Nat),
      p < si.length → q < si.length → si.getD p 0 = si.getD q 0 →
      rowSlice (ch.manyToManySearch facade ph si ti)
          (p * (if ti.isEmpty then ph.length else ti.length))
          (if ti.isEmpty then ph.length else ti.length) =
        rowSlice (ch.manyToManySearch facade ph si ti)
          (q * (if ti.isEmpty then ph.length else ti.length))
          (if ti.isEmpty then ph.length else ti.length)) ∧
    (∀ (facade : MldFacade) (ph : List PhantomNode) (si ti : List Nat) (p q : Nat),
      p < si.length → q < si.length → si.getD p 0 = si.getD q 0 →
      rowSlice (mld.manyToManySearch facade ph si ti)
          (p * (if ti.isEmpty then ph.length else ti.length))
          (if ti.isEmpty then ph.length else ti.length) =
        rowSlice (mld.manyToManySearch facade ph si ti)
          (q * (if ti.isEmpty then ph.length else ti.length))
          (if ti.isEmpty then ph.length else ti.length)) ∧
    (∀ (facade : ChFacade) (ph : List PhantomNode) (si ti : List Nat) (p q : Nat),
      p < ti.length → q < ti.length → ti.getD p 0 = ti.getD q 0 →
      ∀ i, (ch.manyToManySearch facade ph si ti).getD
          (i * (if ti.isEmpty then ph.length else ti.length) + p) 0 =
        (ch.manyToManySearch facade ph si ti).getD
          (i * (if ti.isEmpty then ph.length else ti.length) + q) 0) ∧
    (∀ (facade : MldFacade) (ph : List PhantomNode) (si ti : List Nat) (p q : Nat),
      p < ti.length → q < ti.length → ti.getD p 0 = ti.getD q 0 →
      ∀ i, (mld.manyToManySearch facade ph si ti).getD
          (i * (if ti.isEmpty then ph.length else ti.length) + p) 0 =
        (mld.manyToManySearch facade ph si ti).getD
          (i * (if ti.isEmpty then ph.length else ti.length) + q) 0) := by
  refine ⟨ch_manyToMany_len, mld_manyToMany_len,
    fun facade ph si ti =>
      ⟨ch_manyToMany_sourcesAll facade ph ti, ch_manyToMany_targetsAll facade ph si⟩,
    fun facade ph si ti =>
      ⟨mld_manyToMany_sourcesAll facade ph ti, mld_manyToMany_targetsAll facade ph si⟩,
    ?_, ?_, ?_, ?_⟩
  · intro facade ph si ti p q hp hq heq
    have hne : si.isEmpty = false := by
      cases si with
      | nil => simp at hp
      | cons a t => rfl
    have hp2 : p < (selectPhantoms ph si).length := by
      rw [selectPhantoms_length, hne]; simpa using hp
    have hq2 : q < (selectPhantoms ph si).length := by
      rw [selectPhantoms_length, hne]; simpa using hq
    have heq2 : (selectPhantoms ph si).getD p default =
        (selectPhantoms ph si).getD q default := by
      rw [selectPhantoms_getD ph si p hne hp, selectPhantoms_getD ph si q hne hq, heq]
    exact ch_manyToMany_rowDup facade ph si ti p q hp2 hq2 heq2
  · intro facade ph si ti p q hp hq heq
    have hne : si.isEmpty = false := by
      cases si with
      | nil => simp at hp
      | cons a t => rfl
    have hp2 : p < (selectPhantoms ph si).length := by
      rw [selectPhantoms_length, hne]; simpa using hp
    have hq2 : q < (selectPhantoms ph si).length := by
      rw [selectPhantoms_length, hne]; simpa using hq
    have heq2 : (selectPhantoms ph si).getD p default =
        (selectPhantoms ph si).getD q default := by
      rw [selectPhantoms_getD ph si p hne hp, selectPhantoms_getD ph si q hne hq, heq]
    exact mld_manyToMany_rowDup facade ph si ti p q hp2 hq2 heq2
  · intro facade ph si ti p q hp hq heq
    have hne : ti.isEmpty = false := by
      cases ti with
      | nil => simp at hp
      | cons a t => rfl
    have hp2 : p < (selectPhantoms ph ti).length := by
      rw [selectPhantoms_length, hne]; simpa using hp
    have hq2 : q < (selectPhantoms ph ti).length := by
      rw [selectPhantoms_length, hne]; simpa using hq
    have heq2 : (selectPhantoms ph ti).getD p default =
        (selectPhantoms ph ti).getD q default := by
      rw [selectPhantoms_getD ph ti p hne hp, selectPhantoms_getD ph ti q hne hq, heq]
    exact ch_manyToMany_colDup facade ph si ti p q hp2 hq2 heq2
  · intro facade ph si ti p q hp hq heq
    have hne : ti.isEmpty = false := by
      cases ti with
      | nil => simp at hp
      | cons a t => rfl
    have hp2 : p < (selectPhantoms ph ti).length := by
      rw [selectPhantoms_length, hne]; simpa using hp
    have hq2 : q < (selectPhantoms ph ti).length := by
      rw [selectPhantoms_length, hne]; simpa using hq
    have heq2 : (selectPhantoms ph ti).getD p default =
        (selectPhantoms ph ti).getD q default := by
      rw [selectPhantoms_getD ph ti p hne hp, selectPhantoms_getD ph ti q hne hq, heq]
    exact mld_manyToMany_colDup facade ph si ti p q hp2 hq2 heq2

/-- C6 witness: the eight parts at concrete inputs: a three-source (with a
repeated source index 0), two-target (repeated target index 1) call on the
concrete CH chain graph and the concrete two-cell MLD graph. -/
theorem c6_witness :
    ((ch.manyToManySearch chainFacade [phantomAt0, phantomAt2] [0, 1, 0]
        [1, 1]).length = 6) ∧
    ((mld.manyToManySearch splitMldFacade [phantomBoth01, phantomFwdDisabled]
        [0, 1, 0] [1, 1]).length = 6) ∧
    (ch.manyToManySearch chainFacade [phantomAt0, phantomAt2] [] [1] =
      ch.manyToManySearch chainFacade [phantomAt0, phantomAt2] (List.range 2) [1]) ∧
    (mld.manyToManySearch splitMldFacade [phantomBoth01, phantomFwdDisabled] [0] [] =
      mld.manyToManySearch splitMldFacade [phantomBoth01, phantomFwdDisabled] [0]
        (List.range 2)) ∧
    ((0 : Nat) < ([0, 1, 0] : List Nat).length ∧
      (2 : Nat) < ([0, 1, 0] : List Nat).length ∧
      ([0, 1, 0] : List Nat).getD 0 0 = ([0, 1, 0] : List Nat).getD 2 0 ∧
      rowSlice (ch.manyToManySearch chainFacade [phantomAt0, phantomAt2] [0, 1, 0]
          [1, 1]) (0 * 2) 2 =
        rowSlice (ch.manyToManySearch chainFacade [phantomAt0, phantomAt2] [0, 1, 0]
          [1, 1]) (2 * 2) 2) ∧
    (rowSlice (mld.manyToManySearch splitMldFacade [phantomBoth01, phantomFwdDisabled]
          [0, 1, 0] [1, 1]) (0 * 2) 2 =
      rowSlice (mld.manyToManySearch splitMldFacade [phantomBoth01, phantomFwdDisabled]
          [0, 1, 0] [1, 1]) (2 * 2) 2) ∧
    ((0 : Nat) < ([1, 1] : List Nat).length ∧
      (1 : Nat) < ([1, 1] : List Nat).length ∧
      ([1, 1] : List Nat).getD 0 0 = ([1, 1] : List Nat).getD 1 0 ∧
      (ch.manyToManySearch chainFacade [phantomAt0, phantomAt2] [0, 1, 0]
          [1, 1]).getD (0 * 2 + 0) 0 =
        (ch.manyToManySearch chainFacade [phantomAt0, phantomAt2] [0, 1, 0]
          [1, 1]).getD (0 * 2 + 1) 0) ∧
    ((mld.manyToManySearch splitMldFacade [phantomBoth01, phantomFwdDisabled]
          [0, 1, 0] [1, 1]).getD (1 * 2 + 0) 0 =
      (mld.manyToManySearch splitMldFacade [phantomBoth01, phantomFwdDisabled]
          [0, 1, 0] [1, 1]).getD (1 * 2 + 1) 0) :=
  ⟨c6_table_shape.1 chainFacade [phantomAt0, phantomAt2] [0, 1, 0] [1, 1],
   c6_table_shape.2.1 splitMldFacade [phantomBoth01, phantomFwdDisabled] [0, 1, 0]
     [1, 1],
   (c6_table_shape.2.2.1 chainFacade [phantomAt0, phantomAt2] [0] [1]).1,
   (c6_table_shape.2.2.2.1 splitMldFacade [phantomBoth01, phantomFwdDisabled]
     [0] [1]).2,
   ⟨by decide, by decide, by decide,
     c6_table_shape.2.2.2.2.1 chainFacade [phantomAt0, phantomAt2] [0, 1, 0] [1, 1]
       0 2 (by decide) (by decide) (by decide)⟩,
   c6_table_shape.2.2.2.2.2.1 splitMldFacade [phantomBoth01, phantomFwdDisabled]
     [0, 1, 0] [1, 1] 0 2 (by decide) (by decide) (by decide),
   ⟨by decide, by decide, by decide,
     c6_table_shape.2.2.2.2.2.2.1 chainFacade [phantomAt0, phantomAt2] [0, 1, 0]
       [1, 1] 0 1 (by decide) (by decide) (by decide) 0⟩,
   c6_table_shape.2.2.2.2.2.2.2 splitMldFacade [phantomBoth01, phantomFwdDisabled]
     [0, 1, 0] [1, 1] 0 1 (by decide) (by decide) (by decide) 1⟩

end Osrm
